import Mathlib

/-!
# crashy: wire protocol, fault handler and reporter

A shallow embedding of the crash-capture pipeline of `crashy`
(`include/simple-raw.h`, `src/crash.cpp`, `src/reporter.cpp`, `src/unwinder.cpp`)
together with theorems about the properties its specification states.

Conventions of the embedding

* a byte is a `Fin 256`; a `std::string` is the list of its bytes; a `const char*`
  is an `Option` of the list of the bytes that precede the terminating NUL
  (`none` is the null pointer), so that `strlen` is `List.length`;
* machine integers are natural numbers, with the conversions of the source
  (`uint32_t(x)`, `uint64_t(x)`) written as explicit reductions modulo `2^32`, `2^64`;
* the pipe is the list of bytes written to it, in order; the reading side is a
  `Reader`: the bytes not yet consumed and the `good` flag;
* what the code obtains from outside the repository (the clock, `strsignal`,
  `dladdr`, `_Unwind_Backtrace`, the DWARF symbolicator, `uname`, ...) is a
  parameter: a field of `Host`, `Machine` or `Build`;
* the diagnostic lines that `ReadCrash` prints on standard error while it reads,
  the restoring of the signal dispositions and the wait for the Reporter are not
  part of the embedding; the report handed to the sender (or printed) is.
-/

namespace Crashy

/-! ## Bytes and strings -/

abbrev Byte := Fin 256

abbrev Bytes := List Byte

/-- The bytes of an ASCII string literal of the source. -/
def lit (s : String) : Bytes :=
  s.toList.map fun c => Fin.ofNat c.toNat

/-- The conversion `uint32_t(x)`. -/
def toU32 (x : Nat) : Nat := x % 4294967296

/-- The conversion `uint64_t(x)`. -/
def toU64 (x : Nat) : Nat := x % 18446744073709551616

/-! ## Tag set (`CrashTag`, util.h) -/

def CrashTag.START : Nat := 1
def CrashTag.SIGNAL : Nat := 2
def CrashTag.UNCAUGHT_EXCEPTION : Nat := 3
def CrashTag.ASSERT : Nat := 4
def CrashTag.LIBRARY : Nat := 5
def CrashTag.PC : Nat := 6
def CrashTag.BREADCRUMB : Nat := 7
def CrashTag.CONTEXT : Nat := 8
def CrashTag.FINISH : Nat := 9

/-! ## Binary codec (simple-raw.h)

`simple-raw.h` declares the primitive readers and writers; their bodies
(`simple-raw.cpp`) are not part of the sources at hand and are modelled from
section 4.1 of the specification. The inline string writers are in the header. -/

/-- Modelled from the spec: the body of `WriteBinary(int, uint32_t)` is missing;
section 4.1 gives `write(u32)` as little-endian, fixed width: four bytes, least
significant first. -/
def WriteBinaryU32 (number : Nat) : Bytes :=
  [Fin.ofNat number, Fin.ofNat (number / 256), Fin.ofNat (number / 65536),
   Fin.ofNat (number / 16777216)]

/-- Modelled from the spec: the body of `WriteBinary(int, uint64_t)` is missing;
section 4.1 gives `write(u64)` as little-endian, fixed width: eight bytes, least
significant first. -/
def WriteBinaryU64 (number : Nat) : Bytes :=
  WriteBinaryU32 number ++ WriteBinaryU32 (number / 4294967296)

/-- Modelled from the spec: the body of `WriteBinary(int, const char*, uint32_t)` is
missing; section 4.1 gives `write(bytes)` as the u32 length followed by the raw
bytes: `size` bytes are taken from `data`. -/
def WriteBinaryData (data : Bytes) (size : Nat) : Bytes :=
  WriteBinaryU32 size ++ data.take size

/-- The length argument both inline string writers of simple-raw.h compute:
`len < std::numeric_limits<uint32_t>::max() ? uint32_t(len) : 0`. -/
def clampLength (len : Nat) : Nat :=
  if len < 4294967295 then toU32 len else 0

/-- Embeds `WriteBinary(int out, const char* str)` of simple-raw.h. -/
def WriteBinaryCStr (str : Option Bytes) : Bytes :=
  let len := match str with
    | some s => s.length
    | none => 0
  WriteBinaryData (str.getD []) (clampLength len)

/-- Embeds `WriteBinary(int out, const std::string& str)` of simple-raw.h. -/
def WriteBinaryStdString (str : Bytes) : Bytes :=
  WriteBinaryData str (clampLength str.length)

/-- The reading end of the pipe: the bytes not yet consumed and the `good` flag
that the readers share (`bool& good`). -/
structure Reader where
  input : Bytes
  good : Bool
deriving DecidableEq

/-- Modelled from the spec: the body of `ReadBinary(int, uint32_t, bool&)` is missing;
section 4.1: `read(T, default, &good)` reads the value; on a short read it sets
`good = false` and returns `default`; the flag is sticky (never set back to
true). A short read is the end of the pipe: nothing is left to read after it. -/
def ReadBinaryU32 (defaultValue : Nat) (r : Reader) : Nat × Reader :=
  match r.input with
  | b0 :: b1 :: b2 :: b3 :: rest =>
    (b0.val + 256 * b1.val + 65536 * b2.val + 16777216 * b3.val,
     { input := rest, good := r.good })
  | _ => (defaultValue, { input := [], good := false })

/-- Modelled from the spec: the body of `ReadBinary(int, uint64_t, bool&)` is missing;
eight bytes, little-endian, with the short-read rule of section 4.1. -/
def ReadBinaryU64 (defaultValue : Nat) (r : Reader) : Nat × Reader :=
  if 8 ≤ r.input.length then
    let lo := ReadBinaryU32 0 r
    let hi := ReadBinaryU32 0 lo.2
    (lo.1 + 4294967296 * hi.1, hi.2)
  else (defaultValue, { input := [], good := false })

/-- Modelled from the spec: the body of `ReadBinary(int, const std::string&, bool&)` is
missing; the inverse of `write(bytes)`: a u32 length, then that many raw bytes;
a short read of either part sets `good = false` and returns `default`. The
specification names no numeric bound for the reading side, so none is modelled. -/
def ReadBinaryString (defaultValue : Bytes) (r : Reader) : Bytes × Reader :=
  let len := ReadBinaryU32 0 r
  if len.2.good then
    if len.1 ≤ len.2.input.length then
      (len.2.input.take len.1, { input := len.2.input.drop len.1, good := true })
    else (defaultValue, { input := [], good := false })
  else (defaultValue, { input := len.2.input, good := false })

/-! ## Victim side: string writer (crash.cpp) -/

/-- Embeds `WriteString` of crash.cpp: a null pointer is the empty string, a string of
8192 bytes or more is written with length zero. -/
def WriteString (str : Option Bytes) : Bytes :=
  let s := str.getD []
  let length := s.length
  let length := if length ≥ 8192 then 0 else length
  WriteBinaryData s (toU32 length)

/-- The message body `FinishReport` writes for a breadcrumb whose message pointer
holds `message` and whose size field is `size`:
`WriteBinary(link, msg, std::min(uint32_t(1024UL), uint32_t(size)))`. -/
def WriteBreadcrumbBody (message : Bytes) (size : Nat) : Bytes :=
  WriteBinaryData message (min (toU32 1024) (toU32 size))

/-! ## Wire records -/

/-- One record of the wire protocol (section 4.2), with the fields at their wire
types: `u32` and `u64` values are natural numbers, strings are byte lists. -/
inductive Record where
  | signal (sig : Nat) (addr : Nat)
  | uncaughtException (description exceptionType : Bytes)
  | assertion (func file : Bytes) (line : Nat) (condition explanation : Bytes)
  | library (symbolName filename : Bytes) (offsetInFile : Nat) (pc : Nat)
  | pc (pc : Nat)
  | context (context : Bytes)
  | breadcrumb (level : Bytes) (time : Nat) (message : Bytes)
deriving DecidableEq

/-- The tag a record is sent under. -/
def Record.tag : Record → Nat
  | .signal .. => CrashTag.SIGNAL
  | .uncaughtException .. => CrashTag.UNCAUGHT_EXCEPTION
  | .assertion .. => CrashTag.ASSERT
  | .library .. => CrashTag.LIBRARY
  | .pc .. => CrashTag.PC
  | .context .. => CrashTag.CONTEXT
  | .breadcrumb .. => CrashTag.BREADCRUMB

/-! ## Victim side: record writers (crash.cpp) -/

/-- Embeds `PrintSymbolToReporter` of crash.cpp (`offset_in_func` is unused there). -/
def PrintSymbolToReporter (symbolName filename : Option Bytes) (offset_in_file pc : Nat) :
    Bytes :=
  WriteBinaryU32 (toU32 CrashTag.LIBRARY) ++ WriteString symbolName ++ WriteString filename
    ++ WriteBinaryU32 (toU32 offset_in_file) ++ WriteBinaryU64 (toU64 pc)

/-- Embeds `PrintPCToReporter` of crash.cpp. -/
def PrintPCToReporter (pc : Nat) : Bytes :=
  WriteBinaryU32 (toU32 CrashTag.PC) ++ WriteBinaryU64 (toU64 pc)

/-- The cause record of `SendToReporter` (crash.cpp, after the `START` tag):
`SIGNAL`, `uint32_t(sig)`, `uint64_t(p)`. The signal number is an `int`. -/
def WriteSignal (sig : Int) (p : Nat) : Bytes :=
  WriteBinaryU32 (toU32 CrashTag.SIGNAL) ++ WriteBinaryU32 (sig % 4294967296).toNat
    ++ WriteBinaryU64 (toU64 p)

/-- The cause record of `SendUncaughtExceptionToReporter` (crash.cpp, after the
`START` tag): the description first, the type name second. -/
def WriteUncaughtException (description exceptionType : Option Bytes) : Bytes :=
  WriteBinaryU32 (toU32 CrashTag.UNCAUGHT_EXCEPTION) ++ WriteString description
    ++ WriteString exceptionType

/-- The cause record of `CrashAssert` (crash.cpp, after the `START` tag). The line
is an `int`, sent as `uint32_t(line)`. -/
def WriteAssert (func file : Option Bytes) (line : Int) (condition explanation : Option Bytes) :
    Bytes :=
  WriteBinaryU32 (toU32 CrashTag.ASSERT) ++ WriteString func ++ WriteString file
    ++ WriteBinaryU32 (line % 4294967296).toNat ++ WriteString condition
    ++ WriteString explanation

/-- The context record of `FinishReport` (crash.cpp). -/
def WriteContext (context : Option Bytes) : Bytes :=
  WriteBinaryU32 (toU32 CrashTag.CONTEXT) ++ WriteString context

/-- A breadcrumb as `getBreadcrumbs` returns it:
`std::tuple<const char*, time_t, const char*, size_t>`; the message is a pointer
and a size, the time a `time_t` sent as `uint64_t(time)`. -/
structure Breadcrumb where
  level : Option Bytes
  time : Int
  message : Bytes
  size : Nat
deriving DecidableEq

/-- One breadcrumb record of `FinishReport` (crash.cpp). -/
def WriteBreadcrumb (c : Breadcrumb) : Bytes :=
  WriteBinaryU32 (toU32 CrashTag.BREADCRUMB) ++ WriteString c.level
    ++ WriteBinaryU64 (c.time % 18446744073709551616).toNat
    ++ WriteBreadcrumbBody c.message c.size

/-- The bytes the Victim-side writers emit for a record whose fields are given at
their wire types: strings as non-null pointers, the breadcrumb message with its
own length as size. -/
def writeRecord : Record → Bytes
  | .signal sig addr => WriteSignal sig addr
  | .uncaughtException description exceptionType =>
    WriteUncaughtException (some description) (some exceptionType)
  | .assertion func file line condition explanation =>
    WriteAssert (some func) (some file) line (some condition) (some explanation)
  | .library symbolName filename offsetInFile addr =>
    PrintSymbolToReporter (some symbolName) (some filename) offsetInFile addr
  | .pc addr => PrintPCToReporter addr
  | .context context => WriteContext (some context)
  | .breadcrumb level time message =>
    WriteBreadcrumb { level := some level, time := time, message := message,
                      size := message.length }

/-! ## Reporter side: decoding one record (reporter.cpp, body of the loop of `ReadCrash`) -/

/-- What one turn of the `while (good)` loop of `ReadCrash` read. -/
inductive Step where
  /-- The tag is `FINISH`: `break`. -/
  | finish
  /-- A known tag whose fields were all read with `good` still true. -/
  | record (r : Record)
  /-- A known tag, but `good` is false after its fields: `if (!good) break`. -/
  | stop
  /-- No branch of the loop body matches the tag value. -/
  | skip (tag : Nat)
deriving DecidableEq

/-- The `SIGNAL` branch of the loop of `ReadCrash`: the fields, then `if (!good) break`. -/
def ReadSignal (r : Reader) : Step × Reader :=
  let sig := ReadBinaryU32 0 r
  let p := ReadBinaryU64 0 sig.2
  (if p.2.good then .record (.signal sig.1 p.1) else .stop, p.2)

/-- The `UNCAUGHT_EXCEPTION` branch of the loop of `ReadCrash`. -/
def ReadUncaughtException (r : Reader) : Step × Reader :=
  let cause := ReadBinaryString [] r
  let exceptionType := ReadBinaryString [] cause.2
  (if exceptionType.2.good then .record (.uncaughtException cause.1 exceptionType.1)
   else .stop, exceptionType.2)

/-- The `ASSERT` branch of the loop of `ReadCrash`. -/
def ReadAssert (r : Reader) : Step × Reader :=
  let func := ReadBinaryString [] r
  let file := ReadBinaryString [] func.2
  let line := ReadBinaryU32 0 file.2
  let condition := ReadBinaryString [] line.2
  let explanation := ReadBinaryString [] condition.2
  (if explanation.2.good then
     .record (.assertion func.1 file.1 line.1 condition.1 explanation.1)
   else .stop, explanation.2)

/-- The `LIBRARY` branch of the loop of `ReadCrash`. -/
def ReadLibrary (r : Reader) : Step × Reader :=
  let symbolName := ReadBinaryString [] r
  let filename := ReadBinaryString [] symbolName.2
  let offset_in_file := ReadBinaryU32 0 filename.2
  let pc := ReadBinaryU64 0 offset_in_file.2
  (if pc.2.good then .record (.library symbolName.1 filename.1 offset_in_file.1 pc.1)
   else .stop, pc.2)

/-- The `PC` branch of the loop of `ReadCrash`. -/
def ReadPC (r : Reader) : Step × Reader :=
  let pc := ReadBinaryU64 0 r
  (if pc.2.good then .record (.pc pc.1) else .stop, pc.2)

/-- The `CONTEXT` branch of the loop of `ReadCrash`. -/
def ReadContext (r : Reader) : Step × Reader :=
  let context := ReadBinaryString [] r
  (if context.2.good then .record (.context context.1) else .stop, context.2)

/-- The `BREADCRUMB` branch of the loop of `ReadCrash`. -/
def ReadBreadcrumb (r : Reader) : Step × Reader :=
  let level := ReadBinaryString [] r
  let time := ReadBinaryU64 0 level.2
  let description := ReadBinaryString [] time.2
  (if description.2.good then .record (.breadcrumb level.1 time.1 description.1)
   else .stop, description.2)

/-- One turn of the loop of `ReadCrash`: the tag, then the branch of the tag, in the
order of the tests of the source. -/
def ReadRecord (r : Reader) : Step × Reader :=
  let tag := ReadBinaryU32 0 r
  if tag.1 = CrashTag.FINISH then (.finish, tag.2)
  else if tag.1 = CrashTag.SIGNAL then ReadSignal tag.2
  else if tag.1 = CrashTag.UNCAUGHT_EXCEPTION then ReadUncaughtException tag.2
  else if tag.1 = CrashTag.ASSERT then ReadAssert tag.2
  else if tag.1 = CrashTag.LIBRARY then ReadLibrary tag.2
  else if tag.1 = CrashTag.PC then ReadPC tag.2
  else if tag.1 = CrashTag.CONTEXT then ReadContext tag.2
  else if tag.1 = CrashTag.BREADCRUMB then ReadBreadcrumb tag.2
  else (.skip tag.1, tag.2)

/-- The records of the round-trip law: integer fields within their wire types, every
string shorter than 8192 bytes, a breadcrumb message of at most 1024 bytes. -/
def Record.Bounded : Record → Prop
  | .signal sig addr => sig < 4294967296 ∧ addr < 18446744073709551616
  | .uncaughtException description exceptionType =>
    description.length < 8192 ∧ exceptionType.length < 8192
  | .assertion func file line condition explanation =>
    func.length < 8192 ∧ file.length < 8192 ∧ line < 4294967296 ∧ condition.length < 8192
      ∧ explanation.length < 8192
  | .library symbolName filename offsetInFile addr =>
    symbolName.length < 8192 ∧ filename.length < 8192 ∧ offsetInFile < 4294967296
      ∧ addr < 18446744073709551616
  | .pc addr => addr < 18446744073709551616
  | .context ctx => ctx.length < 8192
  | .breadcrumb level time message =>
    level.length < 8192 ∧ time < 18446744073709551616 ∧ message.length ≤ 1024

/-! ## Victim side: frame filter and `Process` (crash.cpp) -/

/-- The fields of `Dl_info` that `Process` reads. -/
structure DlInfo where
  dli_fname : Option Bytes
  dli_fbase : Nat
  dli_sname : Option Bytes
  dli_saddr : Nat
deriving DecidableEq

/-- The three pairs of printers the source assigns to `printSymbol` / `printPC`. -/
inductive Printer where
  /-- Stands for `PrintSymbolToReporter` / `PrintPCToReporter`: records on the pipe. -/
  | toReporter
  /-- Stands for `PrintSymbolRaw` / `PrintPCRaw`: unresolved lines on standard error. -/
  | raw
  /-- Stands for `PrintSymbol` / `PrintPC`: resolved lines on standard error. -/
  | resolved
deriving DecidableEq

/-- Embeds `struct ToReporterArgs` of crash.cpp. -/
structure ToReporterArgs where
  filter : Option (List Bytes) := none
  skipUntilMatch : Bool := true
  printSymbol : Printer
  printPC : Printer
deriving DecidableEq

/-- Embeds `ToReporterArgs::display(const char* name)`: the answer and the updated
`skipUntilMatch`. The loop over the null-terminated `filter` array compares with
`strcmp`. -/
def ToReporterArgs.display (args : ToReporterArgs) (name : Option Bytes) :
    Bool × ToReporterArgs :=
  match args.filter with
  | some filter =>
    match name with
    | some n =>
      if filter.any (fun current => decide (n = current)) then
        (false, { args with skipUntilMatch := false })
      else if args.skipUntilMatch then (false, args)
      else (true, args)
    | none =>
      if args.skipUntilMatch then (false, args) else (true, args)
  | none => (true, args)

/-- Embeds `ToReporterArgs::display()`: `filter && !skipUntilMatch`. -/
def ToReporterArgs.displayPC (args : ToReporterArgs) : Bool :=
  args.filter.isSome && !args.skipUntilMatch

/-- Embeds `strncmp(a, b, n) == 0` on C strings given by their bytes before the NUL: the
comparison covers the terminator when a string is shorter than `n`. -/
def strncmpEq (a b : Bytes) (n : Nat) : Bool :=
  decide ((a ++ [0]).take n = (b ++ [0]).take n)

/-- A line on standard error, by the function that prints it. -/
inductive ErrLine where
  /-- The `=== CRASH ===` banner of `SendToReporter`, with `sig` and `p`. -/
  | crashSignal (sig : Int) (p : Nat)
  /-- The `=== CRASH ===` banner of `CrashAssert`, with its four arguments. -/
  | crashAssert (func file : Option Bytes) (line : Int) (condition : Option Bytes)
  /-- The `=== CRASH ===` banner of `GenerateDumpOnUncaughtException`. -/
  | crashUncaught (exceptionType description : Bytes)
  /-- Stands for `PrintSymbolRaw(symbolName, offset_in_func, filename, offset_in_file, pc)`. -/
  | symbolRaw (symbolName : Option Bytes) (offset_in_func : Nat) (filename : Option Bytes)
      (offset_in_file : Nat) (pc : Nat)
  /-- Stands for `PrintPCRaw(pc)`. -/
  | pcRaw (pc : Nat)
  /-- Stands for `PrintSymbol(symbolName, offset_in_func, filename, offset_in_file, pc)`. -/
  | symbol (symbolName : Option Bytes) (offset_in_func : Nat) (filename : Option Bytes)
      (offset_in_file : Nat) (pc : Nat)
  /-- Stands for `PrintPC(pc)`. -/
  | pc (pc : Nat)
deriving DecidableEq

/-- What the callback of the unwinder reads and writes: its argument record, the
bytes written to `crashReporterLink` and the lines printed on standard error. -/
structure Victim where
  args : ToReporterArgs
  pipe : Bytes := []
  err : List ErrLine := []
deriving DecidableEq

/-- The call `args->printSymbol(...)` of `Process`. -/
def Victim.printSymbol (v : Victim) (symbolName : Option Bytes) (offset_in_func : Nat)
    (filename : Option Bytes) (offset_in_file pc : Nat) : Victim :=
  match v.args.printSymbol with
  | .toReporter =>
    { v with pipe := v.pipe ++ PrintSymbolToReporter symbolName filename offset_in_file pc }
  | .raw =>
    { v with err := v.err ++ [.symbolRaw symbolName offset_in_func filename offset_in_file pc] }
  | .resolved =>
    { v with err := v.err ++ [.symbol symbolName offset_in_func filename offset_in_file pc] }

/-- The call `args->printPC(pc)` of `Process`. -/
def Victim.printPC (v : Victim) (pc : Nat) : Victim :=
  match v.args.printPC with
  | .toReporter => { v with pipe := v.pipe ++ PrintPCToReporter pc }
  | .raw => { v with err := v.err ++ [.pcRaw pc] }
  | .resolved => { v with err := v.err ++ [.pc pc] }

/-- Subtraction of two `uintptr_t` / `uint64_t` values. -/
def subU64 (a b : Nat) : Nat :=
  (toU64 a + 18446744073709551616 - toU64 b) % 18446744073709551616

/-- Embeds `Process(pc, args)` of crash.cpp, with `dladdr` as a function of the address
(`none` when it returns 0). The result is the stop flag and the state after the
call. -/
def Process (dladdr : Nat → Option DlInfo) (pc : Nat) (v : Victim) : Bool × Victim :=
  match dladdr pc with
  | some dyldInfo =>
    let d := v.args.display dyldInfo.dli_sname
    let v1 : Victim := { v with args := d.2 }
    if d.1 then
      let offset_in_file := subU64 pc dyldInfo.dli_fbase
      let offset_in_func := toU32 (subU64 pc dyldInfo.dli_saddr)
      let v2 := v1.printSymbol dyldInfo.dli_sname offset_in_func dyldInfo.dli_fname
        (toU32 offset_in_file) pc
      (match dyldInfo.dli_sname with
        | some sname =>
          strncmpEq (lit "main") sname 5 || strncmpEq (lit "GlobalDispatcherRun") sname 20
        | none => false, v2)
    else (false, v1)
  | none =>
    if v.args.displayPC then (false, v.printPC pc) else (false, v)

/-! ## Stack unwinder (unwinder.cpp) -/

/-- Embeds `_Unwind_Reason_Code`, the two values `backtrace_helper` returns. -/
inductive UnwindReason where
  | URC_NO_REASON
  | URC_END_OF_STACK
deriving DecidableEq

/-- A frame as the CFI unwinder presents it to its callback: the value of
`_Unwind_GetIP` / `_Unwind_GetIPInfo` and the `ip_before_insn` flag. -/
structure UnwindContext where
  ip : Nat
  ip_before_insn : Bool
deriving DecidableEq

/-- Embeds `struct unwind_helper`, with the state of the `report` callback in place of
`reportArg`. -/
structure UnwindHelper (σ : Type) where
  left : Int
  reportArg : σ

/-- Embeds `backtrace_helper` of unwinder.cpp; `haveGetIPInfo` is the build flag
`HAVE_GETIPINFO`. The post-decrement `arg->left--` takes place on every call. -/
def backtrace_helper {σ : Type} (haveGetIPInfo : Bool) (report : Nat → σ → Bool × σ)
    (ctx : UnwindContext) (arg : UnwindHelper σ) : UnwindReason × UnwindHelper σ :=
  let arg1 : UnwindHelper σ := { arg with left := arg.left - 1 }
  if arg.left ≤ 0 then (.URC_END_OF_STACK, arg1)
  else if ctx.ip = 0 then (.URC_END_OF_STACK, arg1)
  else
    let ip := if haveGetIPInfo && ctx.ip_before_insn then ctx.ip else ctx.ip - 1
    let r := report ip arg1.reportArg
    if r.1 then (.URC_END_OF_STACK, { arg1 with reportArg := r.2 })
    else (.URC_NO_REASON, { arg1 with reportArg := r.2 })

/-- The library routine `_Unwind_Backtrace`, which is not part of the repository:
it presents the frames of the stack to the callback one after the other, from the
innermost, and stops at the end of the stack or as soon as the callback returns
anything but `_URC_NO_REASON`. -/
def Unwind_Backtrace {α : Type} (trace : UnwindContext → α → UnwindReason × α) :
    List UnwindContext → α → α
  | [], a => a
  | ctx :: rest, a =>
    match trace ctx a with
    | (.URC_NO_REASON, a1) => Unwind_Backtrace trace rest a1
    | (.URC_END_OF_STACK, a1) => a1

/-- Embeds `StackTrace(report, reportArg, max_size)` of unwinder.cpp: the value returned
(`arg.left`) and the state of the callback. -/
def StackTrace {σ : Type} (haveGetIPInfo : Bool) (stack : List UnwindContext)
    (report : Nat → σ → Bool × σ) (reportArg : σ) (max_size : Int) : Int × σ :=
  let arg := Unwind_Backtrace (backtrace_helper haveGetIPInfo report) stack
    { left := max_size, reportArg := reportArg }
  (arg.left, arg.reportArg)

/-- The recursion of `StackTraceAlt(ip, frame, print, arg, max_size)` for a positive
`max_size`, given as a natural number; `memory` reads the `struct stack_frame`
at an address as the pair `(next, ret)`. -/
def StackTraceAltLoop {σ : Type} (memory : Nat → Nat × Nat) (print : Nat → σ → Bool × σ) :
    Nat → Nat → Nat → σ → Int × σ
  | 0, _, _, s => (0, s)
  | max_size + 1, ip, frame, s =>
    if frame = 0 then ((max_size : Int) + 1, s)
    else if ip ≠ 0 then
      let r := print (ip - 1) s
      if r.1 then ((max_size : Int), r.2)
      else StackTraceAltLoop memory print max_size (memory frame).2 (memory frame).1 r.2
    else StackTraceAltLoop memory print max_size (memory frame).2 (memory frame).1 s

/-- Embeds `StackTraceAlt(ip, frame, print, arg, max_size)` of unwinder.cpp (the manual
frame-pointer walker). -/
def StackTraceAlt {σ : Type} (memory : Nat → Nat × Nat) (ip frame : Nat)
    (print : Nat → σ → Bool × σ) (arg : σ) (max_size : Int) : Int × σ :=
  if frame = 0 ∨ max_size ≤ 0 then (max_size, arg)
  else StackTraceAltLoop memory print max_size.toNat ip frame arg

/-- The build-time choices of the sources. -/
structure Build where
  /-- Stands for `MANUAL` of unwinder.cpp (defined on FreeBSD). -/
  manual : Bool
  /-- Stands for `HAVE_GETIPINFO` of unwinder.cpp. -/
  haveGetIPInfo : Bool
  /-- Stands for `ThrowHandlers` of `SendToReporter`: `"SendToReporter"` on Linux,
  `"_sigtramp"` on macOS, no filter elsewhere. -/
  signalFilter : Option (List Bytes)

/-- The stack at the moment of the crash, as the unwinders see it. -/
structure Machine where
  /-- The answer of `dladdr` for an address. -/
  dladdr : Nat → Option DlInfo
  /-- The frames `_Unwind_Backtrace` visits from the handler. -/
  stack : List UnwindContext
  /-- The `struct stack_frame` stored at an address: `(next, ret)`. -/
  memory : Nat → Nat × Nat
  /-- The interrupted instruction pointer in the `ucontext_t` of the signal. -/
  ucxt_ip : Nat
  /-- The interrupted frame pointer in the `ucontext_t` of the signal. -/
  ucxt_bp : Nat

/-- Embeds `StackTraceSignal(report, reportArg, _ucxt, max_size)` of unwinder.cpp. -/
def StackTraceSignal {σ : Type} (build : Build) (m : Machine) (report : Nat → σ → Bool × σ)
    (reportArg : σ) (max_size : Int) : σ :=
  if build.manual then
    (StackTraceAlt m.memory m.ucxt_ip m.ucxt_bp report reportArg max_size).2
  else
    (Unwind_Backtrace (backtrace_helper build.haveGetIPInfo report) m.stack
      { left := max_size, reportArg := reportArg }).reportArg

/-! ## Victim side: the fatal entry points (crash.cpp) -/

/-- Embeds `MAX_STACK_TRACE` of crash.cpp. -/
def MAX_STACK_TRACE : Int := 32

/-- Embeds `CrashOptions::SendFormat` of crashy.h. -/
inductive SendFormat where
  | NONE
  | PLAIN_TEXT
  | JSON_SENTRY
deriving DecidableEq

/-- Embeds `class CrashOptions` of crashy.h. An empty `std::function` is `none`.
`getContext` holds the pointer the callback returns. `getBreadcrumbs` holds the
breadcrumbs its successive calls return before the first call that returns
nothing ("can be called multiple times, until nothing is returned"). `prepare`
and `convertExceptionPtr` have no part in what is modelled. -/
structure CrashOptions where
  currentExecutable : Bytes := []
  sendFormat : SendFormat := .NONE
  sender : Option (SendFormat → Bytes → Bool) := none
  getContext : Option (Option Bytes) := none
  getBreadcrumbs : Option (List Breadcrumb) := none
  release : Bytes := []
  dist : Bytes := []
  environment : Bytes := lit "local"
  command : Bytes := []
  path : Bytes := []
  reportUsername : Bool := false

/-- How a fatal entry point ends. -/
inductive Ending where
  /-- Stands for `::abort()`. -/
  | abort
  /-- Stands for `::_Exit(EXIT_FAILURE)`. -/
  | exitFailure
  /-- The function returns to its caller. -/
  | returned
deriving DecidableEq

/-- What a fatal entry point did: the bytes on the pipe, the lines on standard
error, and how it ended. -/
structure Report where
  pipe : Bytes
  err : List ErrLine
  ending : Ending
deriving DecidableEq

/-- The breadcrumb loop of `FinishReport`. -/
def WriteBreadcrumbs (crumbs : List Breadcrumb) : Bytes :=
  crumbs.foldl (fun out c => out ++ WriteBreadcrumb c) []

/-- Embeds `FinishReport` of crash.cpp; `link` tells whether `crashReporterLink >= 0`. The
message about the exit status of the Reporter is not modelled. -/
def FinishReport (link : Bool) (options : CrashOptions) (v : Victim) : Report :=
  if !link then { pipe := v.pipe, err := v.err, ending := .exitFailure }
  else
    let pipe1 := match options.getContext with
      | some context => v.pipe ++ WriteContext context
      | none => v.pipe
    let pipe2 := match options.getBreadcrumbs with
      | some crumbs => pipe1 ++ WriteBreadcrumbs crumbs
      | none => pipe1
    { pipe := pipe2 ++ WriteBinaryU32 (toU32 CrashTag.FINISH), err := v.err, ending := .abort }

/-- Embeds `SendToReporter(sig, si, _ucxt)` of crash.cpp; `si_addr` is the fault address
of the `siginfo_t`, `sigsegv` and `sigbus` the platform's numbers of `SIGSEGV`
and `SIGBUS`. -/
def SendToReporter (build : Build) (m : Machine) (link : Bool) (options : CrashOptions)
    (sigsegv sigbus : Int) (sig : Int) (si_addr : Nat) : Report :=
  let p := if sig = sigsegv ∨ sig = sigbus then si_addr else 0
  let args : ToReporterArgs :=
    { filter := build.signalFilter, printSymbol := .toReporter, printPC := .toReporter }
  let v : Victim :=
    if !link then
      { args := { args with printSymbol := .raw, printPC := .raw },
        err := [.crashSignal sig p] }
    else
      { args := args,
        pipe := WriteBinaryU32 (toU32 CrashTag.START) ++ WriteSignal sig p }
  FinishReport link options (StackTraceSignal build m (Process m.dladdr) v MAX_STACK_TRACE)

/-- Embeds `CrashAssert(func, file, line, condition, explanation)` of crash.cpp, for the
caller whose exchange on `reportingAssertionBusy` returned false. -/
def CrashAssert (build : Build) (m : Machine) (link : Bool) (options : CrashOptions)
    (func file : Option Bytes) (line : Int) (condition explanation : Option Bytes) : Report :=
  let args : ToReporterArgs :=
    { filter := some [lit "CrashAssert"], printSymbol := .toReporter, printPC := .toReporter }
  let v : Victim :=
    if !link then
      { args := { args with printSymbol := .raw, printPC := .raw },
        err := [.crashAssert func file line condition] }
    else
      { args := args,
        pipe := WriteBinaryU32 (toU32 CrashTag.START)
          ++ WriteAssert func file line condition explanation }
  FinishReport link options
    (StackTrace build.haveGetIPInfo m.stack (Process m.dladdr) v MAX_STACK_TRACE).2

/-- Embeds `UncaughtExceptionThrowHandlers` of crash.cpp. -/
def UncaughtExceptionThrowHandlers : List Bytes :=
  [lit "__cxa_rethrow", lit "__cxa_throw", lit "_ZSt9terminatev", lit "_thr_kill", lit "abort"]

/-- Embeds `SendUncaughtExceptionToReporter` of crash.cpp, given the pair that
`GetExceptionDescription` returns (type name, description). -/
def SendUncaughtExceptionToReporter (exceptionType description : Bytes) : Bytes :=
  WriteBinaryU32 (toU32 CrashTag.START)
    ++ WriteUncaughtException (some description) (some exceptionType)

/-- Embeds `GenerateDumpOnUncaughtException` of crash.cpp, given the pair that
`GetExceptionDescription` returns. -/
def GenerateDumpOnUncaughtException (build : Build) (m : Machine) (link : Bool)
    (options : CrashOptions) (exceptionType description : Bytes) : Report :=
  if !link then
    let v : Victim :=
      { args := { filter := some UncaughtExceptionThrowHandlers, printSymbol := .resolved,
                  printPC := .resolved },
        err := [.crashUncaught exceptionType description] }
    let v1 := (StackTrace build.haveGetIPInfo m.stack (Process m.dladdr) v MAX_STACK_TRACE).2
    { pipe := v1.pipe, err := v1.err, ending := .returned }
  else
    let v : Victim :=
      { args := { filter := some UncaughtExceptionThrowHandlers, printSymbol := .toReporter,
                  printPC := .toReporter },
        pipe := SendUncaughtExceptionToReporter exceptionType description }
    FinishReport link options
      (StackTrace build.haveGetIPInfo m.stack (Process m.dladdr) v MAX_STACK_TRACE).2

/-! ## Reporter side: `ReadCrash` (reporter.cpp) -/

/-- A resolved frame, the tuple stored in `frames`:
`(functionName, library, sourceFile, lineNumber, columnOffset)`. -/
structure Frame where
  functionName : Bytes
  library : Bytes
  sourceFile : Bytes
  lineNumber : Nat
  columnOffset : Nat
deriving DecidableEq

/-- What `ReadCrash` obtains from the system and from the symbolicator: the clock,
`strftime`, `strsignal`, the demangler, the two `RetrieveAndPrint...` routines,
the random device, `uname`, `GetMachineModel`, `getuid`, `getpwuid_r`, the
rendering of a `void*` by `operator<<`, and the numbers of `SIGSEGV`, `SIGBUS`. -/
structure Host where
  /-- Stands for `std::time(nullptr)`. -/
  time : Int
  /-- Stands for `timebuffer` after the first `strftime(" [%F %T %z]")`, empty on failure. -/
  startTime : Bytes
  /-- Stands for `timebuffer` after `strftime("%F %T")` on a breadcrumb time, empty on failure. -/
  strftime : Int → Bytes
  strsignal : Int → Bytes
  /-- Stands for `Demangle(name, retainer, true)`. -/
  Demangle : Bytes → Bytes
  /-- Stands for the tuple that
  `RetrieveAndPrintSymbol(symbolName, 0, filename, offset_in_file, pc, currentExecutable)` returns. -/
  RetrieveAndPrintSymbol : Option Bytes → Bytes → Nat → Nat → Bytes → Frame
  /-- Stands for the tuple that `RetrieveAndPrintPC(pc, currentExecutable)` returns:
  `(functionName, sourceFile, lineNumber, columnOffset)`. -/
  RetrieveAndPrintPC : Nat → Bytes → Bytes × Bytes × Nat × Nat
  /-- The text `operator<<` prints for a `void*`. -/
  showPointer : Nat → Bytes
  /-- The four draws of `std::random_device`. -/
  rd : Fin 4 → Nat
  sysname : Bytes
  release : Bytes
  machine : Bytes
  nodename : Bytes
  GetMachineModel : Bytes
  getuid : Nat
  /-- Stands for `pw->pw_name` when `getpwuid_r` returns 0. -/
  pw_name : Option Bytes
  SIGSEGV : Int
  SIGBUS : Int

/-- The conversion `int(x)` of a `uint32_t`. -/
def toInt32 (x : Nat) : Int :=
  if x % 4294967296 < 2147483648 then (x % 4294967296 : Nat)
  else ((x % 4294967296 : Nat) : Int) - 4294967296

/-- The conversion `time_t(x)` of a `uint64_t` (a signed 64-bit `time_t`). -/
def toInt64 (x : Nat) : Int :=
  if x % 18446744073709551616 < 9223372036854775808 then (x % 18446744073709551616 : Nat)
  else ((x % 18446744073709551616 : Nat) : Int) - 18446744073709551616

/-- The locals of `ReadCrash` that the loop fills. -/
structure Crash where
  signal : Option (Int × Nat) := none
  uncaughtException : Option (Bytes × Bytes) := none
  assertViolation : Option (Bytes × Bytes × Nat × Bytes × Bytes) := none
  context : Bytes := []
  frames : List Frame := []
  breadcrumbs : List (Bytes × Int × Bytes) := []
  timebuffer : Bytes := []
deriving DecidableEq

/-- What the branch of a tag does with the fields once they are read with `good`
true (the diagnostic `fprintf`s to standard error are not modelled). -/
def Crash.add (host : Host) (options : CrashOptions) (c : Crash) : Record → Crash
  | .signal sig p => { c with signal := some (toInt32 sig, p) }
  | .uncaughtException cause exceptionType =>
    let typeDescription :=
      if exceptionType.length > 0 then host.Demangle exceptionType else lit "unknown"
    { c with uncaughtException := some (cause, typeDescription) }
  | .assertion func file line condition explanation =>
    { c with assertViolation := some (func, file, line, condition, explanation) }
  | .library symbolName filename offset_in_file pc =>
    { c with frames := c.frames ++
        [host.RetrieveAndPrintSymbol (if symbolName.isEmpty then none else some symbolName)
          filename offset_in_file pc options.currentExecutable] }
  | .pc pc =>
    let r := host.RetrieveAndPrintPC pc options.currentExecutable
    { c with frames := c.frames ++
        [{ functionName := r.1, library := options.currentExecutable, sourceFile := r.2.1,
           lineNumber := r.2.2.1, columnOffset := r.2.2.2 }] }
  | .context context => { c with context := context }
  | .breadcrumb level time description =>
    { c with breadcrumbs := c.breadcrumbs ++ [(level, toInt64 time, description)],
             timebuffer := host.strftime (toInt64 time) }

/-- The loop `while (good) { ... }` of `ReadCrash`. Every turn that goes on to a
further turn has consumed at least the four bytes of a tag, so that a number of
turns above the number of bytes left is never used up. -/
def ReadCrashLoop (host : Host) (options : CrashOptions) : Nat → Reader → Crash → Reader × Crash
  | 0, r, c => (r, c)
  | turns + 1, r, c =>
    if r.good then
      match ReadRecord r with
      | (.finish, r1) => (r1, c)
      | (.stop, r1) => (r1, c)
      | (.record rec, r1) => ReadCrashLoop host options turns r1 (c.add host options rec)
      | (.skip _, r1) => ReadCrashLoop host options turns r1 c
    else (r, c)

/-- Decimal digits of an unsigned number, as `operator<<` and `std::to_string`
print it. -/
def decimal (n : Nat) : Bytes :=
  (Nat.toDigits 10 n).map fun c => Fin.ofNat c.toNat

/-- Decimal rendering of a signed number. -/
def decimalInt (i : Int) : Bytes :=
  if i < 0 then lit "-" ++ decimal (-i).toNat else decimal i.toNat

/-- Hexadecimal digits as `std::to_chars(..., 16)` and `std::hex` print them:
lowercase, no leading zeros. -/
def hexadecimal (n : Nat) : Bytes :=
  (Nat.toDigits 16 n).map fun c => Fin.ofNat c.toNat

/-- One `uint32_t` under `std::setfill('0') << std::hex << std::setw(8)`. -/
def hex8 (n : Nat) : Bytes :=
  List.replicate (8 - (hexadecimal (toU32 n)).length) (Fin.ofNat 48) ++ hexadecimal (toU32 n)

/-- Embeds `std::quoted(s)`: the delimiter `"`, the characters of `s` with a backslash
before every `"` and every backslash, the delimiter again. -/
def quoted (s : Bytes) : Bytes :=
  [(34 : Byte)] ++ s.flatMap (fun c => if c = 34 ∨ c = 92 then [(92 : Byte), c] else [c])
    ++ [(34 : Byte)]

/-- Embeds `&spacing[std::min(size_t(7), level.size())]` with `spacing` seven blanks. -/
def spacing (level : Bytes) : Bytes :=
  List.replicate (7 - min 7 level.length) (Fin.ofNat 32)

/-- The cause lines of the `PLAIN_TEXT` report. -/
def plainCause (host : Host) (c : Crash) : Bytes :=
  match c.signal with
  | some (sig, p) =>
    host.strsignal sig ++ lit " (" ++ decimalInt sig ++ lit ") on address " ++ host.showPointer p
      ++ lit ".\n"
  | none =>
    match c.uncaughtException with
    | some (cause, typeDescription) =>
      typeDescription ++ lit " exception: " ++ cause ++ lit ".\n"
    | none =>
      match c.assertViolation with
      | some (func, file, lineno, condition, explanation) =>
        lit "Assertion violation in " ++ func ++ lit " [" ++ file ++ lit ":" ++ decimal lineno
          ++ lit "]: " ++ condition ++ lit ".\n"
          ++ (if explanation.isEmpty then [] else lit "This is due to " ++ explanation ++ lit ".\n")
      | none => []

/-- The text one turn of the frame loop of the `PLAIN_TEXT` report appends. -/
def plainFrame (f : Frame) : Bytes :=
  if !f.sourceFile.isEmpty then
    lit "  at " ++ f.functionName ++ lit " [" ++ f.sourceFile ++ lit ":"
      ++ decimal f.lineNumber ++ lit "]\n"
  else if !f.functionName.isEmpty then
    lit "  at " ++ f.functionName ++ lit "\n"
  else lit "  at (unknown)\n"

/-- The frame loop of the `PLAIN_TEXT` report, `for (size_t i = 0; i < frames.size(); i++)`,
appending to `report`. -/
def plainFrames : List Frame → Bytes → Bytes
  | [], report => report
  | f :: rest, report => plainFrames rest (report ++ plainFrame f)

/-- The text one turn of the breadcrumb loop of the `PLAIN_TEXT` report appends. -/
def plainBreadcrumb (host : Host) (b : Bytes × Int × Bytes) : Bytes :=
  host.strftime b.2.1 ++ spacing b.1 ++ lit " [" ++ b.1 ++ lit "] " ++ b.2.2 ++ lit "\n"

/-- The breadcrumb loop of the `PLAIN_TEXT` report, appending to `report`. -/
def plainBreadcrumbs (host : Host) : List (Bytes × Int × Bytes) → Bytes → Bytes
  | [], report => report
  | b :: rest, report => plainBreadcrumbs host rest (report ++ plainBreadcrumb host b)

/-- The `PLAIN_TEXT` report of `ReadCrash`. -/
def plainReport (host : Host) (options : CrashOptions) (c : Crash) : Bytes :=
  let report := lit "=== CRASH === " ++ c.timebuffer ++ lit "\n" ++ plainCause host c
  let report := plainFrames c.frames report
  let report := report ++ lit "\n" ++ lit "Command: " ++ options.command ++ lit "\n"
    ++ lit "   Path: " ++ options.path ++ lit "\n" ++ lit "\n"
  plainBreadcrumbs host c.breadcrumbs report

/-- The `mechanism`, `type` and `value` fields of the `JSON_SENTRY` report. -/
def jsonCause (host : Host) (c : Crash) : Bytes :=
  match c.signal with
  | some (sig, p) =>
    let ptr := hexadecimal (toU64 p)
    (if sig = host.SIGSEGV ∨ sig = host.SIGBUS then
      lit ("\"mechanism\": \x7b \"type\": \"signalhandler\", \"handled\": false, "
            ++ "\"data\": \x7b \"relevant_address\": \"0x")
        ++ ptr ++ lit "\"\x7d, \"meta\": \x7b \"signal\": \x7b \"number\": "
        ++ decimalInt sig ++ lit "\x7d \x7d \x7d"
    else
      lit ("\"mechanism\": \x7b \"type\": \"signalhandler\", \"handled\": false, "
            ++ "\"meta\": \x7b \"signal\": \x7b \"number\": ")
        ++ decimalInt sig ++ lit "\x7d \x7d \x7d")
    ++ lit ",\"type\": " ++ quoted (host.strsignal sig)
    ++ lit ",\"value\": " ++ quoted (host.strsignal sig ++ lit " (" ++ decimalInt sig
          ++ lit ") on address 0x" ++ ptr ++ lit ".")
  | none =>
    match c.uncaughtException with
    | some (cause, typeDescription) =>
      lit "\"mechanism\": \x7b \"type\": \"UncaughtExceptionHandler\", \"handled\": false \x7d"
        ++ lit ",\"type\": " ++ quoted typeDescription
        ++ lit ",\"value\": " ++ quoted (typeDescription ++ lit " exception: " ++ cause ++ lit ".")
    | none =>
      match c.assertViolation with
      | some (func, file, lineno, condition, explanation) =>
        lit "\"mechanism\": \x7b \"type\": \"AssertionViolation\", \"handled\": false \x7d"
          ++ lit ",\"type\": \"assert\""
          ++ lit ",\"value\": " ++ quoted (lit "assertion " ++ condition ++ lit " in " ++ func ++ lit " ["
              ++ file ++ lit ":" ++ decimal lineno ++ lit "] violated, due to " ++ explanation ++ lit ".")
      | none => []

/-- The loop over `frames` of the `JSON_SENTRY` report,
`for (auto i = frames.size(); i-- > 0; )`: the first argument is `i` before the
test, `sep` and `report` are the separator and the text so far. -/
def jsonFramesLoop (frames : List Frame) : Nat → Bytes → Bytes → Bytes
  | 0, _, report => report
  | i + 1, sep, report =>
    match frames[i]? with
    | some f =>
      if !f.sourceFile.isEmpty then
        jsonFramesLoop frames i (lit ",")
          (report ++ sep ++ lit "\x7b\"function\": " ++ quoted f.functionName ++ lit ", \"package\": "
            ++ quoted f.library ++ lit ",\"filename\": " ++ quoted f.sourceFile ++ lit ", \"lineno\": "
            ++ decimal f.lineNumber ++ lit "\x7d")
      else if !f.functionName.isEmpty then
        jsonFramesLoop frames i (lit ",")
          (report ++ sep ++ lit "\x7b\"function\": "
            ++ quoted (if !f.functionName.isEmpty then f.functionName else lit "(unknown)")
            ++ lit "\x7d")
      else jsonFramesLoop frames i sep report
    | none => jsonFramesLoop frames i sep report

/-- The `stacktrace` member of the `JSON_SENTRY` report (nothing when there is no
frame). -/
def jsonStacktrace (frames : List Frame) : Bytes :=
  if !frames.isEmpty then
    jsonFramesLoop frames frames.length [] (lit ",\"stacktrace\":\x7b\"frames\":[") ++ lit "]\x7d"
  else []

/-- The `user` member of the `JSON_SENTRY` report. -/
def jsonUser (host : Host) (options : CrashOptions) : Bytes :=
  lit ",\"user\": \x7b" ++ lit "\"id\": " ++ decimal host.getuid
    ++ (if options.reportUsername then
          match host.pw_name with
          | some name => lit ",\"username\": \"" ++ name ++ lit "\""
          | none => []
        else [])
    ++ lit "\x7d"

/-- The loop over `breadcrumbs` of the `JSON_SENTRY` report; `sep` and `report` are
the separator and the text so far. -/
def jsonBreadcrumbsLoop : List (Bytes × Int × Bytes) → Bytes → Bytes → Bytes
  | [], _, report => report
  | (level, time, string) :: rest, sep, report =>
    jsonBreadcrumbsLoop rest (lit ",")
      (report ++ sep ++ lit "\x7b\"message\":" ++ quoted string ++ lit ",\"timestamp\":" ++ decimalInt time
        ++ (if !level.isEmpty then lit ",\"level\":" ++ quoted level else []) ++ lit "\x7d")

/-- The `breadcrumbs` member of the `JSON_SENTRY` report. -/
def jsonBreadcrumbs (breadcrumbs : List (Bytes × Int × Bytes)) : Bytes :=
  jsonBreadcrumbsLoop breadcrumbs [] (lit ",\"breadcrumbs\":\x7b\"values\":[") ++ lit "]\x7d"

/-- The part of the `JSON_SENTRY` report before the `exception` member. -/
def jsonHead (host : Host) (options : CrashOptions) : Bytes :=
  lit "\x7b"
    ++ lit "\"event_id\": \"" ++ hex8 (host.rd 0) ++ hex8 (host.rd 1) ++ hex8 (host.rd 2) ++ hex8 (host.rd 3)
    ++ lit "\""
    ++ lit ",\"contexts\": \x7b"
    ++ lit "\"os\": \x7b"
    ++ lit "\"name\": " ++ quoted host.sysname
    ++ lit ",\"version\": " ++ quoted (host.release ++ lit " " ++ host.machine)
    ++ lit "\x7d"
    ++ lit ",\"device\": \x7b"
    ++ lit "\"name\": " ++ quoted host.nodename
    ++ (if !host.GetMachineModel.isEmpty then lit ",\"model\": " ++ quoted host.GetMachineModel else [])
    ++ lit ",\"arch\": " ++ quoted host.machine
    ++ lit "\x7d"
    ++ lit "\x7d"
    ++ lit ",\"tags\": \x7b\"path\": " ++ quoted options.path ++ lit ", \"commandline\": " ++ quoted options.command ++ lit "\x7d"
    ++ lit ",\"timestamp\": " ++ decimalInt host.time
    ++ lit ",\"platform\": \"c\""
    ++ lit ",\"logger\": \"indigo_crash\""
    ++ (if !options.release.isEmpty then lit ",\"release\": " ++ quoted options.release else [])
    ++ (if !options.dist.isEmpty then lit ",\"dist\": " ++ quoted options.dist else [])
    ++ lit ",\"environment\": " ++ quoted options.environment
    ++ lit ",\"level\": \"fatal\""
    ++ lit ",\"server_name\": " ++ quoted host.nodename
    ++ lit ",\"exception\": \x7b\"values\":[\x7b"

/-- The `JSON_SENTRY` report of `ReadCrash`. -/
def jsonReport (host : Host) (options : CrashOptions) (c : Crash) : Bytes :=
  jsonHead host options
    ++ jsonCause host c
    ++ (if !c.context.isEmpty then lit ",\"thread_id\":" ++ quoted c.context else [])
    ++ jsonStacktrace c.frames
    ++ jsonUser host options
    ++ lit "\x7d]\x7d"
    ++ jsonBreadcrumbs c.breadcrumbs
    ++ lit "\x7d"

/-- The text of `report` when `ReadCrash` hands it over. -/
def buildReport (host : Host) (options : CrashOptions) (c : Crash) : Bytes :=
  (if options.sendFormat = .PLAIN_TEXT then plainReport host options c else [])
    ++ (if options.sendFormat = .JSON_SENTRY then jsonReport host options c else [])

/-- What became of the report of `ReadCrash`. -/
inductive Delivery where
  /-- Stands for `ReadCrash` returned before the report was built: no payload. -/
  | discarded
  /-- Stands for `options.sender(options.sendFormat, report.str())` was called. -/
  | sent (format : SendFormat) (data : Bytes)
  /-- No sender: `std::cerr << report.str() << std::endl`. -/
  | printed (data : Bytes)
deriving DecidableEq

/-- Embeds `ReadCrash(in, options)` of reporter.cpp, on a pipe that delivers `input` and
then ends, with the routines of the host, whose calls return; `ReadCrashRun` has the
calls of the symbolicator as util.cpp has them. -/
def ReadCrash (host : Host) (options : CrashOptions) (input : Bytes) : Delivery :=
  let startTag := ReadBinaryU32 0 { input := input, good := true }
  if startTag.1 ≠ CrashTag.START then .discarded
  else
    let final := ReadCrashLoop host options (startTag.2.input.length + 1) startTag.2
      { timebuffer := host.startTime }
    if !final.1.good then .discarded
    else
      match options.sender with
      | some _ => .sent options.sendFormat (buildReport host options final.2)
      | none => .printed (buildReport host options final.2)

/-! ## Auxiliary notions for the statements -/

/-- The value of four bytes read as a little-endian u32. -/
def decodeU32 (bs : Bytes) : Nat :=
  match bs with
  | b0 :: b1 :: b2 :: b3 :: _ => b0.val + 256 * b1.val + 65536 * b2.val + 16777216 * b3.val
  | _ => 0

/-- The reader `rt` is at the same place as `rf` in a pipe that ends `d` bytes
earlier, unless it has already failed. -/
def Cut (d : Nat) (rf rt : Reader) : Prop :=
  rt.good = false ∨
    (rf.good = true ∧ rt.good = true ∧ d ≤ rf.input.length
      ∧ rt.input = rf.input.take (rf.input.length - d))

/-- What stands at a tag position of a stream, between `START` and `FINISH`: a
record as the Victim writes it, or a u32 value that is the tag of no branch of
the loop of `ReadCrash`. -/
inductive Item where
  | record (r : Record)
  | unknown (tag : Nat)
deriving DecidableEq

/-- The bytes of an item. -/
def Item.bytes : Item → Bytes
  | .record r => writeRecord r
  | .unknown tag => WriteBinaryU32 tag

/-- The items of the statements: records within the bounds of the round trip, u32
values outside the tags `SIGNAL` .. `FINISH` that the loop tests for. -/
def Item.Valid : Item → Prop
  | .record r => r.Bounded
  | .unknown tag => tag < 4294967296 ∧ ¬ (2 ≤ tag ∧ tag ≤ 9)

/-- The bytes of a list of items. -/
def itemBytes (items : List Item) : Bytes :=
  items.flatMap Item.bytes

/-- The records among a list of items, in order. -/
def recordsOf : List Item → List Record
  | [] => []
  | .record r :: rest => r :: recordsOf rest
  | .unknown _ :: rest => recordsOf rest

/-- The stream `START`, the records in order, `FINISH`, as the Victim writes it. -/
def recordStream (rs : List Record) : Bytes :=
  WriteBinaryU32 (toU32 CrashTag.START) ++ rs.flatMap writeRecord
    ++ WriteBinaryU32 (toU32 CrashTag.FINISH)

/-- The locals of `ReadCrash` after the branches of the records `rs` ran in order. -/
def crashOf (host : Host) (options : CrashOptions) (rs : List Record) : Crash :=
  rs.foldl (fun c rec => c.add host options rec) { timebuffer := host.startTime }

/-- The hand-over at the end of `ReadCrash`, for the locals `c`. -/
def deliver (host : Host) (options : CrashOptions) (c : Crash) : Delivery :=
  match options.sender with
  | some _ => .sent options.sendFormat (buildReport host options c)
  | none => .printed (buildReport host options c)

/-- The frames that have an entry in `stacktrace.frames`: those with a source file,
and those with a function name. -/
def Frame.rendered (f : Frame) : Bool :=
  !f.sourceFile.isEmpty || !f.functionName.isEmpty

/-- The entry of a rendered frame in `stacktrace.frames`. -/
def jsonFrame (f : Frame) : Bytes :=
  if !f.sourceFile.isEmpty then
    lit "\x7b\"function\": " ++ quoted f.functionName ++ lit ", \"package\": " ++ quoted f.library ++ lit ",\"filename\": "
      ++ quoted f.sourceFile ++ lit ", \"lineno\": " ++ decimal f.lineNumber ++ lit "\x7d"
  else lit "\x7b\"function\": " ++ quoted f.functionName ++ lit "\x7d"

/-- The entry of a breadcrumb in `breadcrumbs.values`. -/
def jsonBreadcrumb (b : Bytes × Int × Bytes) : Bytes :=
  lit "\x7b\"message\":" ++ quoted b.2.2 ++ lit ",\"timestamp\":" ++ decimalInt b.2.1
    ++ (if !b.1.isEmpty then lit ",\"level\":" ++ quoted b.1 else []) ++ lit "\x7d"

/-- The frame a record adds to `frames`, if it is a frame record. -/
def frameOf (host : Host) (options : CrashOptions) : Record → Option Frame
  | .library symbolName filename offset_in_file pc =>
    some (host.RetrieveAndPrintSymbol (if symbolName.isEmpty then none else some symbolName)
      filename offset_in_file pc options.currentExecutable)
  | .pc pc =>
    some { functionName := (host.RetrieveAndPrintPC pc options.currentExecutable).1,
           library := options.currentExecutable,
           sourceFile := (host.RetrieveAndPrintPC pc options.currentExecutable).2.1,
           lineNumber := (host.RetrieveAndPrintPC pc options.currentExecutable).2.2.1,
           columnOffset := (host.RetrieveAndPrintPC pc options.currentExecutable).2.2.2 }
  | _ => none

/-- The entry a record adds to `breadcrumbs`, if it is a breadcrumb record. -/
def breadcrumbOf : Record → Option (Bytes × Int × Bytes)
  | .breadcrumb level time description => some (level, toInt64 time, description)
  | _ => none

/-- The string `WriteString` sends for a pointer: the empty string for a null
pointer and for a string of 8192 bytes or more, else the string itself. -/
def capString (str : Option Bytes) : Bytes :=
  if (str.getD []).length ≥ 8192 then [] else str.getD []

/-- The record that stands on the pipe for a breadcrumb of the Victim. -/
def Breadcrumb.record (c : Breadcrumb) : Record :=
  .breadcrumb (capString c.level) (c.time % 18446744073709551616).toNat
    (c.message.take (min 1024 (c.size % 4294967296)))

/-- A host for concrete runs: the signal numbers of Linux, a fixed clock, fixed
names, and a symbolicator that finds no source file and keeps the symbol name. -/
def demoHost : Host where
  time := 1700000000
  startTime := lit " [2023-11-14 22:13:20 +0000]"
  strftime := fun _ => lit "1970-01-01 00:00:00"
  strsignal := fun sig => if sig = 11 then lit "Segmentation fault" else lit "Unknown signal"
  Demangle := fun name => name
  RetrieveAndPrintSymbol := fun symbolName _ _ _ _ =>
    { functionName := symbolName.getD [], library := [], sourceFile := [], lineNumber := 0,
      columnOffset := 0 }
  RetrieveAndPrintPC := fun _ _ => ([], [], 0, 0)
  showPointer := fun p => lit "0x" ++ hexadecimal p
  rd := fun _ => 0
  sysname := lit "Linux"
  release := lit "6.1"
  machine := lit "x86_64"
  nodename := lit "host"
  GetMachineModel := []
  getuid := 1000
  pw_name := none
  SIGSEGV := 11
  SIGBUS := 7

/-- Options for concrete runs: a sender is set, the format is `PLAIN_TEXT`. -/
def demoOptions : CrashOptions :=
  { sendFormat := .PLAIN_TEXT, sender := some (fun _ _ => true) }

/-- The two breadcrumbs of the demo driver (tester.cpp). -/
def testerBreadcrumbs : List Breadcrumb :=
  [{ level := some (lit "error"), time := 42, message := lit "breadcrumb 0", size := 12 },
   { level := some (lit "info"), time := 37, message := lit "breadcrumb 1", size := 12 }]

/-- The entry that `ReadCrash` stores for a breadcrumb of the Victim: the level as
`WriteString` sends it, the time through `uint64_t` and back to `time_t`, the
first `min(1024, uint32_t(size))` bytes of the message. -/
def Breadcrumb.received (c : Breadcrumb) : Bytes × Int × Bytes :=
  (capString c.level, toInt64 (c.time % 18446744073709551616).toNat,
    c.message.take (min 1024 (c.size % 4294967296)))

/-- The state of the callback while the stack is walked with the printers that
write to the pipe: since the bytes `base`, the pipe has received the bytes of
frame records (`LIBRARY` or `PC`) and nothing else. -/
def FramesWritten (base : Bytes) (v : Victim) : Prop :=
  v.args.printSymbol = .toReporter ∧ v.args.printPC = .toReporter ∧
    ∃ frames : List Record, v.pipe = base ++ frames.flatMap writeRecord
      ∧ ∀ r ∈ frames, r.Bounded ∧ (r.tag = CrashTag.LIBRARY ∨ r.tag = CrashTag.PC)

/-- The order of section 4.2 for the tags of the records that stand between
`START` and `FINISH`: the cause, then frames (`LIBRARY` or `PC`), then at most one
`CONTEXT`, then breadcrumbs. -/
def TagOrder (cause : Nat) (tags : List Nat) : Prop :=
  ∃ (frames context : List Nat) (n : Nat),
    tags = cause :: (frames ++ (context ++ List.replicate n CrashTag.BREADCRUMB))
      ∧ (∀ t ∈ frames, t = CrashTag.LIBRARY ∨ t = CrashTag.PC)
      ∧ (context = [] ∨ context = [CrashTag.CONTEXT])

/-- The pipe holds `START`, then the bytes of records within the bounds of the
round trip whose tags are in the order of section 4.2 for the cause tag `cause`,
then `FINISH`, and nothing else. -/
def WellOrdered (pipe : Bytes) (cause : Nat) : Prop :=
  ∃ rs : List Record, pipe = recordStream rs ∧ (∀ r ∈ rs, r.Bounded)
    ∧ TagOrder cause (rs.map Record.tag)

/-- A build for concrete runs: Linux, CFI unwinder. -/
def demoBuild : Build :=
  { manual := false, haveGetIPInfo := true, signalFilter := some [lit "SendToReporter"] }

/-- A stack for concrete runs: the handler called from `crash`, called from `main`;
an instruction pointer of `main` lies below 300, one of `crash` below 200, one of
the handler below 100; other addresses have no dynamic symbol. -/
def demoMachine : Machine where
  dladdr := fun pc =>
    if pc < 100 then
      some { dli_fname := some (lit "tester"), dli_fbase := 0,
             dli_sname := some (lit "SendToReporter"), dli_saddr := 10 }
    else if pc < 200 then
      some { dli_fname := some (lit "tester"), dli_fbase := 0,
             dli_sname := some (lit "crash"), dli_saddr := 110 }
    else if pc < 300 then
      some { dli_fname := some (lit "tester"), dli_fbase := 0,
             dli_sname := some (lit "main"), dli_saddr := 210 }
    else none
  stack := [{ ip := 50, ip_before_insn := false }, { ip := 150, ip_before_insn := true },
            { ip := 250, ip_before_insn := false }, { ip := 350, ip_before_insn := false }]
  memory := fun _ => (0, 0)
  ucxt_ip := 150
  ucxt_bp := 0

/-- The options of the demo driver (tester.cpp), as far as the Victim reads them. -/
def testerOptions : CrashOptions :=
  { sendFormat := .JSON_SENTRY, getContext := some (some (lit "my-context")),
    getBreadcrumbs := some testerBreadcrumbs }

/-- The record `FinishReport` writes for the context, if `getContext` is set. -/
def contextRecords (options : CrashOptions) : List Record :=
  match options.getContext with
  | some context => [.context (capString context)]
  | none => []

/-! ## Notions for the statements about the unwinder and `Process` -/

/-- The contract of the unwinder for its callback (section 4.3): the callback is
invoked for each program counter in order, and the walk ends as soon as the
callback returns stop. -/
def visit {σ : Type} (report : Nat → σ → Bool × σ) : List Nat → σ → σ
  | [], s => s
  | pc :: rest, s =>
    if (report pc s).1 then (report pc s).2 else visit report rest (report pc s).2

/-- The callback `report` with a record of its invocations: every call appends the
program counter it was given and the stop flag it returned. -/
def logged {σ : Type} (report : Nat → σ → Bool × σ) :
    Nat → σ × List (Nat × Bool) → Bool × (σ × List (Nat × Bool)) :=
  fun pc s => ((report pc s.1).1, ((report pc s.1).2, s.2 ++ [(pc, (report pc s.1).1)]))

/-- The program counter of the PC-decrement law for a frame of the CFI unwinder: the
raw IP verbatim when the build reads the flag and the flag is set, else the raw
IP minus one. -/
def adjustIP (haveGetIPInfo : Bool) (ctx : UnwindContext) : Nat :=
  if haveGetIPInfo && ctx.ip_before_insn then ctx.ip else ctx.ip - 1

/-- The frames of a stack that the CFI strategy can reach with a budget of `n`
frames: those before the first frame whose IP is null, at most `n` of them. -/
def cfiFrames (stack : List UnwindContext) (n : Nat) : List UnwindContext :=
  (stack.takeWhile (fun ctx => decide (ctx.ip ≠ 0))).take n

/-- The raw IPs along a chain of saved frame pointers, as the frame-pointer
strategy follows it: the IP at hand, then the return address saved in each frame,
as long as the frame pointer is not null and for at most `n` frames. The chain
may be cyclic; the budget cuts it. -/
def altChain (memory : Nat → Nat × Nat) : Nat → Nat → Nat → List Nat
  | 0, _, _ => []
  | n + 1, ip, frame =>
    if frame = 0 then [] else ip :: altChain memory n (memory frame).2 (memory frame).1

/-- The raw IPs that the frame-pointer strategy passes on: those of the chain that are
not null. -/
def altIPs (memory : Nat → Nat × Nat) (n ip frame : Nat) : List Nat :=
  (altChain memory n ip frame).filter (fun x => decide (x ≠ 0))

/-- Embeds `PrintCurrentCallStack(max_size)` of crash.cpp: the value returned and the
state of the callback (the lines on standard error). -/
def PrintCurrentCallStack (build : Build) (m : Machine) (max_size : Int) : Int × Victim :=
  StackTrace build.haveGetIPInfo m.stack (Process m.dladdr)
    { args := { filter := some [lit "PrintCurrentCallStack"], printSymbol := .resolved,
                printPC := .resolved } }
    max_size

/-- The dynamic symbol of a program counter: the `dli_sname` that `dladdr` gives,
if it gives any. -/
def symbolOf (dladdr : Nat → Option DlInfo) (pc : Nat) : Option Bytes :=
  match dladdr pc with
  | some dyldInfo => dyldInfo.dli_sname
  | none => none

/-- The program counter has a dynamic symbol that equals an entry of the filter
list `F`. -/
def inFilter (F : List Bytes) (dladdr : Nat → Option DlInfo) (pc : Nat) : Bool :=
  match symbolOf dladdr pc with
  | some n => F.any (fun current => decide (n = current))
  | none => false

/-- The program counter has a dynamic symbol for which `Process` returns stop once
the frame is printed. -/
def stopsAt (dladdr : Nat → Option DlInfo) (pc : Nat) : Bool :=
  match symbolOf dladdr pc with
  | some sname =>
    strncmpEq (lit "main") sname 5 || strncmpEq (lit "GlobalDispatcherRun") sname 20
  | none => false

/-- The frames of a list up to and including the first one at which the walk stops. -/
def upToStop (dladdr : Nat → Option DlInfo) : List Nat → List Nat
  | [] => []
  | pc :: rest => if stopsAt dladdr pc then [pc] else pc :: upToStop dladdr rest

/-- The frames that skip-until-match lets through, for a filter list `F`: of the
frames from the first one whose symbol is in `F` on, those whose symbol is not in
`F`, up to and including the first one at which the walk stops. -/
def keptFrames (F : List Bytes) (dladdr : Nat → Option DlInfo) (pcs : List Nat) : List Nat :=
  upToStop dladdr
    ((pcs.dropWhile (fun pc => !inFilter F dladdr pc)).filter (fun pc => !inFilter F dladdr pc))

/-- The printing of one frame by the printers of `v`: `printSymbol` with the symbol,
the offsets and the library path when `dladdr` has information for the program
counter, `printPC` when it has none. -/
def emitFrame (dladdr : Nat → Option DlInfo) (v : Victim) (pc : Nat) : Victim :=
  match dladdr pc with
  | some dyldInfo =>
    v.printSymbol dyldInfo.dli_sname (toU32 (subU64 pc dyldInfo.dli_saddr)) dyldInfo.dli_fname
      (toU32 (subU64 pc dyldInfo.dli_fbase)) pc
  | none => v.printPC pc

/-- The state of the callback once the filter has matched. -/
def Victim.matched (v : Victim) : Victim :=
  { v with args := { v.args with skipUntilMatch := false } }

/-- A dynamic loader for concrete runs of the filter: the program counters below
100 belong to `StackTrace`, those below 200 to `abort`, those below 300 to
`__cxa_throw`, those below 400 to `main_loop`, those below 500 to `main`; the
others have no information. -/
def filterDladdr : Nat → Option DlInfo := fun pc =>
  if pc < 100 then
    some { dli_fname := some (lit "tester"), dli_fbase := 0,
           dli_sname := some (lit "StackTrace"), dli_saddr := 10 }
  else if pc < 200 then
    some { dli_fname := some (lit "libc.so"), dli_fbase := 100,
           dli_sname := some (lit "abort"), dli_saddr := 110 }
  else if pc < 300 then
    some { dli_fname := some (lit "libcxxrt.so"), dli_fbase := 200,
           dli_sname := some (lit "__cxa_throw"), dli_saddr := 210 }
  else if pc < 400 then
    some { dli_fname := some (lit "tester"), dli_fbase := 0,
           dli_sname := some (lit "main_loop"), dli_saddr := 310 }
  else if pc < 500 then
    some { dli_fname := some (lit "tester"), dli_fbase := 0,
           dli_sname := some (lit "main"), dli_saddr := 410 }
  else none

/-- The state of the callback at the start of a walk that writes to the pipe with
the filter list of the terminate handler. -/
def filterVictim : Victim :=
  { args := { filter := some UncaughtExceptionThrowHandlers, printSymbol := .toReporter,
              printPC := .toReporter } }

/-- A stack for concrete runs of `PrintCurrentCallStack`: the call stands in `foo`,
called from `bar`, called from `main`; an instruction pointer of
`PrintCurrentCallStack` lies below 100, one of `foo` below 200, one of `bar` below
300, one of `main` below 400. -/
def callStackMachine : Machine where
  dladdr := fun pc =>
    if pc < 100 then
      some { dli_fname := some (lit "tester"), dli_fbase := 0,
             dli_sname := some (lit "PrintCurrentCallStack"), dli_saddr := 10 }
    else if pc < 200 then
      some { dli_fname := some (lit "tester"), dli_fbase := 0,
             dli_sname := some (lit "foo"), dli_saddr := 110 }
    else if pc < 300 then
      some { dli_fname := some (lit "tester"), dli_fbase := 0,
             dli_sname := some (lit "bar"), dli_saddr := 210 }
    else if pc < 400 then
      some { dli_fname := some (lit "tester"), dli_fbase := 0,
             dli_sname := some (lit "main"), dli_saddr := 310 }
    else none
  stack := [{ ip := 50, ip_before_insn := false }, { ip := 150, ip_before_insn := false },
            { ip := 250, ip_before_insn := false }, { ip := 350, ip_before_insn := false }]
  memory := fun _ => (0, 0)
  ucxt_ip := 0
  ucxt_bp := 0

/-- A chain of saved frame pointers for concrete runs: the frame at 1000 returns to
250 and links to the frame at 2000, which returns to 350 and has no next frame. -/
def chainMemory : Nat → Nat × Nat := fun a =>
  if a = 1000 then (2000, 250) else if a = 2000 then (0, 350) else (0, 0)

/-- A cyclic chain of saved frame pointers: every frame links to the frame at 1000
and returns to 250. -/
def cyclicMemory : Nat → Nat × Nat := fun _ => (1000, 250)

/-- A callback for concrete runs: it counts its invocations and returns stop for a
program counter above 300. -/
def countingReport : Nat → Nat → Bool × Nat := fun pc s => (decide (300 < pc), s + 1)

/-- The record on the pipe for a frame that is printed: a `LIBRARY` record with the
symbol, the library path, the offset in the library as a 32-bit value and the
program counter when `dladdr` has information, a `PC` record when it has none. -/
def frameRecord (dladdr : Nat → Option DlInfo) (pc : Nat) : Record :=
  match dladdr pc with
  | some dyldInfo =>
    .library (capString dyldInfo.dli_sname) (capString dyldInfo.dli_fname)
      (toU32 (subU64 pc dyldInfo.dli_fbase)) (toU64 pc)
  | none => .pc (toU64 pc)

/-- An entry of the `stacktrace.frames` array, by its members. -/
structure FrameEntry where
  function : Bytes
  package : Option Bytes := none
  filename : Option Bytes := none
  lineno : Option Nat := none
deriving DecidableEq

/-- The text of an entry of `stacktrace.frames`: the members that are present, in
the layout of the report. -/
def FrameEntry.text (e : FrameEntry) : Bytes :=
  lit "\x7b\"function\": " ++ quoted e.function
    ++ (match e.package with
        | some p => lit ", \"package\": " ++ quoted p
        | none => [])
    ++ (match e.filename with
        | some s => lit ",\"filename\": " ++ quoted s
        | none => [])
    ++ (match e.lineno with
        | some n => lit ", \"lineno\": " ++ decimal n
        | none => [])
    ++ lit "\x7d"

/-- Follows the statement about `stacktrace.frames`, not the source: a frame whose
source file is empty has an entry with only a function member when its function
name is not empty and has no entry when its function name is empty; a frame with a
source file has an entry with function, package, filename and line number. -/
def claimedEntry (f : Frame) : Option FrameEntry :=
  if f.sourceFile = [] then
    if f.functionName = [] then none else some { function := f.functionName }
  else
    some { function := f.functionName, package := some f.library,
           filename := some f.sourceFile, lineno := some f.lineNumber }

/-- The digits of the numerals of the reports, in the order of their values:
the ten decimal digits, then the lowercase letters `a` to `f`. -/
def hexDigits : Bytes := lit "0123456789abcdef"

/-- The value of a digit: its position in `hexDigits`. -/
def digitValue (c : Byte) : Nat := hexDigits.indexOf c

/-- The number that a numeral denotes in base `base`, most significant digit first. -/
def numeralValue (base : Nat) (ds : Bytes) : Nat :=
  ds.foldl (fun acc c => base * acc + digitValue c) 0

/-- The records that state the cause of a crash: `SIGNAL`, `UNCAUGHT_EXCEPTION`,
`ASSERT`. -/
def Record.isCause : Record → Bool
  | .signal _ _ => true
  | .uncaughtException _ _ => true
  | .assertion _ _ _ _ _ => true
  | _ => false

/-! ## Notions for the statements about the fallback path, the setup and the JSON strings -/

/-- What `StartReporter` is for the process that called it. -/
inductive Started where
  /-- The process is the child: it runs `ReadCrash` and `::_exit(0)`, and does not
  return from `StartReporter`. -/
  | reporter
  /-- The tuple returned to the caller: the link, the pid of the reporter and the
  options. -/
  | returned (link : Int) (reporterPid : Int) (options : CrashOptions)

/-- Embeds `StartReporter(options)` of reporter.cpp. The system calls are given by
their results: `pipeResult` is `none` when `pipe()` fails and else the pair
`(pipefd[0], pipefd[1])`; `forkResult` is the value of `fork()` in the process at
hand (0 in the child, the pid of the child in the parent, -1 on failure). -/
def StartReporter (pipeResult : Option (Int × Int)) (forkResult : Int)
    (options : CrashOptions) : Started :=
  match pipeResult with
  | none => .returned (-1) 0 options
  | some pipefd =>
    if forkResult = 0 then .reporter
    else .returned pipefd.2 forkResult options

/-- Embeds the assignment to `crashReporterLink` in `GenerateDumpOnCrash` (crash.cpp), as
the fatal entry points test it afterwards: `crashReporterLink >= 0`. -/
def linkAvailable : Started → Bool
  | .reporter => false
  | .returned link _ _ => decide (0 ≤ link)

/-- Follows RFC 8259 (section 7), not the source: the text after the opening quote of
a JSON string, up to the closing quote at its end, decoded. A control character
(below 0x20) cannot stand unescaped, and a backslash stands only before one of the
characters of a two-character escape (the `u` escapes are left out, the reports
never hold one). -/
def jsonStringBody : Bytes → Option Bytes
  | [] => none
  | [c] => if c = 34 then some [] else none
  | c :: e :: rest =>
    if c = 34 then none
    else if c.val < 32 then none
    else if c = 92 then
      match (if e = 34 then some (34 : Byte) else if e = 92 then some 92
             else if e = 47 then some 47 else if e = 98 then some 8
             else if e = 102 then some 12 else if e = 110 then some 10
             else if e = 114 then some 13 else if e = 116 then some 9 else none) with
      | some d => (jsonStringBody rest).map (fun s => d :: s)
      | none => none
    else (jsonStringBody (e :: rest)).map (fun s => c :: s)

/-- Follows RFC 8259, not the source: the string that a JSON string literal denotes,
if the text is one. -/
def jsonString : Bytes → Option Bytes
  | [] => none
  | c :: rest => if c = 34 then jsonStringBody rest else none

/-! ## The reentry flag of `CrashAssert` (crash.cpp) as a step relation -/

/-- The arguments of a call of `CrashAssert`. -/
structure AssertCall where
  func : Option Bytes
  file : Option Bytes
  line : Int
  condition : Option Bytes
  explanation : Option Bytes
deriving DecidableEq

/-- Where a thread that called `CrashAssert` stands. -/
inductive Entrant where
  /-- Before `reportingAssertionBusy.exchange(true)`. -/
  | calling (call : AssertCall)
  /-- The exchange returned true: the thread is in `while (1) sleep(1);`. -/
  | sleeping
  /-- The exchange returned false: the thread is about to run the rest of the
  function. -/
  | reporting (call : AssertCall)
  /-- The thread ran the rest of the function, up to the end of `FinishReport`. -/
  | finished
deriving DecidableEq

/-- The exchange of the thread returned false. -/
def Entrant.passed : Entrant → Bool
  | .reporting _ => true
  | .finished => true
  | _ => false

/-- The process while threads call `CrashAssert`: the atomic flag
`reportingAssertionBusy`, the threads, the bytes on the pipe, and how the process
ended, if it has. -/
structure AssertState where
  reportingAssertionBusy : Bool := false
  entrants : List Entrant
  pipe : Bytes := []
  ending : Option Ending := none
deriving DecidableEq

/-- One step of thread `i` in `CrashAssert`. The atomic `exchange(true)` is one step: it
sets the flag and sends the thread to the endless sleep when the flag was set, and on
to the rest of the function when it was not. The rest of the function (`CrashAssert`
above, which ends the process in `FinishReport`) is one step: no other caller of
`CrashAssert` writes to the pipe meanwhile. A sleeping thread goes on sleeping, and
nothing runs once the process has ended. -/
def CrashAssertStep (build : Build) (m : Machine) (link : Bool) (options : CrashOptions)
    (i : Nat) (s : AssertState) : AssertState :=
  match s.ending with
  | some _ => s
  | none =>
    match s.entrants[i]? with
    | some (.calling call) =>
      if s.reportingAssertionBusy then { s with entrants := s.entrants.set i .sleeping }
      else
        { s with reportingAssertionBusy := true, entrants := s.entrants.set i (.reporting call) }
    | some (.reporting call) =>
      let r := CrashAssert build m link options call.func call.file call.line call.condition
        call.explanation
      { s with entrants := s.entrants.set i .finished, pipe := s.pipe ++ r.pipe,
               ending := some r.ending }
    | some .sleeping => s
    | some .finished => s
    | none => s

/-- The process after the threads took steps in the order of `schedule`, from the
state in which every thread is about to call `CrashAssert` with its arguments. -/
def CrashAssertRun (build : Build) (m : Machine) (link : Bool) (options : CrashOptions)
    (callers : List AssertCall) (schedule : List Nat) : AssertState :=
  schedule.foldl (fun s i => CrashAssertStep build m link options i s)
    { entrants := callers.map Entrant.calling }

/-- The invariant of the steps of `CrashAssert` for the callers `callers`. -/
def ReentryInv (build : Build) (m : Machine) (link : Bool) (options : CrashOptions)
    (callers : List AssertCall) (s : AssertState) : Prop :=
  (∀ (j : Nat) (e : Entrant), s.entrants[j]? = some e → e.passed = true →
      s.reportingAssertionBusy = true)
    ∧ (∀ (i j : Nat) (ei ej : Entrant), s.entrants[i]? = some ei → s.entrants[j]? = some ej →
        ei.passed = true → ej.passed = true → i = j)
    ∧ (∀ (j : Nat) (call : AssertCall),
        s.entrants[j]? = some (Entrant.calling call)
          ∨ s.entrants[j]? = some (Entrant.reporting call) →
        callers[j]? = some call)
    ∧ ((s.ending = none ∧ s.pipe = [] ∧ ∀ j : Nat, s.entrants[j]? ≠ some Entrant.finished)
      ∨ ∃ (j : Nat) (call : AssertCall), callers[j]? = some call
          ∧ s.entrants[j]? = some Entrant.finished
          ∧ s.pipe = (CrashAssert build m link options call.func call.file call.line
              call.condition call.explanation).pipe
          ∧ s.ending = some (CrashAssert build m link options call.func call.file call.line
              call.condition call.explanation).ending)

/-! ## Symbolicator: source line lookup (tosourcecode.cpp)

The library libdwarf is not part of the repository: a line entry, an attribute
and a DIE are given by what the calls of the library return for them. -/

/-- A line entry of the table that `dwarf_srclines` returns, by the results of the
calls on it: `dwarf_lineaddr`, `dwarf_lineno`, `dwarf_linesrc` and `dwarf_lineoff`,
each `none` when the call fails. -/
structure LineEntry where
  lineaddr : Option Nat
  lineno : Option Nat := none
  linesrc : Option Bytes := none
  lineoff : Option Int := none
deriving DecidableEq

/-- The locals of the loop of `LookupSource`; `matched` stands for `match` and `none`
for the value -1 of `match` and of `prev`. -/
structure LineScan where
  matched : Option Nat := none
  matchDistance : Nat := 0
  prevlineaddr : Nat := 0
  prev : Option Nat := none
deriving DecidableEq

/-- The body of the loop of `LookupSource` for the entry `n`. -/
def LookupSourceStep (target : Nat) (n : Nat) (line : LineEntry) (s : LineScan) : LineScan :=
  match line.lineaddr with
  | none => { s with prev := none }
  | some lineaddr =>
    let s1 :=
      if s.prev.isSome ∧ s.prevlineaddr ≤ target ∧ target < lineaddr
          ∧ (s.matched = none ∨ target - s.prevlineaddr < s.matchDistance) then
        { s with matched := s.prev, matchDistance := target - s.prevlineaddr }
      else s
    { s1 with prevlineaddr := lineaddr, prev := some n }

/-- The loop `for (int n = 0; n < lineCount; n++)` of `LookupSource`, from the entry
`n` on. The counter is an `int`: the model is that of a table of fewer than 2^31
entries. -/
def LookupSourceLoop (target : Nat) : Nat → List LineEntry → LineScan → LineScan
  | _, [], s => s
  | n, line :: rest, s =>
    LookupSourceLoop target (n + 1) rest (LookupSourceStep target n line s)

/-- The entry that `LookupSource` selects: `match` after the loop, if it passes the
test `match >= 0 && match < lineCount-1`. -/
def LookupSourceMatch (lines : List LineEntry) (target : Nat) : Option Nat :=
  match (LookupSourceLoop target 0 lines {}).matched with
  | some m => if m < lines.length - 1 then some m else none
  | none => none

/-- The out parameters of `Lookup`, `ProcessFile` and `LookupSource`: `*sourceFile`,
`*lineNumber`, `*column`, `*functionName` and `*offset`. The callers in util.cpp
pass a null `functionName` when they have the name already; `wantName` tells the
functions whether the pointer is set. The pointers `sourceFile`, `lineNumber` and
`column` are set in every call of the repository. -/
structure LookupOut where
  sourceFile : Option Bytes := none
  lineNumber : Nat := 0
  column : Nat := 0
  functionName : Option Bytes := none
  offset : Nat := 0
deriving DecidableEq

/-- Embeds `LookupSource(dbg, the_die, target, sourceFile, lineNumber, column)`: the out
parameters after the call (the value returned is always 0). `srclines` is the
table of `dwarf_srclines`, `none` when the call fails. -/
def LookupSource (srclines : Option (List LineEntry)) (target : Nat) (out : LookupOut) :
    LookupOut :=
  match srclines with
  | none => out
  | some lines =>
    if lines.length = 0 then out
    else
      match LookupSourceMatch lines target with
      | none => out
      | some m =>
        match lines[m]? with
        | none => out
        | some line =>
          match line.lineno, line.linesrc with
          | some lineno, some filename =>
            { out with
              sourceFile := some filename
              lineNumber := toU32 lineno
              column :=
                match line.lineoff with
                | some columnRaw =>
                  if columnRaw ≥ 1 then (columnRaw % 4294967296).toNat else out.column
                | none => out.column }
          | _, _ => out

/-- The address of the entry `j` of the table, if there is such an entry and
`dwarf_lineaddr` reads its address. -/
def addrAt (lines : List LineEntry) (j : Nat) : Option Nat :=
  (lines[j]?).bind LineEntry.lineaddr

/-- The entries `j` and `j + 1` of the table are readable and bracket the target:
`addr[j] <= target < addr[j + 1]`. -/
def Brackets (lines : List LineEntry) (target : Nat) (j : Nat) : Prop :=
  ∃ a b, addrAt lines j = some a ∧ addrAt lines (j + 1) = some b ∧ a ≤ target ∧ target < b

/-- The invariant of the loop of `LookupSource` before the entry `n`: `prev` is the
entry before `n` if it is readable, and `match` is the first of the entries with
the least distance among those that bracket the target together with their
successor before `n`. -/
def ScanInv (lines : List LineEntry) (target : Nat) (n : Nat) (s : LineScan) : Prop :=
  (∀ p : Nat, s.prev = some p → p + 1 = n ∧ addrAt lines p = some s.prevlineaddr)
    ∧ (s.prev = none → ∀ p : Nat, p + 1 = n → addrAt lines p = none)
    ∧ (∀ i : Nat, s.matched = some i →
        i + 1 < n ∧ Brackets lines target i
          ∧ (∃ a, addrAt lines i = some a ∧ a ≤ target ∧ s.matchDistance = target - a)
          ∧ ∀ (j aj : Nat), j + 1 < n → addrAt lines j = some aj → Brackets lines target j →
              s.matchDistance ≤ target - aj ∧ (target - aj = s.matchDistance → i ≤ j))
    ∧ (s.matched = none → ∀ j : Nat, j + 1 < n → ¬ Brackets lines target j)

/-! ## Symbolicator: function lookup, `ProcessFile`, `Lookup` (tosourcecode.cpp) -/

/-- The constant `DW_TAG_subprogram` of dwarf.h. -/
def DW_TAG_subprogram : Nat := 46

/-- The constant `DW_AT_low_pc` of dwarf.h. -/
def DW_AT_low_pc : Nat := 17

/-- The constant `DW_AT_high_pc` of dwarf.h. -/
def DW_AT_high_pc : Nat := 18

/-- The constant `DW_FORM_addr` of dwarf.h. -/
def DW_FORM_addr : Nat := 1

/-- The constant `DW_FORM_data2` of dwarf.h. -/
def DW_FORM_data2 : Nat := 5

/-- The constant `DW_FORM_data4` of dwarf.h. -/
def DW_FORM_data4 : Nat := 6

/-- The constant `DW_FORM_data8` of dwarf.h. -/
def DW_FORM_data8 : Nat := 7

/-- The constant `DW_FORM_data1` of dwarf.h. -/
def DW_FORM_data1 : Nat := 11

/-- The constant `DW_FORM_sdata` of dwarf.h. -/
def DW_FORM_sdata : Nat := 13

/-- The constant `DW_FORM_udata` of dwarf.h. -/
def DW_FORM_udata : Nat := 15

/-- The constant `DW_DLV_OK` of libdwarf.h. -/
def DW_DLV_OK : Int := 0

/-- The constant `DW_DLV_NO_ENTRY` of libdwarf.h. -/
def DW_DLV_NO_ENTRY : Int := -1

/-- An attribute of a DIE, by the results of the calls on it: `dwarf_whatattr`
(`none` when the call fails), `dwarf_whatform`, and the values that
`dwarf_formaddr`, `dwarf_formudata` and `dwarf_formsdata` store (`none` when the call
fails and stores nothing). -/
structure Attribute where
  whatattr : Option Nat
  whatform : Nat
  formaddr : Option Nat := none
  formudata : Option Nat := none
  formsdata : Option Int := none
deriving DecidableEq

/-- The result of `dwarf_diename`. -/
inductive DieName where
  /-- Stands for `DW_DLV_ERROR`. -/
  | error
  /-- Stands for `DW_DLV_NO_ENTRY`: the DIE has no name. -/
  | noEntry
  /-- Stands for `DW_DLV_OK` with the name. -/
  | ok (die_name : Bytes)
deriving DecidableEq

/-- A DIE, by the results of the calls on it: `dwarf_tag` and `dwarf_attrlist` (`none`
when the call does not return `DW_DLV_OK`) and `dwarf_diename`. -/
structure Die where
  tag : Option Nat
  diename : DieName
  attrlist : Option (List Attribute)
deriving DecidableEq

/-- How a call ends: it returns, or the process is aborted by `abort()`. -/
inductive Run (α : Type) where
  | returned (a : α)
  | aborted
deriving DecidableEq

/-- The loop of `LookupFunctionName` over the attributes, on the locals
`(lowpc, highpc)`; both are `Dwarf_Addr`, 64 bits. -/
def LookupAttributes : List Attribute → Nat × Nat → Run (Nat × Nat)
  | [], pcs => .returned pcs
  | a :: rest, (lowpc, highpc) =>
    match a.whatattr with
    | none => LookupAttributes rest (lowpc, highpc)
    | some attrcode =>
      if attrcode = DW_AT_low_pc then
        if a.whatform = DW_FORM_addr then LookupAttributes rest (a.formaddr.getD lowpc, highpc)
        else .aborted
      else if attrcode = DW_AT_high_pc then
        if a.whatform = DW_FORM_addr then LookupAttributes rest (lowpc, a.formaddr.getD highpc)
        else if a.whatform = DW_FORM_udata ∨ a.whatform = DW_FORM_data1
            ∨ a.whatform = DW_FORM_data2 ∨ a.whatform = DW_FORM_data4
            ∨ a.whatform = DW_FORM_data8 then
          LookupAttributes rest (lowpc, toU64 (a.formudata.getD highpc + lowpc))
        else if a.whatform = DW_FORM_sdata then
          LookupAttributes rest
            (lowpc, (((lowpc : Int) + a.formsdata.getD 0) % 18446744073709551616).toNat)
        else .aborted
      else LookupAttributes rest (lowpc, highpc)

/-- Embeds `LookupFunctionName(the_die, target, functionName, offset)`: the value returned
and, if `*functionName` is assigned, the name together with the value
`uint32_t(target - lowpc)` for `*offset`. -/
def LookupFunctionName (the_die : Die) (target : Nat) : Run (Int × Option (Bytes × Nat)) :=
  match the_die.tag with
  | none => .returned (-31, none)
  | some tag =>
    if tag ≠ DW_TAG_subprogram then .returned (0, none)
    else
      match the_die.diename with
      | .error => .returned (-30, none)
      | .noEntry => .returned (0, none)
      | .ok die_name =>
        match the_die.attrlist with
        | none => .returned (-33, none)
        | some attrs =>
          match LookupAttributes attrs (0, 0) with
          | .aborted => .aborted
          | .returned (lowpc, highpc) =>
            if lowpc > target ∨ highpc = 0 ∨ target ≥ highpc then .returned (0, none)
            else .returned (0, some (die_name, toU32 (target - lowpc)))

/-- The loop of `ProcessFile` over the children of a compilation unit, entered with
`*functionName` null: `child_die`, then the DIEs that `dwarf_siblingof` delivers;
`siblingError` tells whether the call after the last of them fails with
`DW_DLV_ERROR` (else it returns `DW_DLV_NO_ENTRY`). The result is the value of `rc`
after the loop and what `LookupFunctionName` assigned. -/
def LookupChildren (target : Nat) (siblingError : Bool) :
    Die → List Die → Run (Int × Option (Bytes × Nat))
  | child_die, siblings =>
    match LookupFunctionName child_die target with
    | .aborted => .aborted
    | .returned r =>
      match siblings with
      | [] => .returned (if siblingError then -22 else DW_DLV_NO_ENTRY, r.2)
      | next :: rest =>
        if r.2.isSome then .returned (DW_DLV_OK, r.2)
        else LookupChildren target siblingError next rest

/-- The DIE `cu_die` of a compilation unit, by what `ProcessFile` obtains from it: the
line table of `dwarf_srclines` and the children (`none` when `dwarf_child` does not
return `DW_DLV_OK`, else the first child, its siblings and whether the walk over
the siblings ends with an error). -/
structure CompileUnit where
  srclines : Option (List LineEntry)
  children : Option (Die × List Die × Bool)
deriving DecidableEq

/-- The loop of `ProcessFile` over the compilation units that `dwarf_next_cu_header`
delivers; an entry is `none` when the loop over `dwarf_siblingof` leaves `cu_die`
null. The state is `rc` and the out parameters. -/
def ProcessFileLoop (target : Nat) (wantName : Bool) :
    List (Option CompileUnit) → Int × LookupOut → Run (Int × LookupOut)
  | [], st => .returned st
  | cu :: rest, (rc, out) =>
    if rc = 0 ∧ (out.sourceFile = none ∨ (wantName = true ∧ out.functionName = none)) then
      match cu with
      | none => ProcessFileLoop target wantName rest (rc, out)
      | some cu_die =>
        let st1 : Int × LookupOut :=
          if out.sourceFile = none then (0, LookupSource cu_die.srclines target out)
          else (rc, out)
        if wantName = true ∧ st1.2.functionName = none then
          match cu_die.children with
          | none => .returned (-21, st1.2)
          | some (child_die, siblings, siblingError) =>
            match LookupChildren target siblingError child_die siblings with
            | .aborted => .aborted
            | .returned (rc1, found) =>
              ProcessFileLoop target wantName rest
                (rc1,
                  match found with
                  | some (name, offset) =>
                    { st1.2 with functionName := some name, offset := offset }
                  | none => st1.2)
        else ProcessFileLoop target wantName rest st1
    else .returned (rc, out)

/-- Embeds `ProcessFile(dbg, target, sourceFile, lineNumber, column, functionName, offset)`:
the value returned and the out parameters; `dbg` is given by its compilation
units. -/
def ProcessFile (dbg : List (Option CompileUnit)) (target : Nat) (wantName : Bool)
    (out : LookupOut) : Run (Int × LookupOut) :=
  ProcessFileLoop target wantName dbg
    (0, { out with sourceFile := none,
                   functionName := if wantName then none else out.functionName })

/-- A file as `Lookup` sees it: the compilation units of `dwarf_init` (`none` when
the call does not return `DW_DLV_OK`) and whether `dwarf_finish` returns
`DW_DLV_OK`. -/
structure DebugFile where
  dwarf_init : Option (List (Option CompileUnit))
  dwarf_finish : Bool := true
deriving DecidableEq

/-- Embeds `Lookup(filename, target, sourceFile, lineNumber, column, functionName, offset)`:
the value returned and the out parameters. `files` gives the file that `open`
finds for a name (`none` when `open` fails; a null name cannot be opened). -/
def Lookup (files : Bytes → Option DebugFile) (filename : Option Bytes) (target : Nat)
    (wantName : Bool) (out : LookupOut) : Run (Int × LookupOut) :=
  match filename.bind files with
  | none => .returned (-1, out)
  | some file =>
    match file.dwarf_init with
    | none => .returned (-2, out)
    | some dbg =>
      match ProcessFile dbg target wantName out with
      | .aborted => .aborted
      | .returned (rc, out1) =>
        if !file.dwarf_finish then .returned (-3, out1) else .returned (rc, out1)

/-! ## Notions for the statements about the function lookup -/

/-- The forms that `LookupFunctionName` reads: `DW_FORM_addr` for `DW_AT_low_pc`, and for
`DW_AT_high_pc` also the unsigned and signed data forms; the form of any other
attribute, and of an attribute whose code cannot be read, does not matter. -/
def Attribute.supported (a : Attribute) : Bool :=
  match a.whatattr with
  | none => true
  | some attrcode =>
    if attrcode = DW_AT_low_pc then decide (a.whatform = DW_FORM_addr)
    else if attrcode = DW_AT_high_pc then
      decide (a.whatform = DW_FORM_addr ∨ a.whatform = DW_FORM_udata
        ∨ a.whatform = DW_FORM_data1 ∨ a.whatform = DW_FORM_data2
        ∨ a.whatform = DW_FORM_data4 ∨ a.whatform = DW_FORM_data8
        ∨ a.whatform = DW_FORM_sdata)
    else true

/-- Every attribute of the DIE has a form that `LookupFunctionName` reads. -/
def Die.supported (d : Die) : Bool :=
  match d.attrlist with
  | some attrs => attrs.all Attribute.supported
  | none => true

/-- Every DIE among the children of the compilation unit is supported. -/
def CompileUnit.supported (cu : CompileUnit) : Bool :=
  match cu.children with
  | some (child_die, siblings, _) => child_die.supported && siblings.all Die.supported
  | none => true

/-- Every DIE that `Lookup` can visit in a file of `files` is supported. -/
def FilesSupported (files : Bytes → Option DebugFile) : Prop :=
  ∀ name file dbg, files name = some file → file.dwarf_init = some dbg →
    ∀ cu ∈ dbg, ∀ cu_die, cu = some cu_die → cu_die.supported = true

/-- Follows the spec, not the source: the range `[low_pc, high_pc)` of a DIE. `low_pc` is
the address that its `DW_AT_low_pc` attribute holds; `high_pc` is the address that its
`DW_AT_high_pc` attribute holds when that is in the address form, and `low_pc` plus
the offset it holds when it is in an offset form (unsigned or signed data),
whichever of the two attributes stands first in the list. A DIE without one of
the two attributes, or whose attribute holds no value, has no range. -/
def Die.range (d : Die) : Option (Nat × Nat) :=
  match d.attrlist with
  | none => none
  | some attrs =>
    match attrs.find? (fun a => decide (a.whatattr = some DW_AT_low_pc)),
        attrs.find? (fun a => decide (a.whatattr = some DW_AT_high_pc)) with
    | some low, some high =>
      match low.formaddr with
      | none => none
      | some low_pc =>
        if high.whatform = DW_FORM_addr then
          high.formaddr.map fun high_pc => (low_pc, high_pc)
        else if high.whatform = DW_FORM_sdata then
          high.formsdata.map fun offset => (low_pc, ((low_pc : Int) + offset).toNat)
        else high.formudata.map fun offset => (low_pc, low_pc + offset)
    | _, _ => none

/-- Follows the spec, not the source: the name of the first DIE, in sequence order,
that is a named subprogram whose range satisfies `low_pc <= target < high_pc`,
together with `target - low_pc`; `none` when no subprogram of the sequence has a
range that contains the target. -/
def firstContaining (target : Nat) : List Die → Option (Bytes × Nat)
  | [] => none
  | d :: rest =>
    match d.diename, d.range with
    | .ok die_name, some (low_pc, high_pc) =>
      if d.tag = some DW_TAG_subprogram ∧ low_pc ≤ target ∧ target < high_pc then
        some (die_name, target - low_pc)
      else firstContaining target rest
    | _, _ => firstContaining target rest

/-- A `DW_AT_low_pc` attribute in the form `DW_FORM_addr`. -/
def lowpcAttribute (addr : Nat) : Attribute :=
  { whatattr := some DW_AT_low_pc, whatform := DW_FORM_addr, formaddr := some addr }

/-- A `DW_AT_high_pc` attribute in the form `DW_FORM_data4`, an offset. -/
def highpcOffset (offset : Nat) : Attribute :=
  { whatattr := some DW_AT_high_pc, whatform := DW_FORM_data4, formudata := some offset }

/-- A named subprogram DIE with the given attributes. -/
def subprogramDie (name : Bytes) (attrs : List Attribute) : Die :=
  { tag := some DW_TAG_subprogram, diename := .ok name, attrlist := some attrs }

/-- A file with one compilation unit, without line table, whose children are the
given DIEs. -/
def fileOf (child_die : Die) (siblings : List Die) : DebugFile :=
  { dwarf_init := some [some { srclines := none, children := some (child_die, siblings, false) }] }

/-! ## Symbolicator: `RetrieveSourceCodeInfo` (util.cpp, the build without `__APPLE__`) -/

/-- Embeds `AfterFirstPath(str)` of util.cpp: the text after the first `/`, or the whole
string when it has none. -/
def AfterFirstPath (str : Bytes) : Bytes :=
  match str.dropWhile (fun c => decide (c ≠ 47)) with
  | [] => str
  | _ :: rest => rest

/-- Embeds `Demangle(name, retainer)` of util.cpp, with `force` false: a null pointer and
a name that does not begin with `_Z` are returned as they are; `host.Demangle` stands
for the call with `force` true. -/
def Demangle (host : Host) (name : Option Bytes) : Option Bytes :=
  match name with
  | none => none
  | some n =>
    if n.head? ≠ some 95 ∨ (n ≠ [] ∧ n[1]? ≠ some 90) then some n
    else some (host.Demangle n)

/-- What `RetrieveSourceCodeInfo` obtains from its platform: whether the build is one
for Linux, the result of `GetCurrentProcess(result)` (`none` for a null pointer),
and the files that `Lookup` can open. -/
structure Symbolicator where
  linux : Bool
  GetCurrentProcess : Option Bytes
  files : Bytes → Option DebugFile

/-- The second lookup of `RetrieveSourceCodeInfo`, in the library at `offset_in_file`, and
the end of the function; `out` holds `symbolName`, `lineNumber` and `columnNumber`. -/
def RetrieveSourceCodeInfoLibrary (host : Host) (sym : Symbolicator) (filename : Option Bytes)
    (offset_in_file : Nat) (out : LookupOut) (symbolNameDemangled : Bytes) : Run Frame :=
  match Lookup sym.files filename offset_in_file out.functionName.isNone
      { out with sourceFile := none } with
  | .aborted => .aborted
  | .returned (_, out2) =>
    let symbolNameDemangled2 :=
      if symbolNameDemangled = [] then (Demangle host out2.functionName).getD []
      else symbolNameDemangled
    match out2.sourceFile with
    | some sourceFile =>
      .returned ⟨symbolNameDemangled2, filename.getD [], AfterFirstPath sourceFile,
        out2.lineNumber, out2.column⟩
    | none =>
      .returned ⟨symbolNameDemangled2, [], [], 0, 0⟩

/-- Embeds `RetrieveSourceCodeInfo(symbolName, filename, offset_in_file, pc, currentExecutable)`
of util.cpp, the overload for a frame with a symbol: the tuple
`(function name, library, source file, line, column)`, or the abort of the process
inside `Lookup`. -/
def RetrieveSourceCodeInfo (host : Host) (sym : Symbolicator) (_symbolName : Option Bytes)
    (filename : Bytes) (offset_in_file pc : Nat) (currentExecutable : Option Bytes) :
    Run Frame :=
  let currentExecutableFullPath : Option Bytes :=
    if sym.linux = true ∧ filename.length ≥ 2
        ∧ (filename[0]? ≠ some 46 ∨ filename[1]? ≠ some 47) ∧ filename[0]? ≠ some 47 then
      sym.GetCurrentProcess
    else currentExecutable
  let out0 : LookupOut := { functionName := _symbolName }
  if currentExecutable = some filename then
    match Lookup sym.files currentExecutableFullPath pc out0.functionName.isNone out0 with
    | .aborted => .aborted
    | .returned (_, out1) =>
      let symbolNameDemangled := (Demangle host out1.functionName).getD []
      match out1.sourceFile with
      | some sourceFile =>
        .returned ⟨symbolNameDemangled, currentExecutable.getD [],
          AfterFirstPath (AfterFirstPath sourceFile), out1.lineNumber, out1.column⟩
      | none =>
        RetrieveSourceCodeInfoLibrary host sym currentExecutableFullPath offset_in_file out1
          symbolNameDemangled
  else RetrieveSourceCodeInfoLibrary host sym (some filename) offset_in_file out0 []

/-- Embeds `RetrieveSourceCodeInfo(pc, currentExecutable)` of util.cpp, the overload for a
frame without a symbol: the tuple `(function name, source file, line, column)`. -/
def RetrieveSourceCodeInfoPC (host : Host) (sym : Symbolicator) (pc : Nat)
    (currentExecutable : Option Bytes) : Run (Bytes × Bytes × Nat × Nat) :=
  match Lookup sym.files (if sym.linux then sym.GetCurrentProcess else currentExecutable) pc
      true {} with
  | .aborted => .aborted
  | .returned (_, out) =>
    match out.sourceFile, out.functionName with
    | some sourceFile, some functionName =>
      .returned ((Demangle host (some functionName)).getD [],
        AfterFirstPath (AfterFirstPath sourceFile), out.lineNumber, out.column)
    | _, _ => .returned ([], [], 0, 0)

/-- Every lookup finds neither a source file nor a function name: a call of `Lookup`
as `RetrieveSourceCodeInfo` makes it (no source file yet, the name wanted when there
is none) returns with no source file and with the name as it was. -/
def LookupFails (files : Bytes → Option DebugFile) : Prop :=
  ∀ (filename : Option Bytes) (target : Nat) (out : LookupOut), out.sourceFile = none →
    ∃ rc out1, Lookup files filename target out.functionName.isNone out = .returned (rc, out1)
      ∧ out1.sourceFile = none ∧ out1.functionName = out.functionName

/-- A platform on which no file can be opened. -/
def noFiles : Symbolicator :=
  { linux := true, GetCurrentProcess := some (lit "/usr/bin/tester"), files := fun _ => none }

/-! ## The Reporter process: `ReadCrash` with the symbolicator of util.cpp -/

/-- Embeds `RetrieveAndPrintSymbol(symbolName, offset_in_func, filename, offset_in_file, pc,
currentExecutable)` of util.cpp: the tuple of `RetrieveSourceCodeInfo`, returned as it
is (the line printed on standard error is not modelled), or the abort of the
process inside that call. -/
def RetrieveAndPrintSymbol (host : Host) (sym : Symbolicator) (symbolName : Option Bytes)
    (filename : Bytes) (offset_in_file pc : Nat) (currentExecutable : Option Bytes) :
    Run Frame :=
  RetrieveSourceCodeInfo host sym symbolName filename offset_in_file pc currentExecutable

/-- Embeds `RetrieveAndPrintPC(pc, currentExecutable)` of util.cpp: the tuple of
`RetrieveSourceCodeInfo(pc, currentExecutable)`, returned as it is, or the abort of the
process inside that call. -/
def RetrieveAndPrintPC (host : Host) (sym : Symbolicator) (pc : Nat)
    (currentExecutable : Option Bytes) : Run (Bytes × Bytes × Nat × Nat) :=
  RetrieveSourceCodeInfoPC host sym pc currentExecutable

/-- The branch of a tag in the loop of `ReadCrash` once the fields are read with `good`
true, with the calls of `RetrieveAndPrintSymbol` and `RetrieveAndPrintPC` as util.cpp
has them: a call that ends in `abort()` ends the process; the other branches are
those of `Crash.add`. -/
def Crash.addRun (host : Host) (sym : Symbolicator) (options : CrashOptions) (c : Crash) :
    Record → Run Crash
  | .library symbolName filename offset_in_file pc =>
    match RetrieveAndPrintSymbol host sym (if symbolName.isEmpty then none else some symbolName)
        filename offset_in_file pc (some options.currentExecutable) with
    | .aborted => .aborted
    | .returned frame => .returned { c with frames := c.frames ++ [frame] }
  | .pc pc =>
    match RetrieveAndPrintPC host sym pc (some options.currentExecutable) with
    | .aborted => .aborted
    | .returned r =>
      .returned { c with frames := c.frames ++
        [{ functionName := r.1, library := options.currentExecutable, sourceFile := r.2.1,
           lineNumber := r.2.2.1, columnOffset := r.2.2.2 }] }
  | .signal sig p => .returned (c.add host options (.signal sig p))
  | .uncaughtException cause exceptionType =>
    .returned (c.add host options (.uncaughtException cause exceptionType))
  | .assertion func file line condition explanation =>
    .returned (c.add host options (.assertion func file line condition explanation))
  | .context context => .returned (c.add host options (.context context))
  | .breadcrumb level time description =>
    .returned (c.add host options (.breadcrumb level time description))

/-- The loop `while (good) { ... }` of `ReadCrash` with the branches of `Crash.addRun`:
the readers and the turns are those of `ReadCrashLoop`; the loop ends as well when a
call of the symbolicator ends the process. -/
def ReadCrashLoopRun (host : Host) (sym : Symbolicator) (options : CrashOptions) :
    Nat → Reader → Crash → Run (Reader × Crash)
  | 0, r, c => .returned (r, c)
  | turns + 1, r, c =>
    if r.good then
      match ReadRecord r with
      | (.finish, r1) => .returned (r1, c)
      | (.stop, r1) => .returned (r1, c)
      | (.record rec, r1) =>
        match c.addRun host sym options rec with
        | .aborted => .aborted
        | .returned c1 => ReadCrashLoopRun host sym options turns r1 c1
      | (.skip _, r1) => ReadCrashLoopRun host sym options turns r1 c
    else .returned (r, c)

/-- Embeds `ReadCrash(in, options)` of reporter.cpp with the symbolicator of util.cpp, on a
pipe that delivers `input` and then ends: what became of the report when the
function returns, or the abort of the process inside a call of the symbolicator.
These calls stand in the loop only, so that an abort comes before the report is
built and before the sender is called. -/
def ReadCrashRun (host : Host) (sym : Symbolicator) (options : CrashOptions) (input : Bytes) :
    Run Delivery :=
  let startTag := ReadBinaryU32 0 { input := input, good := true }
  if startTag.1 ≠ CrashTag.START then .returned .discarded
  else
    match ReadCrashLoopRun host sym options (startTag.2.input.length + 1) startTag.2
        { timebuffer := host.startTime } with
    | .aborted => .aborted
    | .returned final =>
      if !final.1.good then .returned .discarded
      else
        match options.sender with
        | some _ => .returned (.sent options.sendFormat (buildReport host options final.2))
        | none => .returned (.printed (buildReport host options final.2))

end Crashy

namespace Crashy

/-! # Properties -/

/-! ## Codec lemmas -/

theorem WriteBinaryU32_length (n : Nat) : (WriteBinaryU32 n).length = 4 := rfl

theorem WriteBinaryU64_length (n : Nat) : (WriteBinaryU64 n).length = 8 := rfl

theorem ReadBinaryU32_write (n d : Nat) (rest : Bytes) (g : Bool) :
    ReadBinaryU32 d ⟨WriteBinaryU32 n ++ rest, g⟩ = (n % 4294967296, ⟨rest, g⟩) := by
  simp only [ReadBinaryU32, WriteBinaryU32, List.cons_append, List.nil_append, Fin.ofNat]
  congr 1
  omega

theorem ReadBinaryU64_write (n d : Nat) (rest : Bytes) (g : Bool) :
    ReadBinaryU64 d ⟨WriteBinaryU64 n ++ rest, g⟩ = (n % 18446744073709551616, ⟨rest, g⟩) := by
  have hlen : 8 ≤ (WriteBinaryU64 n ++ rest).length := by
    rw [List.length_append, WriteBinaryU64_length]; omega
  simp only [ReadBinaryU64, hlen, if_true]
  simp only [WriteBinaryU64, List.append_assoc, ReadBinaryU32_write]
  congr 1
  omega

theorem ReadBinaryString_write (s d rest : Bytes) (n : Nat) (hn : n ≤ s.length)
    (h32 : n < 4294967296) :
    ReadBinaryString d ⟨WriteBinaryData s n ++ rest, true⟩ = (s.take n, ⟨rest, true⟩) := by
  have hmod : n % 4294967296 = n := Nat.mod_eq_of_lt h32
  have hlen : (List.take n s).length = n := by
    rw [List.length_take]; omega
  simp only [ReadBinaryString, WriteBinaryData, List.append_assoc, ReadBinaryU32_write, hmod,
    if_true]
  have h1 : n ≤ (List.take n s ++ rest).length := by
    rw [List.length_append, hlen]; omega
  rw [if_pos h1]
  have h2 : List.take n (List.take n s ++ rest) = List.take n s := by
    rw [List.take_append_of_le_length (by omega)]
    exact List.take_of_length_le (by omega)
  have h3 : List.drop n (List.take n s ++ rest) = rest := by
    rw [List.drop_append_of_le_length (by omega)]
    rw [List.drop_of_length_le (by omega)]
    rfl
  rw [h2, h3]

/-- About `WriteString` on a string shorter than 8192 bytes: its length, then its bytes. -/
theorem WriteString_short (s : Bytes) (h : s.length < 8192) :
    WriteString (some s) = WriteBinaryData s s.length := by
  have h1 : ¬ s.length ≥ 8192 := by omega
  have h2 : s.length % 4294967296 = s.length := Nat.mod_eq_of_lt (by omega)
  simp only [WriteString, Option.getD_some, h1, if_false, toU32, h2]

theorem ReadBinaryString_WriteString (s d rest : Bytes) (h : s.length < 8192) :
    ReadBinaryString d ⟨WriteString (some s) ++ rest, true⟩ = (s, ⟨rest, true⟩) := by
  rw [WriteString_short s h, ReadBinaryString_write s d rest s.length (le_refl _) (by omega)]
  rw [List.take_length]


theorem ReadBinaryString_body (m d rest : Bytes) (h : m.length ≤ 1024) :
    ReadBinaryString d ⟨WriteBreadcrumbBody m m.length ++ rest, true⟩ = (m, ⟨rest, true⟩) := by
  have h2 : min (toU32 1024) (toU32 m.length) = m.length := by
    simp only [toU32]; omega
  rw [WriteBreadcrumbBody, h2, ReadBinaryString_write m d rest m.length (le_refl _) (by omega)]
  rw [List.take_length]

/-! ## C1: round trip of the wire protocol -/

theorem ReadRecord_signal (sig addr : Nat) (rest : Bytes) (h : (Record.signal sig addr).Bounded) :
    ReadRecord ⟨writeRecord (.signal sig addr) ++ rest, true⟩
      = (Step.record (.signal sig addr), ⟨rest, true⟩) := by
  obtain ⟨h1, h2⟩ := h
  have e1 : ((sig : Int) % 4294967296).toNat = sig := by omega
  simp only [writeRecord, WriteSignal, List.append_assoc, ReadRecord, ReadSignal,
    ReadBinaryU32_write, ReadBinaryU64_write, toU32, toU64, CrashTag.SIGNAL, CrashTag.FINISH, e1]
  simp [Nat.mod_eq_of_lt h1, Nat.mod_eq_of_lt h2]

theorem ReadRecord_uncaughtException (description exceptionType rest : Bytes)
    (h : (Record.uncaughtException description exceptionType).Bounded) :
    ReadRecord ⟨writeRecord (.uncaughtException description exceptionType) ++ rest, true⟩
      = (Step.record (.uncaughtException description exceptionType), ⟨rest, true⟩) := by
  obtain ⟨h1, h2⟩ := h
  simp only [writeRecord, WriteUncaughtException, List.append_assoc, ReadRecord,
    ReadUncaughtException, ReadBinaryU32_write, toU32, CrashTag.UNCAUGHT_EXCEPTION,
    CrashTag.SIGNAL, CrashTag.FINISH,
    ReadBinaryString_WriteString _ _ _ h1, ReadBinaryString_WriteString _ _ _ h2]
  simp

theorem ReadRecord_assertion (func file : Bytes) (line : Nat) (condition explanation rest : Bytes)
    (h : (Record.assertion func file line condition explanation).Bounded) :
    ReadRecord ⟨writeRecord (.assertion func file line condition explanation) ++ rest, true⟩
      = (Step.record (.assertion func file line condition explanation), ⟨rest, true⟩) := by
  obtain ⟨h1, h2, h3, h4, h5⟩ := h
  have e1 : ((line : Int) % 4294967296).toNat = line := by omega
  simp only [writeRecord, WriteAssert, List.append_assoc, ReadRecord, ReadAssert,
    ReadBinaryU32_write, toU32, CrashTag.UNCAUGHT_EXCEPTION, CrashTag.SIGNAL, CrashTag.FINISH,
    CrashTag.ASSERT, e1,
    ReadBinaryString_WriteString _ _ _ h1, ReadBinaryString_WriteString _ _ _ h2,
    ReadBinaryString_WriteString _ _ _ h4, ReadBinaryString_WriteString _ _ _ h5]
  simp [Nat.mod_eq_of_lt h3]

theorem ReadRecord_library (symbolName filename : Bytes) (offsetInFile pc : Nat) (rest : Bytes)
    (h : (Record.library symbolName filename offsetInFile pc).Bounded) :
    ReadRecord ⟨writeRecord (.library symbolName filename offsetInFile pc) ++ rest, true⟩
      = (Step.record (.library symbolName filename offsetInFile pc), ⟨rest, true⟩) := by
  obtain ⟨h1, h2, h3, h4⟩ := h
  simp only [writeRecord, PrintSymbolToReporter, List.append_assoc, ReadRecord, ReadLibrary,
    ReadBinaryU32_write, ReadBinaryU64_write, toU32, toU64, CrashTag.UNCAUGHT_EXCEPTION,
    CrashTag.SIGNAL, CrashTag.FINISH, CrashTag.ASSERT, CrashTag.LIBRARY,
    ReadBinaryString_WriteString _ _ _ h1, ReadBinaryString_WriteString _ _ _ h2]
  simp [Nat.mod_eq_of_lt h3, Nat.mod_eq_of_lt h4]

theorem ReadRecord_pc (pc : Nat) (rest : Bytes) (h : (Record.pc pc).Bounded) :
    ReadRecord ⟨writeRecord (.pc pc) ++ rest, true⟩ = (Step.record (.pc pc), ⟨rest, true⟩) := by
  have h1 : pc < 18446744073709551616 := by simpa only [Record.Bounded] using h
  simp only [writeRecord, PrintPCToReporter, List.append_assoc, ReadRecord, ReadPC,
    ReadBinaryU32_write, ReadBinaryU64_write, toU32, toU64, CrashTag.UNCAUGHT_EXCEPTION,
    CrashTag.SIGNAL, CrashTag.FINISH, CrashTag.ASSERT, CrashTag.LIBRARY, CrashTag.PC]
  simp [Nat.mod_eq_of_lt h1]

theorem ReadRecord_context (context rest : Bytes) (h : (Record.context context).Bounded) :
    ReadRecord ⟨writeRecord (.context context) ++ rest, true⟩
      = (Step.record (.context context), ⟨rest, true⟩) := by
  have h1 : context.length < 8192 := by simpa only [Record.Bounded] using h
  simp only [writeRecord, WriteContext, List.append_assoc, ReadRecord, ReadContext,
    ReadBinaryU32_write, toU32, CrashTag.UNCAUGHT_EXCEPTION,
    CrashTag.SIGNAL, CrashTag.FINISH, CrashTag.ASSERT, CrashTag.LIBRARY, CrashTag.PC,
    CrashTag.CONTEXT, ReadBinaryString_WriteString _ _ _ h1]
  simp

theorem ReadRecord_breadcrumb (level : Bytes) (time : Nat) (message rest : Bytes)
    (h : (Record.breadcrumb level time message).Bounded) :
    ReadRecord ⟨writeRecord (.breadcrumb level time message) ++ rest, true⟩
      = (Step.record (.breadcrumb level time message), ⟨rest, true⟩) := by
  obtain ⟨h1, h2, h3⟩ := h
  have e1 : ((time : Int) % 18446744073709551616).toNat = time := by omega
  simp only [writeRecord, WriteBreadcrumb, List.append_assoc, ReadRecord, ReadBreadcrumb,
    ReadBinaryU32_write, ReadBinaryU64_write, toU32, CrashTag.UNCAUGHT_EXCEPTION,
    CrashTag.SIGNAL, CrashTag.FINISH, CrashTag.ASSERT, CrashTag.LIBRARY, CrashTag.PC,
    CrashTag.CONTEXT, CrashTag.BREADCRUMB, e1, ReadBinaryString_WriteString _ _ _ h1,
    ReadBinaryString_body _ _ _ h3]
  simp [Nat.mod_eq_of_lt h2]

/-- C1: for every protocol record whose integer fields fit their wire types, whose
strings are shorter than 8192 bytes and whose breadcrumb message is at most 1024
bytes, one turn of the decoding loop of `ReadCrash`, run on the bytes the
Victim-side writers emit for the record (followed by any further bytes), decodes
exactly the fields written, in the same order, consumes exactly the bytes of the
record and leaves the `good` flag true. -/
theorem roundtrip_record (rec : Record) (rest : Bytes) (h : rec.Bounded) :
    ReadRecord ⟨writeRecord rec ++ rest, true⟩ = (Step.record rec, ⟨rest, true⟩) := by
  cases rec with
  | signal sig addr => exact ReadRecord_signal sig addr rest h
  | uncaughtException description exceptionType =>
    exact ReadRecord_uncaughtException description exceptionType rest h
  | assertion func file line condition explanation =>
    exact ReadRecord_assertion func file line condition explanation rest h
  | library symbolName filename offsetInFile pc =>
    exact ReadRecord_library symbolName filename offsetInFile pc rest h
  | pc pc => exact ReadRecord_pc pc rest h
  | context context => exact ReadRecord_context context rest h
  | breadcrumb level time message => exact ReadRecord_breadcrumb level time message rest h

/-- C1, at a concrete record: the first breadcrumb of the demo driver. -/
theorem roundtrip_record_witness :
    ReadRecord ⟨writeRecord (.breadcrumb (lit "error") 42 (lit "breadcrumb 0")) ++ [], true⟩
      = (Step.record (.breadcrumb (lit "error") 42 (lit "breadcrumb 0")), ⟨[], true⟩) :=
  roundtrip_record (.breadcrumb (lit "error") 42 (lit "breadcrumb 0")) []
    ⟨by decide, by decide, by decide⟩

/-! ## C3, C4: the string cap of `WriteString` -/

/-- About `WriteString` on a string of 8192 bytes or more: the four bytes of a zero
length and nothing else. -/
theorem WriteString_long (s : Bytes) (h : 8192 ≤ s.length) :
    WriteString (some s) = WriteBinaryU32 0 := by
  have h1 : s.length ≥ 8192 := h
  simp only [WriteString, Option.getD_some, h1, if_true, toU32, WriteBinaryData, Nat.zero_mod,
    List.take_zero, List.append_nil]

/-- C3: for every string of more than 8192 bytes, `WriteString` emits a zero length
and no bytes (the four bytes of the length field are all that is written, so no
prefix of the string is sent), and the Reporter-side string reader decodes the
empty string from them with `good` still true. -/
theorem WriteString_oversize_empty (s rest : Bytes) (h : 8192 < s.length) :
    WriteString (some s) = WriteBinaryU32 0
      ∧ ReadBinaryString [] ⟨WriteString (some s) ++ rest, true⟩ = ([], ⟨rest, true⟩) := by
  have h1 : WriteString (some s) = WriteBinaryU32 0 := WriteString_long s (by omega)
  refine ⟨h1, ?_⟩
  rw [h1]
  have h2 := ReadBinaryString_write [] [] rest 0 (le_refl _) (by omega)
  simpa only [WriteBinaryData, List.take_nil, List.append_nil] using h2

/-- C3, at a string of 8193 bytes. -/
theorem WriteString_oversize_empty_witness :
    WriteString (some (List.replicate 8193 (7 : Byte))) = WriteBinaryU32 0
      ∧ ReadBinaryString [] ⟨WriteString (some (List.replicate 8193 (7 : Byte))) ++ [1], true⟩
          = ([], ⟨[1], true⟩) :=
  WriteString_oversize_empty (List.replicate 8193 7) [1]
    (by rw [List.length_replicate]; omega)

/-- C4 as stated fails: a string of exactly 8192 bytes is within "at most 8192
bytes", yet `WriteString` does not emit it with its length and bytes; it emits a
zero length and no bytes. -/
theorem WriteString_exactly_8192_emptied :
    (List.replicate 8192 (7 : Byte)).length ≤ 8192
      ∧ WriteString (some (List.replicate 8192 (7 : Byte))) = WriteBinaryU32 0
      ∧ WriteString (some (List.replicate 8192 (7 : Byte)))
          ≠ WriteBinaryData (List.replicate 8192 (7 : Byte)) 8192 := by
  have h0 : (List.replicate 8192 (7 : Byte)).length = 8192 := List.length_replicate _ _
  have h1 := WriteString_long (List.replicate 8192 (7 : Byte)) (by omega)
  refine ⟨by omega, h1, ?_⟩
  rw [h1]
  intro h
  have h2 := congrArg List.length h
  simp only [WriteBinaryData, List.length_append, WriteBinaryU32_length, List.length_take,
    List.length_replicate] at h2
  omega

/-- C4, amended: `WriteString` emits every string of at most 8191 bytes unchanged,
with its true length (the Reporter-side reader decodes the very string), it emits
the empty string for every string of 8192 bytes or more, and for a null
pointer. -/
theorem WriteString_cap (s rest : Bytes) :
    WriteString (some s)
        = (if s.length ≤ 8191 then WriteBinaryU32 s.length ++ s else WriteBinaryU32 0)
      ∧ (ReadBinaryString [] ⟨WriteString (some s) ++ rest, true⟩).1
          = (if s.length ≤ 8191 then s else [])
      ∧ WriteString none = WriteBinaryU32 0 := by
  refine ⟨?_, ?_, rfl⟩
  · by_cases h : s.length ≤ 8191
    · rw [if_pos h, WriteString_short s (by omega), WriteBinaryData, List.take_length]
    · rw [if_neg h, WriteString_long s (by omega)]
  · by_cases h : s.length ≤ 8191
    · rw [if_pos h, ReadBinaryString_WriteString s [] rest (by omega)]
    · rw [if_neg h, WriteString_long s (by omega)]
      have h2 := ReadBinaryString_write [] [] rest 0 (le_refl _) (by omega)
      simp only [WriteBinaryData, List.take_nil, List.append_nil] at h2
      rw [h2]

/-! ## C5: the breadcrumb message body -/

/-- The body written for a breadcrumb whose buffer holds at least `size` bytes:
the length field is `min(1024, size mod 2^32)`, followed by that many bytes. -/
theorem WriteBreadcrumbBody_eq (message : Bytes) (size : Nat) :
    WriteBreadcrumbBody message size
      = WriteBinaryU32 (min 1024 (size % 4294967296))
          ++ message.take (min 1024 (size % 4294967296)) := by
  simp only [WriteBreadcrumbBody, WriteBinaryData, toU32]

/-- C5, at the size 2^32: whatever the message buffer holds, `FinishReport` writes
a zero length and no byte of the message after the `BREADCRUMB` tag, level and
time, where the claim gives a body of min(2^32, 1024) = 1024 bytes. -/
theorem WriteBreadcrumbBody_size_wraps (message : Bytes) :
    WriteBreadcrumbBody message 4294967296 = WriteBinaryU32 0
      ∧ min 4294967296 1024 = 1024 := by
  constructor
  · rw [WriteBreadcrumbBody_eq]
    simp
  · rfl

/-! ## C6: the inline string writers of simple-raw.h -/

/-- C6 as stated fails: a `std::string` of 2^32 - 1 bytes has a length that fits in a
u32, yet `WriteBinary` writes the length field 0 (and no bytes). -/
theorem WriteBinary_max_length_clamped :
    (List.replicate 4294967295 (7 : Byte)).length ≤ 2 ^ 32 - 1
      ∧ WriteBinaryStdString (List.replicate 4294967295 (7 : Byte)) = WriteBinaryU32 0
      ∧ (ReadBinaryU32 0 ⟨WriteBinaryStdString (List.replicate 4294967295 (7 : Byte)), true⟩).1
          = 0 := by
  have h0 : (List.replicate 4294967295 (7 : Byte)).length = 4294967295 :=
    List.length_replicate _ _
  have h1 : WriteBinaryStdString (List.replicate 4294967295 (7 : Byte)) = WriteBinaryU32 0 := by
    simp only [WriteBinaryStdString, h0, clampLength, lt_self_iff_false, if_false,
      WriteBinaryData, List.take_zero, List.append_nil]
  refine ⟨by rw [h0]; decide, h1, ?_⟩
  rw [h1]
  rfl

/-- C6, amended: for a C string or a `std::string` of length n, `WriteBinary` writes
the length field n (followed by the n bytes) whenever n < 2^32 - 1, and the
length field 0 (followed by nothing) whenever n >= 2^32 - 1; a null C string is
written as length 0. -/
theorem WriteBinary_length_field (s rest : Bytes) :
    WriteBinaryStdString s
        = (if s.length < 4294967295 then WriteBinaryU32 s.length ++ s else WriteBinaryU32 0)
      ∧ WriteBinaryCStr (some s) = WriteBinaryStdString s
      ∧ WriteBinaryCStr none = WriteBinaryU32 0
      ∧ (ReadBinaryU32 0 ⟨WriteBinaryStdString s ++ rest, true⟩).1
          = (if s.length < 4294967295 then s.length else 0) := by
  have h1 : WriteBinaryStdString s
      = (if s.length < 4294967295 then WriteBinaryU32 s.length ++ s else WriteBinaryU32 0) := by
    by_cases h : s.length < 4294967295
    · have h2 : s.length % 4294967296 = s.length := Nat.mod_eq_of_lt (by omega)
      simp only [WriteBinaryStdString, clampLength, h, if_true, toU32, h2, WriteBinaryData,
        List.take_length]
    · simp only [WriteBinaryStdString, clampLength, h, if_false, WriteBinaryData,
        List.take_zero, List.append_nil]
  refine ⟨h1, rfl, rfl, ?_⟩
  rw [h1]
  by_cases h : s.length < 4294967295
  · simp only [h, if_true, List.append_assoc, ReadBinaryU32_write]
    exact Nat.mod_eq_of_lt (by omega)
  · simp only [h, if_false, ReadBinaryU32_write]

/-! ## Reading from a pipe that ends early -/

theorem ReadBinaryU32_eq (a : Nat) (r : Reader) :
    ReadBinaryU32 a r
      = if 4 ≤ r.input.length then (decodeU32 (r.input.take 4), ⟨r.input.drop 4, r.good⟩)
        else (a, ⟨[], false⟩) := by
  obtain ⟨input, good⟩ := r
  rcases input with _ | ⟨b0, _ | ⟨b1, _ | ⟨b2, _ | ⟨b3, rest⟩⟩⟩⟩ <;>
    simp [ReadBinaryU32, decodeU32]

theorem ReadBinaryU32_good (a : Nat) (r : Reader) (h : (ReadBinaryU32 a r).2.good = true) :
    r.good = true := by
  rw [ReadBinaryU32_eq] at h
  by_cases h4 : 4 ≤ r.input.length
  · rw [if_pos h4] at h; exact h
  · rw [if_neg h4] at h; exact absurd h (by simp)

theorem ReadBinaryU64_good (a : Nat) (r : Reader) (h : (ReadBinaryU64 a r).2.good = true) :
    r.good = true := by
  by_cases h8 : 8 ≤ r.input.length
  · simp only [ReadBinaryU64, if_pos h8] at h
    exact ReadBinaryU32_good _ _ (ReadBinaryU32_good _ _ h)
  · simp only [ReadBinaryU64, if_neg h8] at h
    exact absurd h (by simp)

theorem ReadBinaryString_good (a : Bytes) (r : Reader)
    (h : (ReadBinaryString a r).2.good = true) : r.good = true := by
  by_cases h1 : (ReadBinaryU32 0 r).2.good = true
  · exact ReadBinaryU32_good _ _ h1
  · simp only [ReadBinaryString, if_neg h1] at h
    exact absurd h (by simp)

theorem ReadBinaryU32_cut {d : Nat} {rf rt : Reader} (a : Nat) (h : Cut d rf rt) :
    Cut d (ReadBinaryU32 a rf).2 (ReadBinaryU32 a rt).2
      ∧ ((ReadBinaryU32 a rt).2.good = true
          → (ReadBinaryU32 a rt).1 = (ReadBinaryU32 a rf).1) := by
  rcases h with h | ⟨hf, ht, hd, hi⟩
  · have hb : (ReadBinaryU32 a rt).2.good = false := by
      cases hg : (ReadBinaryU32 a rt).2.good
      · rfl
      · rw [ReadBinaryU32_good a rt hg] at h; exact absurd h (by simp)
    exact ⟨Or.inl hb, fun hg => by rw [hb] at hg; exact absurd hg (by simp)⟩
  · have hlen : rt.input.length = rf.input.length - d := by
      rw [hi, List.length_take]; omega
    rw [ReadBinaryU32_eq a rf, ReadBinaryU32_eq a rt]
    by_cases h4 : 4 ≤ rt.input.length
    · have h4f : 4 ≤ rf.input.length := by omega
      rw [if_pos h4, if_pos h4f]
      refine ⟨Or.inr ⟨hf, ht, ?_, ?_⟩, fun _ => ?_⟩
      · simp only [List.length_drop]; omega
      · simp only [List.length_drop]
        rw [hi, List.drop_take]
        congr 1
        omega
      · show decodeU32 (List.take 4 rt.input) = decodeU32 (List.take 4 rf.input)
        rw [hi, List.take_take]
        congr 2
        omega
    · rw [if_neg h4]
      exact ⟨Or.inl rfl, fun hg => by simp at hg⟩

theorem ReadBinaryU64_cut {d : Nat} {rf rt : Reader} (a : Nat) (h : Cut d rf rt) :
    Cut d (ReadBinaryU64 a rf).2 (ReadBinaryU64 a rt).2
      ∧ ((ReadBinaryU64 a rt).2.good = true
          → (ReadBinaryU64 a rt).1 = (ReadBinaryU64 a rf).1) := by
  by_cases h8 : 8 ≤ rt.input.length
  · rcases h with h | ⟨hf, ht, hd, hi⟩
    · have hb : (ReadBinaryU64 a rt).2.good = false := by
        cases hg : (ReadBinaryU64 a rt).2.good
        · rfl
        · rw [ReadBinaryU64_good a rt hg] at h; exact absurd h (by simp)
      exact ⟨Or.inl hb, fun hg => by rw [hb] at hg; exact absurd hg (by simp)⟩
    · have hlen : rt.input.length = rf.input.length - d := by
        rw [hi, List.length_take]; omega
      have h8f : 8 ≤ rf.input.length := by omega
      have c1 := ReadBinaryU32_cut (d := d) 0 (Or.inr ⟨hf, ht, hd, hi⟩)
      have c2 := ReadBinaryU32_cut (d := d) 0 c1.1
      simp only [ReadBinaryU64, if_pos h8, if_pos h8f]
      refine ⟨c2.1, fun hg => ?_⟩
      have hg1 := ReadBinaryU32_good _ _ hg
      rw [c1.2 hg1, c2.2 hg]
  · have hb : (ReadBinaryU64 a rt).2.good = false := by
      simp only [ReadBinaryU64, if_neg h8]
    exact ⟨Or.inl hb, fun hg => by rw [hb] at hg; exact absurd hg (by simp)⟩

theorem ReadBinaryString_cut {d : Nat} {rf rt : Reader} (a : Bytes) (h : Cut d rf rt) :
    Cut d (ReadBinaryString a rf).2 (ReadBinaryString a rt).2
      ∧ ((ReadBinaryString a rt).2.good = true
          → (ReadBinaryString a rt).1 = (ReadBinaryString a rf).1) := by
  have c1 := ReadBinaryU32_cut (d := d) 0 h
  by_cases hg : (ReadBinaryString a rt).2.good = true
  · have h1 : (ReadBinaryU32 0 rt).2.good = true := by
      by_cases h1 : (ReadBinaryU32 0 rt).2.good = true
      · exact h1
      · simp only [ReadBinaryString, if_neg h1] at hg
        exact absurd hg (by simp)
    have h2 : (ReadBinaryU32 0 rt).1 ≤ (ReadBinaryU32 0 rt).2.input.length := by
      by_cases h2 : (ReadBinaryU32 0 rt).1 ≤ (ReadBinaryU32 0 rt).2.input.length
      · exact h2
      · simp only [ReadBinaryString, if_pos h1, if_neg h2] at hg
        exact absurd hg (by simp)
    rcases c1.1 with hbad | ⟨hf, ht, hd, hi⟩
    · rw [h1] at hbad; exact absurd hbad (by simp)
    · have hv := c1.2 h1
      have hlen : (ReadBinaryU32 0 rt).2.input.length
          = (ReadBinaryU32 0 rf).2.input.length - d := by
        rw [hi, List.length_take]; omega
      have h2f : (ReadBinaryU32 0 rf).1 ≤ (ReadBinaryU32 0 rf).2.input.length := by
        rw [← hv]; omega
      simp only [ReadBinaryString, if_pos h1, if_pos hf, if_pos h2, if_pos h2f]
      refine ⟨Or.inr ⟨rfl, rfl, ?_, ?_⟩, fun _ => ?_⟩
      · simp only [List.length_drop]; rw [← hv]; omega
      · simp only [List.length_drop]
        rw [hi, List.drop_take, hv]
        congr 1
        omega
      · show List.take _ _ = List.take _ _
        rw [hi, List.take_take, hv]
        congr 1
        rw [← hv]
        omega
  · have hb : (ReadBinaryString a rt).2.good = false := by
      cases hc : (ReadBinaryString a rt).2.good
      · rfl
      · exact absurd hc hg
    exact ⟨Or.inl hb, fun hg1 => absurd hg1 hg⟩

theorem Cut.full_good {d : Nat} {rf rt : Reader} (h : Cut d rf rt) (hg : rt.good = true) :
    rf.good = true := by
  rcases h with hb | ⟨hf, _⟩
  · rw [hg] at hb; exact absurd hb (by simp)
  · exact hf

theorem ReadSignal_good (r : Reader) (h : (ReadSignal r).2.good = true) : r.good = true :=
  ReadBinaryU32_good _ _ (ReadBinaryU64_good _ _ h)

theorem ReadUncaughtException_good (r : Reader)
    (h : (ReadUncaughtException r).2.good = true) : r.good = true :=
  ReadBinaryString_good _ _ (ReadBinaryString_good _ _ h)

theorem ReadAssert_good (r : Reader) (h : (ReadAssert r).2.good = true) : r.good = true :=
  ReadBinaryString_good _ _ (ReadBinaryString_good _ _ (ReadBinaryU32_good _ _
    (ReadBinaryString_good _ _ (ReadBinaryString_good _ _ h))))

theorem ReadLibrary_good (r : Reader) (h : (ReadLibrary r).2.good = true) : r.good = true :=
  ReadBinaryString_good _ _ (ReadBinaryString_good _ _ (ReadBinaryU32_good _ _
    (ReadBinaryU64_good _ _ h)))

theorem ReadPC_good (r : Reader) (h : (ReadPC r).2.good = true) : r.good = true :=
  ReadBinaryU64_good _ _ h

theorem ReadContext_good (r : Reader) (h : (ReadContext r).2.good = true) : r.good = true :=
  ReadBinaryString_good _ _ h

theorem ReadBreadcrumb_good (r : Reader) (h : (ReadBreadcrumb r).2.good = true) :
    r.good = true :=
  ReadBinaryString_good _ _ (ReadBinaryU64_good _ _ (ReadBinaryString_good _ _ h))

theorem ReadSignal_cut {d : Nat} {rf rt : Reader} (h : Cut d rf rt) :
    Cut d (ReadSignal rf).2 (ReadSignal rt).2
      ∧ ((ReadSignal rt).2.good = true → (ReadSignal rt).1 = (ReadSignal rf).1) := by
  have c1 := ReadBinaryU32_cut (d := d) 0 h
  have c2 := ReadBinaryU64_cut (d := d) 0 c1.1
  refine ⟨c2.1, fun hg => ?_⟩
  have g2 : (ReadBinaryU64 0 (ReadBinaryU32 0 rt).2).2.good = true := hg
  have g1 := ReadBinaryU64_good _ _ g2
  have f2 := c2.1.full_good g2
  simp only [ReadSignal, g2, f2, if_true, c1.2 g1, c2.2 g2]

theorem ReadUncaughtException_cut {d : Nat} {rf rt : Reader} (h : Cut d rf rt) :
    Cut d (ReadUncaughtException rf).2 (ReadUncaughtException rt).2
      ∧ ((ReadUncaughtException rt).2.good = true
          → (ReadUncaughtException rt).1 = (ReadUncaughtException rf).1) := by
  have c1 := ReadBinaryString_cut (d := d) [] h
  have c2 := ReadBinaryString_cut (d := d) [] c1.1
  refine ⟨c2.1, fun hg => ?_⟩
  have g2 : (ReadBinaryString [] (ReadBinaryString [] rt).2).2.good = true := hg
  have g1 := ReadBinaryString_good _ _ g2
  have f2 := c2.1.full_good g2
  simp only [ReadUncaughtException, g2, f2, if_true, c1.2 g1, c2.2 g2]

theorem ReadAssert_cut {d : Nat} {rf rt : Reader} (h : Cut d rf rt) :
    Cut d (ReadAssert rf).2 (ReadAssert rt).2
      ∧ ((ReadAssert rt).2.good = true → (ReadAssert rt).1 = (ReadAssert rf).1) := by
  have c1 := ReadBinaryString_cut (d := d) [] h
  have c2 := ReadBinaryString_cut (d := d) [] c1.1
  have c3 := ReadBinaryU32_cut (d := d) 0 c2.1
  have c4 := ReadBinaryString_cut (d := d) [] c3.1
  have c5 := ReadBinaryString_cut (d := d) [] c4.1
  refine ⟨c5.1, fun hg => ?_⟩
  have g5 : (ReadBinaryString [] (ReadBinaryString [] (ReadBinaryU32 0 (ReadBinaryString []
      (ReadBinaryString [] rt).2).2).2).2).2.good = true := hg
  have g4 := ReadBinaryString_good _ _ g5
  have g3 := ReadBinaryString_good _ _ g4
  have g2 := ReadBinaryU32_good _ _ g3
  have g1 := ReadBinaryString_good _ _ g2
  have f5 := c5.1.full_good g5
  simp only [ReadAssert, g5, f5, if_true, c1.2 g1, c2.2 g2, c3.2 g3, c4.2 g4, c5.2 g5]

theorem ReadLibrary_cut {d : Nat} {rf rt : Reader} (h : Cut d rf rt) :
    Cut d (ReadLibrary rf).2 (ReadLibrary rt).2
      ∧ ((ReadLibrary rt).2.good = true → (ReadLibrary rt).1 = (ReadLibrary rf).1) := by
  have c1 := ReadBinaryString_cut (d := d) [] h
  have c2 := ReadBinaryString_cut (d := d) [] c1.1
  have c3 := ReadBinaryU32_cut (d := d) 0 c2.1
  have c4 := ReadBinaryU64_cut (d := d) 0 c3.1
  refine ⟨c4.1, fun hg => ?_⟩
  have g4 : (ReadBinaryU64 0 (ReadBinaryU32 0 (ReadBinaryString []
      (ReadBinaryString [] rt).2).2).2).2.good = true := hg
  have g3 := ReadBinaryU64_good _ _ g4
  have g2 := ReadBinaryU32_good _ _ g3
  have g1 := ReadBinaryString_good _ _ g2
  have f4 := c4.1.full_good g4
  simp only [ReadLibrary, g4, f4, if_true, c1.2 g1, c2.2 g2, c3.2 g3, c4.2 g4]

theorem ReadPC_cut {d : Nat} {rf rt : Reader} (h : Cut d rf rt) :
    Cut d (ReadPC rf).2 (ReadPC rt).2
      ∧ ((ReadPC rt).2.good = true → (ReadPC rt).1 = (ReadPC rf).1) := by
  have c1 := ReadBinaryU64_cut (d := d) 0 h
  refine ⟨c1.1, fun hg => ?_⟩
  have g1 : (ReadBinaryU64 0 rt).2.good = true := hg
  have f1 := c1.1.full_good g1
  simp only [ReadPC, g1, f1, if_true, c1.2 g1]

theorem ReadContext_cut {d : Nat} {rf rt : Reader} (h : Cut d rf rt) :
    Cut d (ReadContext rf).2 (ReadContext rt).2
      ∧ ((ReadContext rt).2.good = true → (ReadContext rt).1 = (ReadContext rf).1) := by
  have c1 := ReadBinaryString_cut (d := d) [] h
  refine ⟨c1.1, fun hg => ?_⟩
  have g1 : (ReadBinaryString [] rt).2.good = true := hg
  have f1 := c1.1.full_good g1
  simp only [ReadContext, g1, f1, if_true, c1.2 g1]

theorem ReadBreadcrumb_cut {d : Nat} {rf rt : Reader} (h : Cut d rf rt) :
    Cut d (ReadBreadcrumb rf).2 (ReadBreadcrumb rt).2
      ∧ ((ReadBreadcrumb rt).2.good = true
          → (ReadBreadcrumb rt).1 = (ReadBreadcrumb rf).1) := by
  have c1 := ReadBinaryString_cut (d := d) [] h
  have c2 := ReadBinaryU64_cut (d := d) 0 c1.1
  have c3 := ReadBinaryString_cut (d := d) [] c2.1
  refine ⟨c3.1, fun hg => ?_⟩
  have g3 : (ReadBinaryString [] (ReadBinaryU64 0 (ReadBinaryString [] rt).2).2).2.good
      = true := hg
  have g2 := ReadBinaryString_good _ _ g3
  have g1 := ReadBinaryU64_good _ _ g2
  have f3 := c3.1.full_good g3
  simp only [ReadBreadcrumb, g3, f3, if_true, c1.2 g1, c2.2 g2, c3.2 g3]

theorem ReadRecord_good (r : Reader) (h : (ReadRecord r).2.good = true) :
    (ReadBinaryU32 0 r).2.good = true := by
  unfold ReadRecord at h
  simp only at h
  split_ifs at h
  · exact h
  · exact ReadSignal_good _ h
  · exact ReadUncaughtException_good _ h
  · exact ReadAssert_good _ h
  · exact ReadLibrary_good _ h
  · exact ReadPC_good _ h
  · exact ReadContext_good _ h
  · exact ReadBreadcrumb_good _ h
  · exact h

/-- One turn of the loop on a pipe that ends early: it either fails, or does what
the turn on the whole pipe does and is at the same place. -/
theorem ReadRecord_cut {d : Nat} {rf rt : Reader} (h : Cut d rf rt) :
    Cut d (ReadRecord rf).2 (ReadRecord rt).2
      ∧ ((ReadRecord rt).2.good = true → (ReadRecord rt).1 = (ReadRecord rf).1) := by
  have c0 := ReadBinaryU32_cut (d := d) 0 h
  by_cases hg : (ReadRecord rt).2.good = true
  · have g0 := ReadRecord_good rt hg
    have hv := c0.2 g0
    unfold ReadRecord
    simp only [hv]
    split_ifs
    · exact ⟨c0.1, fun _ => rfl⟩
    · exact ReadSignal_cut c0.1
    · exact ReadUncaughtException_cut c0.1
    · exact ReadAssert_cut c0.1
    · exact ReadLibrary_cut c0.1
    · exact ReadPC_cut c0.1
    · exact ReadContext_cut c0.1
    · exact ReadBreadcrumb_cut c0.1
    · exact ⟨c0.1, fun _ => rfl⟩
  · have hb : (ReadRecord rt).2.good = false := by
      cases hc : (ReadRecord rt).2.good
      · rfl
      · exact absurd hc hg
    exact ⟨Or.inl hb, fun hg1 => absurd hg1 hg⟩

/-! ## The loop of `ReadCrash` on a stream of items -/

theorem ReadCrashLoop_bad (host : Host) (options : CrashOptions) (n : Nat) (r : Reader)
    (c : Crash) (h : r.good = false) : ReadCrashLoop host options n r c = (r, c) := by
  cases n with
  | zero => rfl
  | succ n => simp only [ReadCrashLoop, h, Bool.false_eq_true, if_false]

theorem ReadRecord_finish (rest : Bytes) :
    ReadRecord ⟨WriteBinaryU32 (toU32 CrashTag.FINISH) ++ rest, true⟩
      = (Step.finish, ⟨rest, true⟩) := by
  simp only [ReadRecord, ReadBinaryU32_write, toU32, CrashTag.FINISH]
  rfl

theorem ReadRecord_unknown (tag : Nat) (rest : Bytes) (h1 : tag < 4294967296)
    (h2 : ¬ (2 ≤ tag ∧ tag ≤ 9)) :
    ReadRecord ⟨WriteBinaryU32 tag ++ rest, true⟩ = (Step.skip tag, ⟨rest, true⟩) := by
  have hm : tag % 4294967296 = tag := Nat.mod_eq_of_lt h1
  simp only [ReadRecord, ReadBinaryU32_write, hm, CrashTag.FINISH, CrashTag.SIGNAL,
    CrashTag.UNCAUGHT_EXCEPTION, CrashTag.ASSERT, CrashTag.LIBRARY, CrashTag.PC,
    CrashTag.CONTEXT, CrashTag.BREADCRUMB]
  have e2 : ¬ tag = 2 := by omega
  have e3 : ¬ tag = 3 := by omega
  have e4 : ¬ tag = 4 := by omega
  have e5 : ¬ tag = 5 := by omega
  have e6 : ¬ tag = 6 := by omega
  have e7 : ¬ tag = 7 := by omega
  have e8 : ¬ tag = 8 := by omega
  have e9 : ¬ tag = 9 := by omega
  simp only [e2, e3, e4, e5, e6, e7, e8, e9, if_false]

theorem Item.bytes_length (item : Item) : 4 ≤ item.bytes.length := by
  cases item with
  | unknown tag => simp [Item.bytes, WriteBinaryU32]
  | record r =>
    cases r <;>
      simp [Item.bytes, writeRecord, WriteSignal, WriteUncaughtException, WriteAssert,
        PrintSymbolToReporter, PrintPCToReporter, WriteContext, WriteBreadcrumb,
        WriteBinaryU32_length]

theorem itemBytes_cons (item : Item) (items : List Item) :
    itemBytes (item :: items) = item.bytes ++ itemBytes items := by
  simp only [itemBytes, List.flatMap_cons]

theorem itemBytes_length (items : List Item) : items.length ≤ (itemBytes items).length := by
  induction items with
  | nil => simp [itemBytes]
  | cons item items ih =>
    have h := Item.bytes_length item
    rw [itemBytes_cons, List.length_append, List.length_cons]
    omega

theorem itemBytes_records (rs : List Record) :
    itemBytes (rs.map Item.record) = rs.flatMap writeRecord := by
  induction rs with
  | nil => rfl
  | cons r rs ih =>
    rw [List.map_cons, itemBytes_cons, ih, List.flatMap_cons]
    rfl

theorem recordsOf_records (rs : List Record) : recordsOf (rs.map Item.record) = rs := by
  induction rs with
  | nil => rfl
  | cons r rs ih => rw [List.map_cons, recordsOf, ih]

/-- One turn of the loop on the bytes of an item. -/
theorem ReadRecord_item (item : Item) (rest : Bytes) (h : item.Valid) :
    ReadRecord ⟨item.bytes ++ rest, true⟩
      = (match item with
          | .record r => Step.record r
          | .unknown tag => Step.skip tag, ⟨rest, true⟩) := by
  cases item with
  | unknown tag => exact ReadRecord_unknown tag rest h.1 h.2
  | record r =>
    cases r with
    | signal sig addr => exact ReadRecord_signal sig addr rest h
    | uncaughtException description exceptionType =>
      exact ReadRecord_uncaughtException description exceptionType rest h
    | assertion func file line condition explanation =>
      exact ReadRecord_assertion func file line condition explanation rest h
    | library symbolName filename offsetInFile pc =>
      exact ReadRecord_library symbolName filename offsetInFile pc rest h
    | pc pc => exact ReadRecord_pc pc rest h
    | context context => exact ReadRecord_context context rest h
    | breadcrumb level time message => exact ReadRecord_breadcrumb level time message rest h

/-- The loop of `ReadCrash` on the bytes of a list of items followed by `FINISH`:
it stops after `FINISH` with `good` true, and its locals are those the branches of
the records build, in order. -/
theorem ReadCrashLoop_items (host : Host) (options : CrashOptions) (items : List Item)
    (hv : ∀ item ∈ items, item.Valid) (rest : Bytes) (n : Nat) (hn : items.length < n)
    (c : Crash) :
    ReadCrashLoop host options n
        ⟨itemBytes items ++ (WriteBinaryU32 (toU32 CrashTag.FINISH) ++ rest), true⟩ c
      = (⟨rest, true⟩, (recordsOf items).foldl (fun c rec => c.add host options rec) c) := by
  induction items generalizing n c with
  | nil =>
    cases n with
    | zero => exact absurd hn (by simp)
    | succ n =>
      simp only [itemBytes, List.flatMap_nil, List.nil_append, ReadCrashLoop, if_true,
        ReadRecord_finish, recordsOf, List.foldl_nil]
  | cons item items ih =>
    cases n with
    | zero => exact absurd hn (by simp)
    | succ n =>
      have hi : item.Valid := hv item (List.mem_cons_self _ _)
      have hrest : ∀ x ∈ items, x.Valid := fun x hx => hv x (List.mem_cons_of_mem _ hx)
      have hn1 : items.length < n := by
        simp only [List.length_cons] at hn; omega
      rw [itemBytes_cons, List.append_assoc]
      simp only [ReadCrashLoop, if_true, ReadRecord_item item _ hi]
      cases item with
      | record r =>
        simp only [recordsOf, List.foldl_cons]
        exact ih hrest n hn1 _
      | unknown tag =>
        simp only [recordsOf]
        exact ih hrest n hn1 _

/-- About `ReadCrash` on a stream `START`, items, `FINISH` (and whatever follows): the
report of the records among the items is handed over. -/
theorem ReadCrash_items (host : Host) (options : CrashOptions) (items : List Item)
    (hv : ∀ item ∈ items, item.Valid) (rest : Bytes) :
    ReadCrash host options
        (WriteBinaryU32 (toU32 CrashTag.START) ++ (itemBytes items
          ++ (WriteBinaryU32 (toU32 CrashTag.FINISH) ++ rest)))
      = deliver host options (crashOf host options (recordsOf items)) := by
  have hlen := itemBytes_length items
  have hn : items.length
      < (itemBytes items ++ (WriteBinaryU32 (toU32 CrashTag.FINISH) ++ rest)).length + 1 := by
    rw [List.length_append]; omega
  simp only [ReadCrash, ReadBinaryU32_write, toU32, CrashTag.START, Nat.reduceMod, ne_eq,
    not_true_eq_false, if_false]
  have h := ReadCrashLoop_items host options items hv rest _ hn { timebuffer := host.startTime }
  simp only [toU32] at h
  rw [h]
  simp only [Bool.not_true, Bool.false_eq_true, if_false, deliver, crashOf]

theorem ReadCrashLoop_good_of_bad_turn (host : Host) (options : CrashOptions) (n : Nat)
    (r : Reader) (c : Crash) (h : (ReadRecord r).2.good = false) :
    (ReadCrashLoop host options (n + 1) r c).1.good = false := by
  by_cases hr : r.good = true
  · simp only [ReadCrashLoop, hr, if_true]
    rcases hs : ReadRecord r with ⟨step, r1⟩
    rw [hs] at h
    have h1 : r1.good = false := h
    cases step with
    | finish => exact h1
    | stop => exact h1
    | record rec =>
      show (ReadCrashLoop host options n r1 _).1.good = false
      rw [ReadCrashLoop_bad host options n r1 _ h1]; exact h1
    | skip tag =>
      show (ReadCrashLoop host options n r1 _).1.good = false
      rw [ReadCrashLoop_bad host options n r1 _ h1]; exact h1
  · have hb : r.good = false := by
      cases hc : r.good
      · rfl
      · exact absurd hc hr
    rw [ReadCrashLoop_bad host options _ r c hb]; exact hb

/-- The loop of `ReadCrash` on a pipe that ends `d > 0` bytes before the end of the
`FINISH` tag of a stream of items: it ends with `good` false. -/
theorem ReadCrashLoop_cut (host : Host) (options : CrashOptions) (d : Nat) (hd : 0 < d)
    (items : List Item) (hv : ∀ item ∈ items, item.Valid) (rt : Reader) (n : Nat)
    (hn : rt.input.length < n) (c : Crash)
    (hc : Cut d ⟨itemBytes items ++ WriteBinaryU32 (toU32 CrashTag.FINISH), true⟩ rt) :
    (ReadCrashLoop host options n rt c).1.good = false := by
  induction items generalizing n c rt with
  | nil =>
    cases n with
    | zero => exact absurd hn (by simp)
    | succ n =>
      have h1 := (ReadRecord_cut hc).1
      have hf := ReadRecord_finish []
      simp only [List.append_nil] at hf
      simp only [itemBytes, List.flatMap_nil, List.nil_append, hf] at h1
      have hb : (ReadRecord rt).2.good = false := by
        rcases h1 with hb | ⟨_, _, h3, _⟩
        · exact hb
        · simp only [List.length_nil] at h3; omega
      exact ReadCrashLoop_good_of_bad_turn host options n rt c hb
  | cons item items ih =>
    cases n with
    | zero => exact absurd hn (by simp)
    | succ n =>
      have hi : item.Valid := hv item (List.mem_cons_self _ _)
      have hrest : ∀ x ∈ items, x.Valid := fun x hx => hv x (List.mem_cons_of_mem _ hx)
      have h1 := ReadRecord_cut hc
      rw [itemBytes_cons, List.append_assoc, ReadRecord_item item _ hi] at h1
      by_cases hg : (ReadRecord rt).2.good = true
      · have hstep := h1.2 hg
        have hcut := h1.1
        have hrt : rt.good = true :=
          ReadBinaryU32_good _ _ (ReadRecord_good rt hg)
        -- the reader has moved on
        have hlt : (ReadRecord rt).2.input.length < rt.input.length := by
          have hb4 := Item.bytes_length item
          have hLf : (itemBytes (item :: items)
                ++ WriteBinaryU32 (toU32 CrashTag.FINISH)).length
              = item.bytes.length
                + (itemBytes items ++ WriteBinaryU32 (toU32 CrashTag.FINISH)).length := by
            rw [itemBytes_cons, List.append_assoc, List.length_append]
          rcases hc with hbad | ⟨_, _, c3, c4⟩
          · rw [hrt] at hbad; exact absurd hbad (by simp)
          · rcases hcut with hbad | ⟨_, _, d3, d4⟩
            · rw [hg] at hbad; exact absurd hbad (by simp)
            · simp only at d3 d4 c3 c4
              rw [hLf] at c3 c4
              rw [d4, c4, List.length_take, List.length_take, hLf]
              omega
        have hn1 : (ReadRecord rt).2.input.length < n := by omega
        simp only [ReadCrashLoop, hrt, if_true]
        rcases hs : ReadRecord rt with ⟨step, r1⟩
        rw [hs] at hstep hcut hn1
        simp only at hstep hcut hn1
        subst hstep
        cases item with
        | record r => exact ih hrest r1 n hn1 _ hcut
        | unknown tag => exact ih hrest r1 n hn1 _ hcut
      · have hb : (ReadRecord rt).2.good = false := by
          cases hc2 : (ReadRecord rt).2.good
          · rfl
          · exact absurd hc2 hg
        exact ReadCrashLoop_good_of_bad_turn host options n rt c hb

/-! ## The loop of `ReadCrash` never runs out of turns -/

theorem ReadBinaryU32_length (a : Nat) (r : Reader) :
    (ReadBinaryU32 a r).2.input.length ≤ r.input.length
      ∧ ((ReadBinaryU32 a r).2.good = true
          → (ReadBinaryU32 a r).2.input.length + 4 ≤ r.input.length) := by
  rw [ReadBinaryU32_eq]
  by_cases h4 : 4 ≤ r.input.length
  · rw [if_pos h4]
    simp only [List.length_drop]
    omega
  · rw [if_neg h4]
    simp

theorem ReadBinaryU64_length (a : Nat) (r : Reader) :
    (ReadBinaryU64 a r).2.input.length ≤ r.input.length := by
  by_cases h8 : 8 ≤ r.input.length
  · simp only [ReadBinaryU64, if_pos h8]
    have h1 := (ReadBinaryU32_length 0 r).1
    have h2 := (ReadBinaryU32_length 0 (ReadBinaryU32 0 r).2).1
    omega
  · simp only [ReadBinaryU64, if_neg h8]
    simp

theorem ReadBinaryString_length (a : Bytes) (r : Reader) :
    (ReadBinaryString a r).2.input.length ≤ r.input.length := by
  have h1 := (ReadBinaryU32_length 0 r).1
  unfold ReadBinaryString
  simp only
  split_ifs
  · simp only [List.length_drop]; omega
  · simp
  · exact h1

theorem ReadRecord_length (r : Reader) (h : (ReadRecord r).2.good = true) :
    (ReadRecord r).2.input.length < r.input.length := by
  have h0 := (ReadBinaryU32_length 0 r).2 (ReadRecord_good r h)
  have hle : (ReadRecord r).2.input.length ≤ (ReadBinaryU32 0 r).2.input.length := by
    unfold ReadRecord
    simp only
    split_ifs
    · exact le_refl _
    · exact ReadBinaryU64_length _ _ |>.trans (ReadBinaryU32_length _ _).1
    · exact ReadBinaryString_length _ _ |>.trans (ReadBinaryString_length _ _)
    · exact ReadBinaryString_length _ _ |>.trans (ReadBinaryString_length _ _ |>.trans
        ((ReadBinaryU32_length _ _).1.trans (ReadBinaryString_length _ _ |>.trans
          (ReadBinaryString_length _ _))))
    · exact ReadBinaryU64_length _ _ |>.trans ((ReadBinaryU32_length _ _).1.trans
        (ReadBinaryString_length _ _ |>.trans (ReadBinaryString_length _ _)))
    · exact ReadBinaryU64_length _ _
    · exact ReadBinaryString_length _ _
    · exact ReadBinaryString_length _ _ |>.trans (ReadBinaryU64_length _ _ |>.trans
        (ReadBinaryString_length _ _))
    · exact le_refl _
  omega

/-- The number of turns `ReadCrash` allows its loop, one more than the number of
bytes left, is never used up: with any two such numbers the loop gives the same
result, so that the loop of the model ends as the `while (good)` of the source
does, by `FINISH`, by a failed read, or by `good` being false. -/
theorem ReadCrashLoop_turns (host : Host) (options : CrashOptions) (n m : Nat) (r : Reader)
    (c : Crash) (hn : r.input.length < n) (hm : r.input.length < m) :
    ReadCrashLoop host options n r c = ReadCrashLoop host options m r c := by
  induction n generalizing m r c with
  | zero => exact absurd hn (by simp)
  | succ n ih =>
    cases m with
    | zero => exact absurd hm (by simp)
    | succ m =>
      by_cases hg : r.good = true
      · simp only [ReadCrashLoop, hg, if_true]
        by_cases hg1 : (ReadRecord r).2.good = true
        · have hlen := ReadRecord_length r hg1
          rcases hs : ReadRecord r with ⟨step, r1⟩
          rw [hs] at hlen
          simp only at hlen
          cases step with
          | finish => rfl
          | stop => rfl
          | record rec => exact ih m r1 _ (by omega) (by omega)
          | skip tag => exact ih m r1 _ (by omega) (by omega)
        · have hb : (ReadRecord r).2.good = false := by
            cases hc : (ReadRecord r).2.good
            · rfl
            · exact absurd hc hg1
          rcases hs : ReadRecord r with ⟨step, r1⟩
          rw [hs] at hb
          simp only at hb
          cases step with
          | finish => rfl
          | stop => rfl
          | record rec =>
            show ReadCrashLoop host options n r1 _ = ReadCrashLoop host options m r1 _
            rw [ReadCrashLoop_bad host options n r1 _ hb, ReadCrashLoop_bad host options m r1 _ hb]
          | skip tag =>
            show ReadCrashLoop host options n r1 _ = ReadCrashLoop host options m r1 _
            rw [ReadCrashLoop_bad host options n r1 _ hb, ReadCrashLoop_bad host options m r1 _ hb]
      · have hb : r.good = false := by
          cases hc : r.good
          · rfl
          · exact absurd hc hg
        rw [ReadCrashLoop_bad host options _ r c hb, ReadCrashLoop_bad host options _ r c hb]

/-! ## `ReadCrash` with the routines of the host on a stream cut before the end of `FINISH` -/

/-- About `ReadCrash` with the routines of the host, on a stream `START`, records,
`FINISH` cut `k` bytes in, strictly before the end of the `FINISH` tag: it returns
before the report is built. -/
theorem ReadCrash_cut (host : Host) (options : CrashOptions) (rs : List Record)
    (hrs : ∀ r ∈ rs, r.Bounded) (k : Nat) (hk : k < (recordStream rs).length) :
    ReadCrash host options ((recordStream rs).take k) = Delivery.discarded := by
  have hitems : ∀ item ∈ rs.map Item.record, item.Valid := by
    intro item hmem
    rcases List.mem_map.mp hmem with ⟨r, hr, rfl⟩
    exact hrs r hr
  simp only [recordStream, ← itemBytes_records, List.append_assoc] at hk ⊢
  rw [List.take_append_eq_append_take]
  simp only [List.length_append, WriteBinaryU32_length] at hk
  by_cases h4 : k < 4
  · -- the `START` tag itself is cut
    have e1 : k - (WriteBinaryU32 (toU32 CrashTag.START)).length = 0 := by
      rw [WriteBinaryU32_length]; omega
    rw [e1, List.take_zero, List.append_nil]
    have hshort : ¬ 4 ≤ (List.take k (WriteBinaryU32 (toU32 CrashTag.START))).length := by
      rw [List.length_take, WriteBinaryU32_length]; omega
    have hst : ReadBinaryU32 0 ⟨List.take k (WriteBinaryU32 (toU32 CrashTag.START)), true⟩
        = (0, ⟨[], false⟩) := by
      rw [ReadBinaryU32_eq]; exact if_neg hshort
    simp only [ReadCrash, hst]
    exact if_pos (by simp [CrashTag.START])
  · have e1 : List.take k (WriteBinaryU32 (toU32 CrashTag.START))
        = WriteBinaryU32 (toU32 CrashTag.START) :=
      List.take_of_length_le (by rw [WriteBinaryU32_length]; omega)
    rw [e1, WriteBinaryU32_length]
    simp only [ReadCrash, ReadBinaryU32_write, toU32, CrashTag.START, Nat.reduceMod, ne_eq,
      not_true_eq_false, if_false]
    have hcut : Cut ((itemBytes (rs.map Item.record)).length + 4 - (k - 4))
        ⟨itemBytes (rs.map Item.record) ++ WriteBinaryU32 (toU32 CrashTag.FINISH), true⟩
        ⟨List.take (k - 4) (itemBytes (rs.map Item.record)
          ++ WriteBinaryU32 (toU32 CrashTag.FINISH)), true⟩ := by
      refine Or.inr ⟨rfl, rfl, ?_, ?_⟩
      · simp only [List.length_append, WriteBinaryU32_length]; omega
      · simp only [List.length_append, WriteBinaryU32_length]
        congr 1
        omega
    have hgood := ReadCrashLoop_cut host options _ (by omega) (rs.map Item.record) hitems
      ⟨List.take (k - 4) (itemBytes (rs.map Item.record)
          ++ WriteBinaryU32 (toU32 CrashTag.FINISH)), true⟩
      ((List.take (k - 4) (itemBytes (rs.map Item.record)
          ++ WriteBinaryU32 (toU32 CrashTag.FINISH))).length + 1)
      (Nat.lt_succ_self _) { timebuffer := host.startTime } hcut
    simp only [toU32, CrashTag.FINISH, Nat.reduceMod] at hgood ⊢
    rw [hgood]
    rfl

/-! ## C8: a u32 value that is no tag -/

theorem recordsOf_bounded (items : List Item) (hv : ∀ item ∈ items, item.Valid) :
    ∀ r ∈ recordsOf items, r.Bounded := by
  induction items with
  | nil => intro r hr; simp [recordsOf] at hr
  | cons item items ih =>
    have hrest : ∀ x ∈ items, x.Valid := fun x hx => hv x (List.mem_cons_of_mem _ hx)
    cases item with
    | record r0 =>
      intro r hr
      simp only [recordsOf, List.mem_cons] at hr
      rcases hr with rfl | hr
      · exact hv _ (List.mem_cons_self _ _)
      · exact ih hrest r hr
    | unknown tag =>
      intro r hr
      exact ih hrest r hr

/-- About `ReadCrash` on a stream `START`, records, `FINISH`: the report of the records is
handed over. -/
theorem ReadCrash_recordStream (host : Host) (options : CrashOptions) (rs : List Record)
    (hrs : ∀ r ∈ rs, r.Bounded) :
    ReadCrash host options (recordStream rs) = deliver host options (crashOf host options rs) := by
  have hitems : ∀ item ∈ rs.map Item.record, item.Valid := by
    intro item hmem
    rcases List.mem_map.mp hmem with ⟨r, hr, rfl⟩
    exact hrs r hr
  have h := ReadCrash_items host options (rs.map Item.record) hitems []
  rw [itemBytes_records, recordsOf_records, List.append_nil] at h
  rw [recordStream, List.append_assoc]
  exact h

/-- C8 as stated fails: in the stream `START`, 77, `FINISH` the loop of `ReadCrash`
reads the u32 value 77, outside the tag set 1..9, at a tag position before `FINISH`;
the record is not discarded: the sender is called with the `PLAIN_TEXT` report. -/
theorem unknown_tag_not_discarded :
    ReadCrash demoHost demoOptions
        (WriteBinaryU32 CrashTag.START ++ WriteBinaryU32 77 ++ WriteBinaryU32 CrashTag.FINISH)
      = Delivery.sent .PLAIN_TEXT
          (lit "=== CRASH ===  [2023-11-14 22:13:20 +0000]\n\nCommand: \n   Path: \n\n") := by
  decide

/-- C8, amended: a u32 value outside the tags 2..9 that the loop of `ReadCrash` tests
for is skipped. For every stream that begins with `START` and holds, before
`FINISH`, records and such values in any order, `ReadCrash` hands over the report
of the records, the same as for the stream without the values. -/
theorem unknown_tag_skipped (host : Host) (options : CrashOptions) (items : List Item)
    (hv : ∀ item ∈ items, item.Valid) (rest : Bytes) :
    ReadCrash host options
        (WriteBinaryU32 (toU32 CrashTag.START) ++ (itemBytes items
          ++ (WriteBinaryU32 (toU32 CrashTag.FINISH) ++ rest)))
      = deliver host options (crashOf host options (recordsOf items))
    ∧ ReadCrash host options (recordStream (recordsOf items))
      = deliver host options (crashOf host options (recordsOf items)) :=
  ⟨ReadCrash_items host options items hv rest,
   ReadCrash_recordStream host options (recordsOf items) (recordsOf_bounded items hv)⟩

/-- C8, amended, at the stream `START`, `PC 66`, 77, `FINISH`. -/
theorem unknown_tag_skipped_witness :
    ReadCrash demoHost demoOptions
        (WriteBinaryU32 (toU32 CrashTag.START)
          ++ (itemBytes [Item.record (.pc 66), Item.unknown 77]
          ++ (WriteBinaryU32 (toU32 CrashTag.FINISH) ++ [])))
      = deliver demoHost demoOptions (crashOf demoHost demoOptions [.pc 66])
    ∧ ReadCrash demoHost demoOptions (recordStream [.pc 66])
      = deliver demoHost demoOptions (crashOf demoHost demoOptions [.pc 66]) :=
  unknown_tag_skipped demoHost demoOptions [Item.record (.pc 66), Item.unknown 77]
    (by
      intro item hmem
      simp only [List.mem_cons, List.mem_singleton, List.not_mem_nil, or_false] at hmem
      rcases hmem with rfl | rfl
      · show (66 : Nat) < 18446744073709551616
        decide
      · exact ⟨by decide, by decide⟩) []

/-! ## The lists that the loop of `ReadCrash` builds -/

theorem foldl_add_frames (host : Host) (options : CrashOptions) (rs : List Record) (c : Crash) :
    (rs.foldl (fun c rec => c.add host options rec) c).frames
      = c.frames ++ rs.filterMap (frameOf host options) := by
  induction rs generalizing c with
  | nil => simp
  | cons r rs ih =>
    rw [List.foldl_cons, ih]
    cases r <;> simp [Crash.add, frameOf, List.filterMap_cons]

theorem foldl_add_breadcrumbs (host : Host) (options : CrashOptions) (rs : List Record)
    (c : Crash) :
    (rs.foldl (fun c rec => c.add host options rec) c).breadcrumbs
      = c.breadcrumbs ++ rs.filterMap breadcrumbOf := by
  induction rs generalizing c with
  | nil => simp
  | cons r rs ih =>
    rw [List.foldl_cons, ih]
    cases r <;> simp [Crash.add, breadcrumbOf, List.filterMap_cons]

theorem intercalate_cons (sep e : Bytes) (es : List Bytes) :
    List.intercalate sep (e :: es) = e ++ es.flatMap (fun x => sep ++ x) := by
  induction es generalizing e with
  | nil => simp [List.intercalate]
  | cons e1 es ih =>
    have h := ih e1
    simp only [List.intercalate, List.intersperse_cons₂, List.flatten_cons, List.flatMap_cons,
      List.append_assoc] at h ⊢
    rw [h]

/-! ## C9: the order of the stack frames in the reports -/

/-- The loop over `frames` of the `JSON_SENTRY` report, from index `i` down: it
appends the entries of the rendered frames among the first `i`, last first, the
first entry after `sep` and each further one after a comma. -/
theorem jsonFramesLoop_eq (frames : List Frame) (i : Nat) (hi : i ≤ frames.length)
    (sep report : Bytes) :
    jsonFramesLoop frames i sep report
      = report ++ (match ((frames.take i).reverse.filter Frame.rendered).map jsonFrame with
          | [] => []
          | e :: es => sep ++ e ++ es.flatMap (fun x => lit "," ++ x)) := by
  induction i generalizing sep report with
  | zero => simp [jsonFramesLoop]
  | succ i ih =>
    have hlt : i < frames.length := hi
    have hget : frames[i]? = some frames[i] := List.getElem?_eq_getElem hlt
    have htake : (frames.take (i + 1)).reverse = frames[i] :: (frames.take i).reverse := by
      rw [List.take_succ, hget]
      simp
    rw [htake, jsonFramesLoop, hget]
    simp only
    by_cases h1 : (!(frames[i]).sourceFile.isEmpty) = true
    · have hr : Frame.rendered frames[i] = true := by simp [Frame.rendered, h1]
      rw [if_pos h1, ih (by omega), List.filter_cons_of_pos hr, List.map_cons]
      simp only [jsonFrame, if_pos h1, List.append_assoc]
      cases ((frames.take i).reverse.filter Frame.rendered).map jsonFrame with
      | nil => simp
      | cons e es => simp
    · rw [if_neg h1]
      by_cases h2 : (!(frames[i]).functionName.isEmpty) = true
      · have hr : Frame.rendered frames[i] = true := by simp [Frame.rendered, h2]
        rw [if_pos h2, ih (by omega), List.filter_cons_of_pos hr, List.map_cons]
        simp only [jsonFrame, if_neg h1, if_pos h2, List.append_assoc]
        cases ((frames.take i).reverse.filter Frame.rendered).map jsonFrame with
        | nil => simp
        | cons e es => simp
      · have hr : ¬ Frame.rendered frames[i] = true := by simp [Frame.rendered, h1, h2]
        rw [if_neg h2, ih (by omega), List.filter_cons_of_neg hr]

theorem plainFrames_eq (frames : List Frame) (report : Bytes) :
    plainFrames frames report = report ++ (frames.map plainFrame).flatten := by
  induction frames generalizing report with
  | nil => simp [plainFrames]
  | cons f frames ih => simp [plainFrames, ih]

/-- C9: the frames stored by `ReadCrash` are those of the frame records in the order
of their reception; the `stacktrace.frames` array of the `JSON_SENTRY` report holds
the entries of the rendered frames in exactly the reverse of that order, separated
by commas; the `PLAIN_TEXT` report lists the frames in the order of reception. -/
theorem stack_frames_order (host : Host) (options : CrashOptions) (rs : List Record)
    (report : Bytes) :
    (crashOf host options rs).frames = rs.filterMap (frameOf host options)
    ∧ jsonStacktrace (rs.filterMap (frameOf host options))
        = (if (rs.filterMap (frameOf host options)).isEmpty then []
           else lit ",\"stacktrace\":\x7b\"frames\":["
            ++ List.intercalate (lit ",")
                (((rs.filterMap (frameOf host options)).reverse.filter Frame.rendered).map
                  jsonFrame)
            ++ lit "]\x7d")
    ∧ plainFrames (rs.filterMap (frameOf host options)) report
        = report ++ ((rs.filterMap (frameOf host options)).map plainFrame).flatten := by
  refine ⟨?_, ?_, plainFrames_eq _ _⟩
  · rw [crashOf, foldl_add_frames]
    rfl
  · generalize rs.filterMap (frameOf host options) = frames
    by_cases he : frames.isEmpty = true
    · simp [jsonStacktrace, he]
    · simp only [jsonStacktrace, he, Bool.not_false, if_true, Bool.false_eq_true, if_false,
        Bool.not_eq_true]
      rw [jsonFramesLoop_eq frames frames.length (le_refl _), List.take_length]
      cases hes : (frames.reverse.filter Frame.rendered).map jsonFrame with
      | nil => simp [List.intercalate]
      | cons e es => simp [intercalate_cons]

/-! ## C10: the order of the breadcrumbs, end to end -/

theorem capString_length (str : Option Bytes) : (capString str).length < 8192 := by
  unfold capString
  split_ifs with h
  · simp
  · omega

theorem WriteString_capString (str : Option Bytes) :
    WriteString str = WriteString (some (capString str)) := by
  by_cases h : (str.getD []).length ≥ 8192
  · simp only [WriteString, capString, h, if_true, Option.getD_some, List.length_nil, toU32,
      Nat.zero_mod, WriteBinaryData, List.take_zero]
    simp
  · simp only [WriteString, capString, h, if_false, Option.getD_some]

/-- The bytes `FinishReport` writes for a breadcrumb whose buffer holds `size` bytes
are the bytes of its record. -/
theorem WriteBreadcrumb_record (c : Breadcrumb) (h : c.size ≤ c.message.length) :
    WriteBreadcrumb c = writeRecord c.record := by
  have hk : min 1024 (c.size % 4294967296) ≤ c.message.length := by omega
  have hlen : (c.message.take (min 1024 (c.size % 4294967296))).length
      = min 1024 (c.size % 4294967296) := by
    rw [List.length_take]; omega
  have ht : (((c.time % 18446744073709551616).toNat : Nat) : Int) % 18446744073709551616
      = c.time % 18446744073709551616 := by omega
  simp only [Breadcrumb.record, writeRecord, WriteBreadcrumb, ← WriteString_capString, ht]
  congr 1
  rw [WriteBreadcrumbBody_eq, WriteBreadcrumbBody_eq, hlen, List.take_take]
  have e1 : min 1024 (min 1024 (c.size % 4294967296) % 4294967296)
      = min 1024 (c.size % 4294967296) := by omega
  rw [e1, Nat.min_self]

theorem Breadcrumb.record_bounded (c : Breadcrumb) : c.record.Bounded := by
  refine ⟨capString_length _, ?_, ?_⟩
  · omega
  · rw [List.length_take]; omega

theorem WriteBreadcrumbs_eq (crumbs : List Breadcrumb) :
    WriteBreadcrumbs crumbs = crumbs.flatMap WriteBreadcrumb := by
  have h : ∀ (l : List Breadcrumb) (out : Bytes),
      l.foldl (fun out c => out ++ WriteBreadcrumb c) out = out ++ l.flatMap WriteBreadcrumb := by
    intro l
    induction l with
    | nil => intro out; simp
    | cons c l ih => intro out; simp [ih]
  simpa [WriteBreadcrumbs] using h crumbs []

theorem jsonBreadcrumbsLoop_eq (bs : List (Bytes × Int × Bytes)) (sep report : Bytes) :
    jsonBreadcrumbsLoop bs sep report
      = report ++ (match bs.map jsonBreadcrumb with
          | [] => []
          | e :: es => sep ++ e ++ es.flatMap (fun x => lit "," ++ x)) := by
  induction bs generalizing sep report with
  | nil => simp [jsonBreadcrumbsLoop]
  | cons b bs ih =>
    obtain ⟨level, time, string⟩ := b
    rw [jsonBreadcrumbsLoop, ih, List.map_cons]
    simp only [jsonBreadcrumb, List.append_assoc]
    cases bs.map jsonBreadcrumb with
    | nil => simp
    | cons e es => simp

theorem plainBreadcrumbs_eq (host : Host) (bs : List (Bytes × Int × Bytes)) (report : Bytes) :
    plainBreadcrumbs host bs report = report ++ (bs.map (plainBreadcrumb host)).flatten := by
  induction bs generalizing report with
  | nil => simp [plainBreadcrumbs]
  | cons b bs ih => simp [plainBreadcrumbs, ih]

theorem jsonBreadcrumbs_eq (bs : List (Bytes × Int × Bytes)) :
    jsonBreadcrumbs bs
      = lit ",\"breadcrumbs\":\x7b\"values\":["
          ++ List.intercalate (lit ",") (bs.map jsonBreadcrumb) ++ lit "]\x7d" := by
  rw [jsonBreadcrumbs, jsonBreadcrumbsLoop_eq]
  cases hes : bs.map jsonBreadcrumb with
  | nil => simp [List.intercalate]
  | cons e es => simp [intercalate_cons]

/-- The breadcrumb loop of `FinishReport` writes the records of the breadcrumbs, in
order. -/
theorem WriteBreadcrumbs_records (crumbs : List Breadcrumb)
    (hbuf : ∀ c ∈ crumbs, c.size ≤ c.message.length) :
    WriteBreadcrumbs crumbs = (crumbs.map Breadcrumb.record).flatMap writeRecord := by
  rw [WriteBreadcrumbs_eq]
  induction crumbs with
  | nil => rfl
  | cons c crumbs ih =>
    have hc := hbuf c (List.mem_cons_self _ _)
    have hrest : ∀ x ∈ crumbs, x.size ≤ x.message.length :=
      fun x hx => hbuf x (List.mem_cons_of_mem _ hx)
    rw [List.flatMap_cons, List.map_cons, List.flatMap_cons, ih hrest,
      WriteBreadcrumb_record c hc]

/-- C10: for every sequence of breadcrumbs that `getBreadcrumbs` returns (each with
a buffer that holds `size` bytes), `FinishReport` writes one `BREADCRUMB` record
per breadcrumb, in that order; `ReadCrash`, after any records `pre` received
before them, stores one entry per breadcrumb record in the same order; the
`breadcrumbs.values` array of the `JSON_SENTRY` report holds one entry per stored
breadcrumb in that order, separated by commas, and the `PLAIN_TEXT` report one
line per stored breadcrumb in that order; the entry of a breadcrumb carries its
own level, time and message, as far as the caps of the wire let them through. -/
theorem breadcrumbs_order (host : Host) (options : CrashOptions) (crumbs : List Breadcrumb)
    (hbuf : ∀ c ∈ crumbs, c.size ≤ c.message.length) (pre : List Record) (report : Bytes) :
    WriteBreadcrumbs crumbs = (crumbs.map Breadcrumb.record).flatMap writeRecord
    ∧ (∀ c ∈ crumbs, c.record.Bounded ∧ c.record.tag = CrashTag.BREADCRUMB)
    ∧ (crashOf host options (pre ++ crumbs.map Breadcrumb.record)).breadcrumbs
        = pre.filterMap breadcrumbOf ++ crumbs.map Breadcrumb.received
    ∧ jsonBreadcrumbs (crumbs.map Breadcrumb.received)
        = lit ",\"breadcrumbs\":\x7b\"values\":["
            ++ List.intercalate (lit ",") ((crumbs.map Breadcrumb.received).map jsonBreadcrumb)
            ++ lit "]\x7d"
    ∧ plainBreadcrumbs host (crumbs.map Breadcrumb.received) report
        = report ++ ((crumbs.map Breadcrumb.received).map (plainBreadcrumb host)).flatten
    ∧ (∀ c ∈ crumbs, (c.level.getD []).length < 8192 → -9223372036854775808 ≤ c.time
        → c.time < 9223372036854775808 → c.size = c.message.length → c.size ≤ 1024
        → c.received = (c.level.getD [], c.time, c.message)) := by
  refine ⟨WriteBreadcrumbs_records crumbs hbuf, fun c _ => ⟨c.record_bounded, rfl⟩, ?_,
    jsonBreadcrumbs_eq _, plainBreadcrumbs_eq _ _ _, ?_⟩
  · rw [crashOf, foldl_add_breadcrumbs, List.filterMap_append]
    simp only [List.nil_append]
    congr 1
    clear hbuf
    induction crumbs with
    | nil => rfl
    | cons c crumbs ih =>
      rw [List.map_cons, List.filterMap_cons, List.map_cons, ih]
      rfl
  · intro c _ h1 h2 h3 h4 h5
    have e1 : capString c.level = c.level.getD [] := by
      have : ¬ (c.level.getD []).length ≥ 8192 := by omega
      simp only [capString, this, if_false]
    have e2 : toInt64 (c.time % 18446744073709551616).toNat = c.time := by
      unfold toInt64
      split_ifs <;> omega
    have e3 : c.message.take (min 1024 (c.size % 4294967296)) = c.message := by
      apply List.take_of_length_le
      omega
    simp only [Breadcrumb.received, e1, e2, e3]

/-- C10, at the two breadcrumbs of the demo driver: `("error", 42, "breadcrumb 0")`
then `("info", 37, "breadcrumb 1")` give the timestamps 42 then 37. -/
theorem breadcrumbs_order_witness :
    jsonBreadcrumbs (testerBreadcrumbs.map Breadcrumb.received)
      = lit (",\"breadcrumbs\":\x7b\"values\":["
          ++ "\x7b\"message\":\"breadcrumb 0\",\"timestamp\":42,\"level\":\"error\"\x7d,"
          ++ "\x7b\"message\":\"breadcrumb 1\",\"timestamp\":37,\"level\":\"info\"\x7d]\x7d") :=
  (breadcrumbs_order demoHost demoOptions testerBreadcrumbs (by decide) [] []).2.2.2.1.trans
    (by decide)

/-! ## C7: the order of the tags the fatal entry points write -/

theorem backtrace_helper_inv {σ : Type} (P : σ → Prop) (b : Bool)
    (report : Nat → σ → Bool × σ) (hrep : ∀ pc s, P s → P (report pc s).2)
    (ctx : UnwindContext) (arg : UnwindHelper σ) (h : P arg.reportArg) :
    P (backtrace_helper b report ctx arg).2.reportArg := by
  unfold backtrace_helper
  simp only
  split_ifs
  all_goals first
    | exact h
    | exact hrep _ _ h

theorem Unwind_Backtrace_inv {σ : Type} (P : σ → Prop) (b : Bool)
    (report : Nat → σ → Bool × σ) (hrep : ∀ pc s, P s → P (report pc s).2)
    (stack : List UnwindContext) (arg : UnwindHelper σ) (h : P arg.reportArg) :
    P (Unwind_Backtrace (backtrace_helper b report) stack arg).reportArg := by
  induction stack generalizing arg with
  | nil => exact h
  | cons ctx rest ih =>
    have h1 := backtrace_helper_inv P b report hrep ctx arg h
    rcases hs : backtrace_helper b report ctx arg with ⟨reason, a1⟩
    rw [hs] at h1
    cases reason with
    | URC_NO_REASON =>
      simp only [Unwind_Backtrace, hs]
      exact ih a1 h1
    | URC_END_OF_STACK =>
      simp only [Unwind_Backtrace, hs]
      exact h1

theorem StackTraceAltLoop_inv {σ : Type} (P : σ → Prop) (memory : Nat → Nat × Nat)
    (print : Nat → σ → Bool × σ) (hrep : ∀ pc s, P s → P (print pc s).2)
    (n ip frame : Nat) (s : σ) (h : P s) :
    P (StackTraceAltLoop memory print n ip frame s).2 := by
  induction n generalizing ip frame s with
  | zero => exact h
  | succ n ih =>
    unfold StackTraceAltLoop
    simp only
    split_ifs
    · exact h
    · exact hrep _ _ h
    · exact ih _ _ _ (hrep _ _ h)
    · exact ih _ _ _ h

theorem StackTrace_inv {σ : Type} (P : σ → Prop) (b : Bool) (stack : List UnwindContext)
    (report : Nat → σ → Bool × σ) (hrep : ∀ pc s, P s → P (report pc s).2)
    (s : σ) (max_size : Int) (h : P s) :
    P (StackTrace b stack report s max_size).2 :=
  Unwind_Backtrace_inv P b report hrep stack _ h

theorem StackTraceSignal_inv {σ : Type} (P : σ → Prop) (build : Build) (m : Machine)
    (report : Nat → σ → Bool × σ) (hrep : ∀ pc s, P s → P (report pc s).2)
    (s : σ) (max_size : Int) (h : P s) :
    P (StackTraceSignal build m report s max_size) := by
  unfold StackTraceSignal
  split_ifs
  · unfold StackTraceAlt
    split_ifs
    · exact h
    · exact StackTraceAltLoop_inv P m.memory report hrep _ _ _ s h
  · exact Unwind_Backtrace_inv P build.haveGetIPInfo report hrep m.stack _ h

theorem display_printers (args : ToReporterArgs) (name : Option Bytes) :
    (args.display name).2.printSymbol = args.printSymbol
      ∧ (args.display name).2.printPC = args.printPC := by
  unfold ToReporterArgs.display
  cases args.filter with
  | none => exact ⟨rfl, rfl⟩
  | some filter =>
    cases name with
    | none => simp only; split_ifs <;> exact ⟨rfl, rfl⟩
    | some n => simp only; split_ifs <;> exact ⟨rfl, rfl⟩

theorem toU32_lt (x : Nat) : toU32 x < 4294967296 := Nat.mod_lt _ (by decide)

theorem toU64_lt (x : Nat) : toU64 x < 18446744073709551616 := Nat.mod_lt _ (by decide)

theorem toU32_idem (x : Nat) : toU32 (toU32 x) = toU32 x := Nat.mod_mod _ _

theorem toU64_idem (x : Nat) : toU64 (toU64 x) = toU64 x := Nat.mod_mod _ _

theorem PrintSymbolToReporter_record (symbolName filename : Option Bytes)
    (offset_in_file pc : Nat) :
    PrintSymbolToReporter symbolName filename offset_in_file pc
      = writeRecord (.library (capString symbolName) (capString filename)
          (toU32 offset_in_file) (toU64 pc)) := by
  simp only [writeRecord, PrintSymbolToReporter, ← WriteString_capString, toU32_idem,
    toU64_idem]

theorem PrintPCToReporter_record (pc : Nat) :
    PrintPCToReporter pc = writeRecord (.pc (toU64 pc)) := by
  simp only [writeRecord, PrintPCToReporter, toU64_idem]

/-- A call of `Process` with the printers to the pipe writes the bytes of at most
one frame record, and nothing else. -/
theorem Process_frames (dladdr : Nat → Option DlInfo) (base : Bytes) (pc : Nat) (v : Victim)
    (h : FramesWritten base v) : FramesWritten base (Process dladdr pc v).2 := by
  obtain ⟨hs, hp, frames, hpipe, hframes⟩ := h
  unfold Process
  cases hdl : dladdr pc with
  | none =>
    simp only
    by_cases hd : v.args.displayPC = true
    · simp only [hd, if_true, Victim.printPC, hp]
      refine ⟨hs, hp, frames ++ [.pc (toU64 pc)], ?_, ?_⟩
      · simp only [hpipe, List.flatMap_append, List.flatMap_cons, List.flatMap_nil,
          List.append_nil, List.append_assoc, PrintPCToReporter_record]
      · intro r hr
        rcases List.mem_append.mp hr with hr | hr
        · exact hframes r hr
        · simp only [List.mem_singleton] at hr
          subst hr
          exact ⟨toU64_lt pc, Or.inr rfl⟩
    · simp only [hd, if_false, Bool.false_eq_true]
      exact ⟨hs, hp, frames, hpipe, hframes⟩
  | some dyldInfo =>
    simp only
    have hdp := display_printers v.args dyldInfo.dli_sname
    by_cases hd : (v.args.display dyldInfo.dli_sname).1 = true
    · simp only [hd, if_true, Victim.printSymbol, hdp.1, hs]
      refine ⟨by rw [hdp.1]; exact hs, by rw [hdp.2]; exact hp,
        frames ++ [.library (capString dyldInfo.dli_sname) (capString dyldInfo.dli_fname)
          (toU32 (toU32 (subU64 pc dyldInfo.dli_fbase))) (toU64 pc)], ?_, ?_⟩
      · simp only [hpipe, List.flatMap_append, List.flatMap_cons, List.flatMap_nil,
          List.append_nil, List.append_assoc, PrintSymbolToReporter_record]
      · intro r hr
        rcases List.mem_append.mp hr with hr | hr
        · exact hframes r hr
        · simp only [List.mem_singleton] at hr
          subst hr
          exact ⟨⟨capString_length _, capString_length _, toU32_lt _, toU64_lt _⟩, Or.inl rfl⟩
    · simp only [hd, if_false, Bool.false_eq_true]
      exact ⟨by rw [hdp.1]; exact hs, by rw [hdp.2]; exact hp, frames, hpipe, hframes⟩

theorem WriteSignal_record (sig : Int) (p : Nat) :
    WriteSignal sig p = writeRecord (.signal (sig % 4294967296).toNat (toU64 p)) := by
  have h : (((sig % 4294967296).toNat : Nat) : Int) % 4294967296 = sig % 4294967296 := by omega
  simp only [writeRecord, WriteSignal, h, toU64_idem]

theorem WriteAssert_record (func file : Option Bytes) (line : Int)
    (condition explanation : Option Bytes) :
    WriteAssert func file line condition explanation
      = writeRecord (.assertion (capString func) (capString file) (line % 4294967296).toNat
          (capString condition) (capString explanation)) := by
  have h : (((line % 4294967296).toNat : Nat) : Int) % 4294967296 = line % 4294967296 := by
    omega
  simp only [writeRecord, WriteAssert, h, ← WriteString_capString]

theorem WriteUncaughtException_record (description exceptionType : Option Bytes) :
    WriteUncaughtException description exceptionType
      = writeRecord (.uncaughtException (capString description) (capString exceptionType)) := by
  simp only [writeRecord, WriteUncaughtException, ← WriteString_capString]

theorem WriteContext_record (context : Option Bytes) :
    WriteContext context = writeRecord (.context (capString context)) := by
  simp only [writeRecord, WriteContext, ← WriteString_capString]

theorem map_tag_breadcrumbs (crumbs : List Breadcrumb) :
    (crumbs.map Breadcrumb.record).map Record.tag
      = List.replicate crumbs.length CrashTag.BREADCRUMB := by
  induction crumbs with
  | nil => rfl
  | cons c crumbs ih =>
    rw [List.map_cons, List.map_cons, ih, List.length_cons, List.replicate_succ]
    rfl

/-- About `FinishReport` after a stack walk that wrote frame records behind `START` and
the cause record: the pipe holds a stream in the order of section 4.2. -/
theorem FinishReport_wellOrdered (options : CrashOptions)
    (hbuf : ∀ c ∈ options.getBreadcrumbs.getD [], c.size ≤ c.message.length)
    (cause : Record) (hcause : cause.Bounded) (v : Victim)
    (h : FramesWritten (WriteBinaryU32 (toU32 CrashTag.START) ++ writeRecord cause) v) :
    WellOrdered (FinishReport true options v).pipe cause.tag
      ∧ (FinishReport true options v).ending = Ending.abort := by
  obtain ⟨_, _, frames, hpipe, hframes⟩ := h
  refine ⟨?_, rfl⟩
  have hctx : (match options.getContext with
      | some context => v.pipe ++ WriteContext context
      | none => v.pipe) = v.pipe ++ (contextRecords options).flatMap writeRecord := by
    unfold contextRecords
    cases options.getContext with
    | none => simp
    | some context => simp [WriteContext_record]
  have hcr : ∀ pipe1 : Bytes, (match options.getBreadcrumbs with
      | some crumbs => pipe1 ++ WriteBreadcrumbs crumbs
      | none => pipe1)
        = pipe1 ++ ((options.getBreadcrumbs.getD []).map Breadcrumb.record).flatMap
            writeRecord := by
    intro pipe1
    have hb := WriteBreadcrumbs_records (options.getBreadcrumbs.getD []) hbuf
    cases hopt : options.getBreadcrumbs with
    | none => simp
    | some cs =>
      rw [hopt] at hb
      simp only [Option.getD_some] at hb ⊢
      rw [hb]
  refine ⟨cause :: (frames ++ (contextRecords options
    ++ (options.getBreadcrumbs.getD []).map Breadcrumb.record)), ?_, ?_, ?_⟩
  · simp only [FinishReport, Bool.not_true, Bool.false_eq_true, if_false, hctx, hcr]
    simp only [hpipe, recordStream, List.flatMap_cons, List.flatMap_append, List.append_assoc]
  · intro r hr
    rcases List.mem_cons.mp hr with rfl | hr
    · exact hcause
    · rcases List.mem_append.mp hr with hr | hr
      · exact (hframes r hr).1
      · rcases List.mem_append.mp hr with hr | hr
        · unfold contextRecords at hr
          cases hopt : options.getContext with
          | none => rw [hopt] at hr; simp at hr
          | some context =>
            rw [hopt] at hr
            simp only [List.mem_singleton] at hr
            subst hr
            exact capString_length _
        · rcases List.mem_map.mp hr with ⟨c, _, rfl⟩
          exact c.record_bounded
  · refine ⟨frames.map Record.tag, (contextRecords options).map Record.tag,
      (options.getBreadcrumbs.getD []).length, ?_, ?_, ?_⟩
    · simp only [List.map_cons, List.map_append, map_tag_breadcrumbs]
    · intro t ht
      rcases List.mem_map.mp ht with ⟨r, hr, rfl⟩
      exact (hframes r hr).2
    · unfold contextRecords
      cases options.getContext with
      | none => left; rfl
      | some context => right; rfl

/-- C7: each of the three fatal entry points, run with a valid reporter link, for
every build, every stack and every result of `dladdr`, every context and every
sequence of breadcrumbs (each with a buffer that holds `size` bytes), writes to
the pipe: `START` first; then the records of exactly one cause (`SIGNAL`, `ASSERT`
or `UNCAUGHT_EXCEPTION` respectively); then zero or more `LIBRARY` / `PC` records;
then at most one `CONTEXT` record; then zero or more `BREADCRUMB` records; then
`FINISH` as the last tag; `START` and `FINISH` are written once each; and the entry
point ends in `abort()`. -/
theorem entry_points_tag_order (build : Build) (m : Machine) (options : CrashOptions)
    (hbuf : ∀ c ∈ options.getBreadcrumbs.getD [], c.size ≤ c.message.length)
    (sigsegv sigbus sig : Int) (si_addr : Nat)
    (func file : Option Bytes) (line : Int) (condition explanation : Option Bytes)
    (exceptionType description : Bytes) :
    (WellOrdered (SendToReporter build m true options sigsegv sigbus sig si_addr).pipe
        CrashTag.SIGNAL
      ∧ (SendToReporter build m true options sigsegv sigbus sig si_addr).ending = Ending.abort)
    ∧ (WellOrdered
        (CrashAssert build m true options func file line condition explanation).pipe
        CrashTag.ASSERT
      ∧ (CrashAssert build m true options func file line condition explanation).ending
          = Ending.abort)
    ∧ (WellOrdered
        (GenerateDumpOnUncaughtException build m true options exceptionType description).pipe
        CrashTag.UNCAUGHT_EXCEPTION
      ∧ (GenerateDumpOnUncaughtException build m true options exceptionType description).ending
          = Ending.abort) := by
  refine ⟨?_, ?_, ?_⟩
  · simp only [SendToReporter, Bool.not_true, Bool.false_eq_true, if_false, WriteSignal_record]
    refine FinishReport_wellOrdered options hbuf
      (.signal (sig % 4294967296).toNat
        (toU64 (if sig = sigsegv ∨ sig = sigbus then si_addr else 0)))
      ⟨by omega, toU64_lt _⟩ _ ?_
    apply StackTraceSignal_inv (FramesWritten _) build m (Process m.dladdr)
      (fun pc s hs => Process_frames m.dladdr _ pc s hs)
    exact ⟨rfl, rfl, [], by simp, by simp⟩
  · simp only [CrashAssert, Bool.not_true, Bool.false_eq_true, if_false, WriteAssert_record]
    refine FinishReport_wellOrdered options hbuf
      (.assertion (capString func) (capString file) (line % 4294967296).toNat
        (capString condition) (capString explanation))
      ⟨capString_length _, capString_length _, by omega, capString_length _,
        capString_length _⟩ _ ?_
    apply StackTrace_inv (FramesWritten _) build.haveGetIPInfo m.stack (Process m.dladdr)
      (fun pc s hs => Process_frames m.dladdr _ pc s hs)
    exact ⟨rfl, rfl, [], by simp, by simp⟩
  · simp only [GenerateDumpOnUncaughtException, Bool.not_true, Bool.false_eq_true, if_false,
      SendUncaughtExceptionToReporter, WriteUncaughtException_record]
    refine FinishReport_wellOrdered options hbuf
      (.uncaughtException (capString (some description)) (capString (some exceptionType)))
      ⟨capString_length _, capString_length _⟩ _ ?_
    apply StackTrace_inv (FramesWritten _) build.haveGetIPInfo m.stack (Process m.dladdr)
      (fun pc s hs => Process_frames m.dladdr _ pc s hs)
    exact ⟨rfl, rfl, [], by simp, by simp⟩

/-- C7, at the demo driver: a stack of the handler, `crash` and `main`, the context
`"my-context"` and the two breadcrumbs of tester.cpp. -/
theorem entry_points_tag_order_witness :
    (WellOrdered (SendToReporter demoBuild demoMachine true testerOptions 11 7 11 66).pipe
        CrashTag.SIGNAL
      ∧ (SendToReporter demoBuild demoMachine true testerOptions 11 7 11 66).ending
          = Ending.abort)
    ∧ (WellOrdered
        (CrashAssert demoBuild demoMachine true testerOptions (some (lit "crash"))
          (some (lit "tester.cpp")) 22 (some (lit "false")) none).pipe
        CrashTag.ASSERT
      ∧ (CrashAssert demoBuild demoMachine true testerOptions (some (lit "crash"))
          (some (lit "tester.cpp")) 22 (some (lit "false")) none).ending = Ending.abort)
    ∧ (WellOrdered
        (GenerateDumpOnUncaughtException demoBuild demoMachine true testerOptions (lit "j")
          (lit "number: 42")).pipe
        CrashTag.UNCAUGHT_EXCEPTION
      ∧ (GenerateDumpOnUncaughtException demoBuild demoMachine true testerOptions (lit "j")
          (lit "number: 42")).ending = Ending.abort) :=
  entry_points_tag_order demoBuild demoMachine testerOptions (by decide) 11 7 11 66
    (some (lit "crash")) (some (lit "tester.cpp")) 22 (some (lit "false")) none
    (lit "j") (lit "number: 42")

/-! ## The unwinders as walks over the frames -/

theorem cfiFrames_nil (n : Nat) : cfiFrames [] n = [] := by
  simp [cfiFrames]

theorem cfiFrames_zero (stack : List UnwindContext) : cfiFrames stack 0 = [] := by
  simp [cfiFrames]

theorem cfiFrames_null (ctx : UnwindContext) (rest : List UnwindContext) (n : Nat)
    (h : ctx.ip = 0) : cfiFrames (ctx :: rest) n = [] := by
  simp [cfiFrames, h]

theorem cfiFrames_cons (ctx : UnwindContext) (rest : List UnwindContext) (n : Nat)
    (h : ctx.ip ≠ 0) : cfiFrames (ctx :: rest) (n + 1) = ctx :: cfiFrames rest n := by
  simp [cfiFrames, h]

theorem cfiFrames_length (stack : List UnwindContext) (n : Nat) :
    (cfiFrames stack n).length ≤ n := by
  simp only [cfiFrames, List.length_take]
  omega

theorem cfiFrames_mem (stack : List UnwindContext) (n : Nat) (ctx : UnwindContext)
    (h : ctx ∈ cfiFrames stack n) : ctx ∈ stack ∧ ctx.ip ≠ 0 := by
  have h1 : ctx ∈ stack.takeWhile (fun ctx => decide (ctx.ip ≠ 0)) := List.mem_of_mem_take h
  refine ⟨(List.takeWhile_sublist _).subset h1, ?_⟩
  have h2 := List.mem_takeWhile_imp h1
  simpa using h2

/-- The CFI strategy is a walk: `_Unwind_Backtrace` with `backtrace_helper` invokes the
callback on the adjusted IPs of the frames it can reach with the budget `left`,
in order, until stop. -/
theorem Unwind_Backtrace_visit {σ : Type} (b : Bool) (report : Nat → σ → Bool × σ)
    (stack : List UnwindContext) (arg : UnwindHelper σ) :
    (Unwind_Backtrace (backtrace_helper b report) stack arg).reportArg
      = visit report ((cfiFrames stack arg.left.toNat).map (adjustIP b)) arg.reportArg := by
  induction stack generalizing arg with
  | nil => simp only [Unwind_Backtrace, cfiFrames_nil, List.map_nil, visit]
  | cons ctx rest ih =>
    by_cases hl : arg.left ≤ 0
    · have h0 : arg.left.toNat = 0 := by omega
      simp only [Unwind_Backtrace, backtrace_helper, hl, if_true, h0, cfiFrames_zero,
        List.map_nil, visit]
    · by_cases hip : ctx.ip = 0
      · simp only [Unwind_Backtrace, backtrace_helper, hl, if_false, hip, if_true,
          cfiFrames_null ctx rest _ hip, List.map_nil, visit]
      · have hn : arg.left.toNat = (arg.left - 1).toNat + 1 := by omega
        rw [hn, cfiFrames_cons ctx rest _ hip, List.map_cons]
        by_cases hstop : (report (adjustIP b ctx) arg.reportArg).1 = true
        · have hstop1 := hstop
          simp only [adjustIP] at hstop1
          simp only [Unwind_Backtrace, backtrace_helper, hl, if_false, hip, hstop1, if_true,
            visit, hstop, adjustIP]
        · have hstop1 := hstop
          simp only [adjustIP] at hstop1
          simp only [Unwind_Backtrace, backtrace_helper, hl, if_false, hip, hstop1, visit,
            hstop, Bool.false_eq_true]
          rw [ih]
          simp only [adjustIP]

theorem altChain_length (memory : Nat → Nat × Nat) (n ip frame : Nat) :
    (altChain memory n ip frame).length ≤ n := by
  induction n generalizing ip frame with
  | zero => simp [altChain]
  | succ n ih =>
    unfold altChain
    split_ifs
    · simp
    · have := ih (memory frame).2 (memory frame).1
      simp only [List.length_cons]
      omega

theorem altIPs_length (memory : Nat → Nat × Nat) (n ip frame : Nat) :
    (altIPs memory n ip frame).length ≤ n :=
  (List.length_filter_le _ _).trans (altChain_length memory n ip frame)

theorem altIPs_mem (memory : Nat → Nat × Nat) (n ip frame x : Nat)
    (h : x ∈ altIPs memory n ip frame) : x ≠ 0 := by
  have := (List.mem_filter.mp h).2
  simpa using this

/-- The frame-pointer strategy is a walk: the recursion of `StackTraceAlt` invokes
the callback on the IPs of the chain that are not null, each minus one, in order,
until stop. -/
theorem StackTraceAltLoop_visit {σ : Type} (memory : Nat → Nat × Nat)
    (print : Nat → σ → Bool × σ) (n ip frame : Nat) (s : σ) :
    (StackTraceAltLoop memory print n ip frame s).2
      = visit print ((altIPs memory n ip frame).map (fun x => x - 1)) s := by
  induction n generalizing ip frame s with
  | zero => simp only [StackTraceAltLoop, altIPs, altChain, List.filter_nil, List.map_nil, visit]
  | succ n ih =>
    by_cases hf : frame = 0
    · simp only [StackTraceAltLoop, hf, if_true, altIPs, altChain, List.filter_nil,
        List.map_nil, visit]
    · by_cases hip : ip = 0
      · have h1 : altIPs memory (n + 1) ip frame
            = altIPs memory n (memory frame).2 (memory frame).1 := by
          simp [altIPs, altChain, hf, hip]
        rw [h1]
        simp only [StackTraceAltLoop, hf, if_false, hip, ne_eq, not_true_eq_false]
        exact ih _ _ _
      · have h1 : altIPs memory (n + 1) ip frame
            = ip :: altIPs memory n (memory frame).2 (memory frame).1 := by
          simp [altIPs, altChain, hf, hip]
        rw [h1, List.map_cons]
        by_cases hstop : (print (ip - 1) s).1 = true
        · simp only [StackTraceAltLoop, hf, if_false, hip, ne_eq, not_false_eq_true, if_true,
            hstop, visit]
        · simp only [StackTraceAltLoop, hf, if_false, hip, ne_eq, not_false_eq_true, if_true,
            hstop, visit]
          exact ih _ _ _

theorem StackTraceAlt_visit {σ : Type} (memory : Nat → Nat × Nat) (ip frame : Nat)
    (print : Nat → σ → Bool × σ) (s : σ) (max_size : Int) :
    (StackTraceAlt memory ip frame print s max_size).2
      = visit print ((altIPs memory max_size.toNat ip frame).map (fun x => x - 1)) s := by
  unfold StackTraceAlt
  by_cases h : frame = 0 ∨ max_size ≤ 0
  · rw [if_pos h]
    rcases h with h | h
    · have h1 : altIPs memory max_size.toNat ip frame = [] := by
        cases max_size.toNat with
        | zero => simp [altIPs, altChain]
        | succ n => simp [altIPs, altChain, h]
      simp only [h1, List.map_nil, visit]
    · have h0 : max_size.toNat = 0 := by omega
      simp only [h0, altIPs, altChain, List.filter_nil, List.map_nil, visit]
  · rw [if_neg h]
    exact StackTraceAltLoop_visit memory print _ ip frame s

theorem mem_dropLast_cons {α : Type} (a : α) (l : List α) (e : α)
    (h : e ∈ (a :: l).dropLast) : e = a ∨ e ∈ l.dropLast := by
  cases l with
  | nil => simp at h
  | cons b l =>
    simp only [List.dropLast_cons₂, List.mem_cons] at h
    exact h

/-- A walk with the recording callback: the state is that of the plain walk, the
record holds the program counters of a leading part of the list, in order, and
only its last entry can have the stop flag. -/
theorem visit_logged {σ : Type} (report : Nat → σ → Bool × σ) (pcs : List Nat) (s : σ)
    (log0 : List (Nat × Bool)) :
    (visit (logged report) pcs (s, log0)).1 = visit report pcs s
      ∧ ∃ new : List (Nat × Bool),
          (visit (logged report) pcs (s, log0)).2 = log0 ++ new
            ∧ new.length ≤ pcs.length
            ∧ new.map Prod.fst = pcs.take new.length
            ∧ ∀ e ∈ new.dropLast, e.2 = false := by
  induction pcs generalizing s log0 with
  | nil => exact ⟨rfl, [], by simp [visit], by simp, by simp, by simp⟩
  | cons pc rest ih =>
    by_cases hstop : (report pc s).1 = true
    · refine ⟨by simp only [visit, logged, hstop, if_true], [(pc, true)], ?_, by simp,
        by simp, by simp⟩
      simp only [visit, logged, hstop, if_true]
    · have hb : (report pc s).1 = false := by
        cases hc : (report pc s).1
        · rfl
        · exact absurd hc hstop
      obtain ⟨h1, new, h2, h3, h4, h5⟩ := ih (report pc s).2 (log0 ++ [(pc, false)])
      refine ⟨by simp only [visit, logged, hb, Bool.false_eq_true, if_false]; exact h1,
        (pc, false) :: new, ?_, by simp only [List.length_cons]; omega, ?_, ?_⟩
      · simp only [visit, logged, hb, Bool.false_eq_true, if_false]
        rw [h2, List.append_assoc]
        rfl
      · simp only [List.map_cons, List.length_cons, List.take_succ_cons, h4]
      · intro e he
        rcases mem_dropLast_cons _ _ _ he with rfl | he
        · rfl
        · exact h5 e he

theorem StackTrace_walk {σ : Type} (b : Bool) (stack : List UnwindContext)
    (report : Nat → σ → Bool × σ) (s : σ) (N : Int) :
    (StackTrace b stack report s N).2
      = visit report ((cfiFrames stack N.toNat).map (adjustIP b)) s :=
  Unwind_Backtrace_visit b report stack { left := N, reportArg := s }

theorem StackTraceSignal_walk {σ : Type} (build : Build) (m : Machine)
    (report : Nat → σ → Bool × σ) (s : σ) (N : Int) :
    StackTraceSignal build m report s N
      = if build.manual then
          visit report ((altIPs m.memory N.toNat m.ucxt_ip m.ucxt_bp).map (fun x => x - 1)) s
        else visit report ((cfiFrames m.stack N.toNat).map (adjustIP build.haveGetIPInfo)) s := by
  unfold StackTraceSignal
  split_ifs
  · exact StackTraceAlt_visit _ _ _ _ _ _
  · exact Unwind_Backtrace_visit _ report m.stack { left := N, reportArg := s }

/-- The record of a walk that starts with an empty record. -/
theorem visit_logged_nil {σ : Type} (report : Nat → σ → Bool × σ) (pcs : List Nat) (s : σ) :
    (visit (logged report) pcs (s, [])).1 = visit report pcs s
      ∧ (visit (logged report) pcs (s, [])).2.length ≤ pcs.length
      ∧ (∃ k, (visit (logged report) pcs (s, [])).2.map Prod.fst = pcs.take k)
      ∧ ∀ e ∈ (visit (logged report) pcs (s, [])).2.dropLast, e.2 = false := by
  obtain ⟨h1, new, h2, h3, h4, h5⟩ := visit_logged report pcs s []
  rw [List.nil_append] at h2
  rw [h2]
  exact ⟨h1, h3, ⟨new.length, h4⟩, h5⟩

/-- C16: PC-decrement law. With a callback that records its invocations, the program
counters that `StackTrace` (CFI strategy, through `backtrace_helper`) passes to the
callback are, in order, those of a leading part of the frames of the stack before
the first null IP, each the raw IP minus one, or the raw IP verbatim when the build
reads the ip-before-insn flag and the flag is set. Those that `StackTraceAlt`
(frame-pointer strategy) passes are the raw IPs of a leading part of the chain that
starts at the IP handed in, each minus one; for a signal-originated unwind the IP
handed in is the interrupted IP of the context. No raw IP that is passed on is null,
so each is decremented exactly once. -/
theorem pc_decrement_law {σ : Type} (build : Build) (m : Machine) (ip frame : Nat)
    (report : Nat → σ → Bool × σ) (s : σ) (N : Int) :
    (∃ k, (StackTrace build.haveGetIPInfo m.stack (logged report) (s, []) N).2.2.map Prod.fst
        = ((cfiFrames m.stack N.toNat).take k).map
            (fun ctx => if build.haveGetIPInfo && ctx.ip_before_insn then ctx.ip
              else ctx.ip - 1))
      ∧ (∀ ctx ∈ cfiFrames m.stack N.toNat, ctx ∈ m.stack ∧ ctx.ip ≠ 0)
      ∧ (∃ k, (StackTraceAlt m.memory ip frame (logged report) (s, []) N).2.2.map Prod.fst
          = ((altIPs m.memory N.toNat ip frame).take k).map (fun x => x - 1))
      ∧ (∀ x ∈ altIPs m.memory N.toNat ip frame, x ≠ 0 ∧ x - 1 + 1 = x)
      ∧ (∃ k, (StackTraceSignal build m (logged report) (s, []) N).2.map Prod.fst
          = if build.manual then
              ((altIPs m.memory N.toNat m.ucxt_ip m.ucxt_bp).take k).map (fun x => x - 1)
            else
              ((cfiFrames m.stack N.toNat).take k).map
                (fun ctx => if build.haveGetIPInfo && ctx.ip_before_insn then ctx.ip
                  else ctx.ip - 1)) := by
  have hadj : adjustIP build.haveGetIPInfo
      = fun ctx => if build.haveGetIPInfo && ctx.ip_before_insn then ctx.ip else ctx.ip - 1 :=
    rfl
  refine ⟨?_, fun ctx h => cfiFrames_mem _ _ _ h, ?_,
    fun x h => ⟨altIPs_mem _ _ _ _ _ h, ?_⟩, ?_⟩
  · rw [StackTrace_walk]
    obtain ⟨k, hk⟩ := (visit_logged_nil report _ s).2.2.1
    exact ⟨k, by rw [hk, ← List.map_take, hadj]⟩
  · rw [StackTraceAlt_visit]
    obtain ⟨k, hk⟩ := (visit_logged_nil report _ s).2.2.1
    exact ⟨k, by rw [hk, ← List.map_take]⟩
  · have := altIPs_mem _ _ _ _ _ h
    omega
  · rw [StackTraceSignal_walk]
    by_cases hm : build.manual = true
    · simp only [hm, if_true]
      obtain ⟨k, hk⟩ := (visit_logged_nil report _ s).2.2.1
      exact ⟨k, by rw [hk, ← List.map_take]⟩
    · simp only [hm, Bool.false_eq_true, if_false]
      obtain ⟨k, hk⟩ := (visit_logged_nil report _ s).2.2.1
      exact ⟨k, by rw [hk, ← List.map_take, hadj]⟩

theorem pc_decrement_law_witness :
    ((StackTrace true callStackMachine.stack (logged countingReport) (0, []) 32).2.2.map Prod.fst
        = [49, 149, 249, 349]
      ∧ (StackTraceAlt chainMemory 150 1000 (logged countingReport) (0, []) 32).2.2.map Prod.fst
        = [149, 249])
      ∧ ∀ x ∈ altIPs chainMemory (32 : Int).toNat 150 1000, x ≠ 0 ∧ x - 1 + 1 = x :=
  ⟨by decide,
    (pc_decrement_law { manual := true, haveGetIPInfo := true, signalFilter := none }
      { callStackMachine with memory := chainMemory } 150 1000 countingReport 0 32).2.2.2.1⟩

/-- C17: with a budget of two frames and a stack of four, `PrintCurrentCallStack`
returns -1: the frame of `PrintCurrentCallStack` itself and the one frame printed
use the budget up, and the third call of `backtrace_helper` decrements it once
more. The frame-pointer walker `StackTraceAlt` returns 0 when its budget of two
is used up on a longer chain. -/
theorem PrintCurrentCallStack_negative :
    (PrintCurrentCallStack demoBuild callStackMachine 2).1 = -1
      ∧ (PrintCurrentCallStack demoBuild callStackMachine 2).2.err
          = [.symbol (some (lit "foo")) 39 (some (lit "tester")) 149 149]
      ∧ callStackMachine.stack.length = 4
      ∧ (StackTraceAlt cyclicMemory 150 1000 countingReport 0 2).1 = 0 := by
  decide

/-- C18: for every budget `N`, every stack and every chain of saved frame pointers
(cyclic ones included), with a callback that records its invocations: `StackTrace`
and `StackTraceAlt` invoke the callback at most `N` times, every invocation but the
last returned no stop, and the recording leaves the state of the callback as it is
without it. Both return a result for every chain. -/
theorem callback_budget {σ : Type} (b : Bool) (stack : List UnwindContext)
    (memory : Nat → Nat × Nat) (ip frame : Nat) (report : Nat → σ → Bool × σ) (s : σ)
    (N : Int) :
    ((StackTrace b stack (logged report) (s, []) N).2.2.length ≤ N.toNat
        ∧ (∀ e ∈ (StackTrace b stack (logged report) (s, []) N).2.2.dropLast, e.2 = false)
        ∧ (StackTrace b stack (logged report) (s, []) N).2.1
            = (StackTrace b stack report s N).2)
      ∧ ((StackTraceAlt memory ip frame (logged report) (s, []) N).2.2.length ≤ N.toNat
        ∧ (∀ e ∈ (StackTraceAlt memory ip frame (logged report) (s, []) N).2.2.dropLast,
            e.2 = false)
        ∧ (StackTraceAlt memory ip frame (logged report) (s, []) N).2.1
            = (StackTraceAlt memory ip frame report s N).2) := by
  constructor
  · rw [StackTrace_walk, StackTrace_walk]
    obtain ⟨h1, h2, _, h4⟩ := visit_logged_nil report
      ((cfiFrames stack N.toNat).map (adjustIP b)) s
    refine ⟨h2.trans ?_, h4, h1⟩
    rw [List.length_map]
    exact cfiFrames_length _ _
  · rw [StackTraceAlt_visit, StackTraceAlt_visit]
    obtain ⟨h1, h2, _, h4⟩ := visit_logged_nil report
      ((altIPs memory N.toNat ip frame).map (fun x => x - 1)) s
    refine ⟨h2.trans ?_, h4, h1⟩
    rw [List.length_map]
    exact altIPs_length _ _ _ _

theorem callback_budget_witness :
    (StackTraceAlt cyclicMemory 150 1000 (logged (fun _ (s : Nat) => (false, s + 1))) (0, []) 5).2.2
        = [(149, false), (249, false), (249, false), (249, false), (249, false)]
      ∧ (StackTraceAlt cyclicMemory 150 1000 (logged (fun _ (s : Nat) => (false, s + 1)))
          (0, []) 5).2.2.length ≤ (5 : Int).toNat :=
  ⟨by decide,
    (callback_budget true [] cyclicMemory 150 1000 (fun _ (s : Nat) => (false, s + 1)) 0 5).2.1⟩

/-! ## `Process` under a filter list -/

/-- One call of `Process` while the filter has not matched yet: nothing is printed,
and a symbol of the filter list ends the skipping. -/
theorem Process_skipping (dladdr : Nat → Option DlInfo) (F : List Bytes) (pc : Nat)
    (v : Victim) (hF : v.args.filter = some F) (hs : v.args.skipUntilMatch = true) :
    Process dladdr pc v = (false, if inFilter F dladdr pc then v.matched else v) := by
  obtain ⟨⟨filter, skip, pS, pP⟩, pipe, err⟩ := v
  simp only at hF hs
  subst hF hs
  unfold Process inFilter symbolOf
  cases hdl : dladdr pc with
  | none => simp [ToReporterArgs.displayPC]
  | some d =>
    cases hn : d.dli_sname with
    | none => simp [ToReporterArgs.display, hn]
    | some n =>
      by_cases hany : F.any (fun current => decide (n = current)) = true
      · simp only [ToReporterArgs.display, hn, hany, if_true, Victim.matched,
          Bool.false_eq_true, if_false]
      · simp only [ToReporterArgs.display, hn, hany, if_true, Bool.false_eq_true, if_false]

/-- One call of `Process` once the filter has matched: a frame whose symbol is in the
filter list is discarded, any other frame is printed. -/
theorem Process_showing (dladdr : Nat → Option DlInfo) (F : List Bytes) (pc : Nat)
    (v : Victim) (hF : v.args.filter = some F) (hs : v.args.skipUntilMatch = false) :
    Process dladdr pc v
      = if inFilter F dladdr pc then (false, v)
        else (stopsAt dladdr pc, emitFrame dladdr v pc) := by
  obtain ⟨⟨filter, skip, pS, pP⟩, pipe, err⟩ := v
  simp only at hF hs
  subst hF hs
  unfold Process inFilter symbolOf stopsAt emitFrame symbolOf
  cases hdl : dladdr pc with
  | none => simp [ToReporterArgs.displayPC]
  | some d =>
    cases hn : d.dli_sname with
    | none => simp [ToReporterArgs.display, hn]
    | some n =>
      by_cases hany : F.any (fun current => decide (n = current)) = true
      · simp only [ToReporterArgs.display, hn, hany, if_true, Bool.false_eq_true, if_false]
      · simp only [ToReporterArgs.display, hn, hany, if_true, Bool.false_eq_true, if_false]

theorem emitFrame_args (dladdr : Nat → Option DlInfo) (v : Victim) (pc : Nat) :
    (emitFrame dladdr v pc).args = v.args := by
  unfold emitFrame
  cases dladdr pc with
  | none =>
    simp only [Victim.printPC]
    cases v.args.printPC <;> rfl
  | some d =>
    simp only [Victim.printSymbol]
    cases v.args.printSymbol <;> rfl

/-- The walk of `Process` once the filter has matched: the frames whose symbol is not
in the filter list are printed in order, up to and including the first one at
which `Process` returns stop. -/
theorem visit_Process_showing (dladdr : Nat → Option DlInfo) (F : List Bytes)
    (pcs : List Nat) (v : Victim) (hF : v.args.filter = some F)
    (hs : v.args.skipUntilMatch = false) :
    visit (Process dladdr) pcs v
      = (upToStop dladdr (pcs.filter (fun pc => !inFilter F dladdr pc))).foldl
          (emitFrame dladdr) v := by
  induction pcs generalizing v with
  | nil => rfl
  | cons pc rest ih =>
    simp only [visit, Process_showing dladdr F pc v hF hs]
    by_cases hin : inFilter F dladdr pc = true
    · simp only [hin, if_true, Bool.false_eq_true, if_false, List.filter_cons, Bool.not_true]
      exact ih v hF hs
    · have hin0 : inFilter F dladdr pc = false := by
        cases h : inFilter F dladdr pc
        · rfl
        · exact absurd h hin
      simp only [hin0, Bool.false_eq_true, if_false, List.filter_cons, Bool.not_false, if_true,
        upToStop]
      by_cases hst : stopsAt dladdr pc = true
      · simp only [hst, if_true, List.foldl_cons, List.foldl_nil]
      · simp only [hst, if_false, List.foldl_cons]
        exact ih _ (by rw [emitFrame_args]; exact hF) (by rw [emitFrame_args]; exact hs)

/-- The walk of `Process` from its start under a filter list: nothing is printed
unless a symbol of the list is met, and then the frames `keptFrames` are printed in
order. -/
theorem visit_Process_skipping (dladdr : Nat → Option DlInfo) (F : List Bytes)
    (pcs : List Nat) (v : Victim) (hF : v.args.filter = some F)
    (hs : v.args.skipUntilMatch = true) :
    visit (Process dladdr) pcs v
      = if pcs.any (inFilter F dladdr)
        then (keptFrames F dladdr pcs).foldl (emitFrame dladdr) v.matched
        else v := by
  induction pcs with
  | nil => rfl
  | cons pc rest ih =>
    simp only [visit, Process_skipping dladdr F pc v hF hs, Bool.false_eq_true, if_false,
      List.any_cons]
    by_cases hin : inFilter F dladdr pc = true
    · simp only [hin, if_true, Bool.true_or, keptFrames, Bool.not_true, List.dropWhile_cons,
        Bool.false_eq_true, if_false, List.filter_cons]
      exact visit_Process_showing dladdr F rest v.matched hF rfl
    · have hin0 : inFilter F dladdr pc = false := by
        cases h : inFilter F dladdr pc
        · rfl
        · exact absurd h hin
      simp only [hin0, Bool.false_eq_true, if_false, Bool.false_or, keptFrames, Bool.not_false,
        List.dropWhile_cons, if_true]
      exact ih

theorem upToStop_subset (dladdr : Nat → Option DlInfo) (l : List Nat) (pc : Nat)
    (h : pc ∈ upToStop dladdr l) : pc ∈ l := by
  induction l with
  | nil => exact h
  | cons a l ih =>
    unfold upToStop at h
    split_ifs at h
    · rw [List.mem_singleton] at h
      exact h ▸ List.mem_cons_self _ _
    · rcases List.mem_cons.mp h with h | h
      · exact h ▸ List.mem_cons_self _ _
      · exact List.mem_cons_of_mem _ (ih h)

theorem upToStop_head (dladdr : Nat → Option DlInfo) (l : List Nat) (first : Nat)
    (rest : List Nat) (h : upToStop dladdr l = first :: rest) :
    ∃ tl, l = first :: tl := by
  cases l with
  | nil => exact absurd h (by simp [upToStop])
  | cons a l =>
    unfold upToStop at h
    split_ifs at h
    · exact ⟨l, by rw [(List.cons.inj h).1]⟩
    · exact ⟨l, by rw [(List.cons.inj h).1]⟩

theorem keptFrames_mem (F : List Bytes) (dladdr : Nat → Option DlInfo) (pcs : List Nat)
    (pc : Nat) (h : pc ∈ keptFrames F dladdr pcs) :
    pc ∈ pcs ∧ inFilter F dladdr pc = false := by
  have h1 := List.mem_filter.mp (upToStop_subset _ _ _ h)
  refine ⟨(List.dropWhile_sublist _).subset h1.1, ?_⟩
  simpa using h1.2

/-- The first frame that is kept stands after a frame whose symbol is in the filter
list; before that frame no symbol is in the list, and between the two every symbol
is. -/
theorem keptFrames_first (F : List Bytes) (dladdr : Nat → Option DlInfo) (pcs : List Nat)
    (first : Nat) (rest : List Nat) (h : keptFrames F dladdr pcs = first :: rest) :
    ∃ pre m mid post, pcs = pre ++ m :: (mid ++ first :: post)
      ∧ (∀ x ∈ pre, inFilter F dladdr x = false) ∧ inFilter F dladdr m = true
      ∧ (∀ x ∈ mid, inFilter F dladdr x = true) := by
  induction pcs with
  | nil => exact absurd h (by simp [keptFrames, upToStop])
  | cons pc tl ih =>
    by_cases hin : inFilter F dladdr pc = true
    · simp only [keptFrames, List.dropWhile_cons, hin, Bool.not_true, Bool.false_eq_true,
        if_false, List.filter_cons] at h
      obtain ⟨tl1, htl⟩ := upToStop_head _ _ _ _ h
      obtain ⟨mid, post, h1, h2, _, _⟩ := List.filter_eq_cons_iff.mp htl
      refine ⟨[], pc, mid, post, by rw [h1]; rfl, by simp, hin, ?_⟩
      intro x hx
      have := h2 x hx
      simpa using this
    · have hin0 : inFilter F dladdr pc = false := by
        cases h : inFilter F dladdr pc
        · rfl
        · exact absurd h hin
      simp only [keptFrames, List.dropWhile_cons, hin0, Bool.not_false, if_true] at h
      obtain ⟨pre, m, mid, post, h1, h2, h3, h4⟩ := ih h
      refine ⟨pc :: pre, m, mid, post, by rw [h1]; rfl, ?_, h3, h4⟩
      intro x hx
      rcases List.mem_cons.mp hx with hx | hx
      · rw [hx]; exact hin0
      · exact h2 x hx

theorem emitFrame_pipe (dladdr : Nat → Option DlInfo) (v : Victim) (pc : Nat)
    (hS : v.args.printSymbol = .toReporter) (hP : v.args.printPC = .toReporter) :
    (emitFrame dladdr v pc).pipe = v.pipe ++ writeRecord (frameRecord dladdr pc) := by
  unfold emitFrame frameRecord
  cases dladdr pc with
  | none => simp only [Victim.printPC, hP, PrintPCToReporter_record]
  | some d => simp only [Victim.printSymbol, hS, PrintSymbolToReporter_record, toU32_idem]

theorem foldl_emitFrame_pipe (dladdr : Nat → Option DlInfo) (l : List Nat) (v : Victim)
    (hS : v.args.printSymbol = .toReporter) (hP : v.args.printPC = .toReporter) :
    (l.foldl (emitFrame dladdr) v).pipe
      = v.pipe ++ l.flatMap (fun pc => writeRecord (frameRecord dladdr pc)) := by
  induction l generalizing v with
  | nil => simp
  | cons pc rest ih =>
    rw [List.foldl_cons, ih _ (by rw [emitFrame_args]; exact hS)
      (by rw [emitFrame_args]; exact hP), emitFrame_pipe dladdr v pc hS hP,
      List.flatMap_cons, List.append_assoc]

theorem keptFrames_split (F : List Bytes) (dladdr : Nat → Option DlInfo)
    (pre post : List Nat) (m : Nat) (hpre : ∀ x ∈ pre, inFilter F dladdr x = false)
    (hm : inFilter F dladdr m = true) :
    keptFrames F dladdr (pre ++ m :: post)
      = upToStop dladdr (post.filter (fun pc => !inFilter F dladdr pc)) := by
  induction pre with
  | nil =>
    simp only [keptFrames, List.nil_append, List.dropWhile_cons, hm, Bool.not_true,
      Bool.false_eq_true, if_false, List.filter_cons]
  | cons a pre ih =>
    have ha := hpre a (List.mem_cons_self _ _)
    have := ih (fun x hx => hpre x (List.mem_cons_of_mem _ hx))
    simp only [keptFrames, List.cons_append, List.dropWhile_cons, ha, Bool.not_false, if_true]
    exact this

/-- About `strncmp(a, s, strlen(a) + 1) == 0`: the comparison covers the terminator of
`a`, so it holds for the string `a` alone. -/
theorem strncmpEq_terminator (a s : Bytes) (hs : (0 : Byte) ∉ s) :
    strncmpEq a s (a.length + 1) = true ↔ s = a := by
  unfold strncmpEq
  rw [decide_eq_true_iff]
  constructor
  · intro h
    induction a generalizing s with
    | nil =>
      cases s with
      | nil => rfl
      | cons x s =>
        simp only [List.nil_append, List.length_nil, Nat.zero_add, List.cons_append,
          List.take_succ_cons, List.take_zero, List.cons.injEq, and_true] at h
        exact absurd (h ▸ List.mem_cons_self _ _) hs
    | cons c a ih =>
      cases s with
      | nil =>
        simp only [List.cons_append, List.length_cons, List.take_succ_cons, List.nil_append,
          List.take_nil, List.cons.injEq] at h
        have h2 := congrArg List.length h.2
        simp at h2
      | cons x s =>
        simp only [List.cons_append, List.length_cons, List.take_succ_cons,
          List.cons.injEq] at h
        rw [← h.1, ih s (fun h0 => hs (List.mem_cons_of_mem _ h0)) h.2]
  · intro h
    rw [h]

/-- The stop flag of `Process`: it is returned for a frame that is printed and whose
symbol is the string `main` or the string `GlobalDispatcherRun`. -/
theorem Process_stop_iff (dladdr : Nat → Option DlInfo) (pc : Nat) (w : Victim)
    (hnul : ∀ d sname, dladdr pc = some d → d.dli_sname = some sname → (0 : Byte) ∉ sname) :
    (Process dladdr pc w).1 = true
      ↔ ∃ d sname, dladdr pc = some d ∧ d.dli_sname = some sname
          ∧ (w.args.display (some sname)).1 = true
          ∧ (sname = lit "main" ∨ sname = lit "GlobalDispatcherRun") := by
  have h5 : (lit "main").length + 1 = 5 := by decide
  have h20 : (lit "GlobalDispatcherRun").length + 1 = 20 := by decide
  unfold Process
  cases hdl : dladdr pc with
  | none =>
    simp only
    constructor
    · intro h
      split_ifs at h
    · rintro ⟨d, sname, h, _⟩
      exact absurd h (by simp)
  | some d =>
    cases hn : d.dli_sname with
    | none =>
      simp only [hn]
      constructor
      · intro h
        split_ifs at h
      · rintro ⟨d1, sname, h1, h2, _⟩
        rw [← Option.some.inj h1, hn] at h2
        exact absurd h2 (by simp)
    | some sname =>
      have hs := hnul d sname hdl hn
      have e1 := strncmpEq_terminator (lit "main") sname hs
      have e2 := strncmpEq_terminator (lit "GlobalDispatcherRun") sname hs
      rw [h5] at e1
      rw [h20] at e2
      simp only [hn]
      constructor
      · intro h
        by_cases hd : (w.args.display (some sname)).1 = true
        · rw [if_pos hd] at h
          simp only [Bool.or_eq_true] at h
          exact ⟨d, sname, rfl, hn, hd, h.imp e1.mp e2.mp⟩
        · rw [if_neg hd] at h
          exact absurd h (by simp)
      · rintro ⟨d1, sname1, h1, h2, h3, h4⟩
        have hd := Option.some.inj h1
        subst hd
        rw [hn] at h2
        have hsn := Option.some.inj h2
        subst hsn
        rw [if_pos h3]
        simp only [Bool.or_eq_true]
        exact h4.imp e1.mpr e2.mpr

/-! ## C12 to C15: the filter, the frames without dynamic information, the stop -/

/-- C12, as stated, fails: with the filter list of the terminate handler, the frame
of `StackTrace` is visited before the first frame that is emitted (`main_loop`) and
is discarded, although its symbol is not in the list. -/
theorem filter_law_early_frame_discarded :
    (visit (Process filterDladdr) [50, 150, 350] filterVictim).pipe
        = writeRecord (.library (lit "main_loop") (lit "tester") 350 350)
      ∧ symbolOf filterDladdr 50 = some (lit "StackTrace")
      ∧ inFilter UncaughtExceptionThrowHandlers filterDladdr 50 = false := by
  decide

/-- C12, amended: filter law. For every filter list `F` and every sequence of visited
frames, `Process` prints nothing unless a frame has a symbol in `F`, and then prints
the frames `keptFrames` in order; none of them has a symbol in `F`; and the frames
visited before the first one printed are the frames up to and including the first
whose symbol is in `F` (discarded whatever their symbol), followed only by frames
whose symbol is in `F`. -/
theorem filter_law (dladdr : Nat → Option DlInfo) (F : List Bytes) (pcs : List Nat)
    (v : Victim) (hF : v.args.filter = some F) (hs : v.args.skipUntilMatch = true) :
    visit (Process dladdr) pcs v
        = (if pcs.any (inFilter F dladdr)
           then (keptFrames F dladdr pcs).foldl (emitFrame dladdr) v.matched
           else v)
      ∧ (∀ pc ∈ keptFrames F dladdr pcs, inFilter F dladdr pc = false)
      ∧ (∀ first rest, keptFrames F dladdr pcs = first :: rest →
          ∃ pre m mid post, pcs = pre ++ m :: (mid ++ first :: post)
            ∧ (∀ x ∈ pre, inFilter F dladdr x = false) ∧ inFilter F dladdr m = true
            ∧ (∀ x ∈ mid, inFilter F dladdr x = true)) :=
  ⟨visit_Process_skipping dladdr F pcs v hF hs,
    fun pc h => (keptFrames_mem F dladdr pcs pc h).2,
    fun first rest h => keptFrames_first F dladdr pcs first rest h⟩

theorem filter_law_witness :
    keptFrames UncaughtExceptionThrowHandlers filterDladdr [50, 150, 250, 350, 450, 50] = [350, 450]
      ∧ ∀ pc ∈ keptFrames UncaughtExceptionThrowHandlers filterDladdr [50, 150, 250, 350, 450, 50],
          inFilter UncaughtExceptionThrowHandlers filterDladdr pc = false :=
  ⟨by decide,
    (filter_law filterDladdr UncaughtExceptionThrowHandlers [50, 150, 250, 350, 450, 50]
      filterVictim rfl rfl).2.1⟩

/-- C13, as stated, fails: `__cxa_throw` has dynamic-loader information and is visited
after the first match (`abort`) and before the walk stops, yet no `LIBRARY` record
is written for it: the pipe holds the record of `main_loop` alone. -/
theorem skip_until_match_later_match_discarded :
    (visit (Process filterDladdr) [150, 250, 350] filterVictim).pipe
        = writeRecord (.library (lit "main_loop") (lit "tester") 350 350)
      ∧ inFilter UncaughtExceptionThrowHandlers filterDladdr 150 = true
      ∧ (filterDladdr 250).isSome = true
      ∧ stopsAt filterDladdr 250 = false := by
  decide

/-- C13, amended: skip-until-match. For every filter list `F` and every sequence of
visited frames, the frames up to and including the first one whose symbol is in `F`
are discarded; of the frames visited after it, those whose symbol is in `F` are
discarded too, and the others are written in order, up to and including the first
at which the walk stops: a frame with dynamic-loader information as a `LIBRARY`
record with its symbol and library path (each at most 8191 bytes, else empty), the
offset `pc - library_base` as a 32-bit value and the pc, a frame without as a `PC`
record. -/
theorem skip_until_match (dladdr : Nat → Option DlInfo) (F : List Bytes)
    (pre post : List Nat) (m : Nat) (v : Victim) (hF : v.args.filter = some F)
    (hs : v.args.skipUntilMatch = true) (hS : v.args.printSymbol = .toReporter)
    (hP : v.args.printPC = .toReporter) (hpre : ∀ x ∈ pre, inFilter F dladdr x = false)
    (hm : inFilter F dladdr m = true) :
    visit (Process dladdr) pre v = v
      ∧ visit (Process dladdr) (pre ++ [m]) v = v.matched
      ∧ (visit (Process dladdr) (pre ++ m :: post) v).pipe
          = v.pipe ++ (upToStop dladdr (post.filter (fun pc => !inFilter F dladdr pc))).flatMap
              (fun pc => writeRecord (frameRecord dladdr pc))
      ∧ (∀ pc d, dladdr pc = some d → d.dli_fbase ≤ pc → pc < 18446744073709551616 →
          pc - d.dli_fbase < 4294967296 →
          frameRecord dladdr pc
            = .library (capString d.dli_sname) (capString d.dli_fname) (pc - d.dli_fbase) pc) := by
  have hany : ∀ l : List Nat, (pre ++ m :: l).any (inFilter F dladdr) = true := by
    intro l
    rw [List.any_eq_true]
    exact ⟨m, by simp, hm⟩
  have hnone : pre.any (inFilter F dladdr) = false := by
    rw [List.any_eq_false]
    intro x hx
    rw [hpre x hx]
    simp
  refine ⟨?_, ?_, ?_, ?_⟩
  · rw [visit_Process_skipping dladdr F pre v hF hs, hnone]
    rfl
  · rw [visit_Process_skipping dladdr F _ v hF hs, hany [],
      keptFrames_split F dladdr pre [] m hpre hm]
    rfl
  · rw [visit_Process_skipping dladdr F _ v hF hs, hany post, if_pos rfl,
      keptFrames_split F dladdr pre post m hpre hm,
      foldl_emitFrame_pipe dladdr _ v.matched hS hP]
    rfl
  · intro pc d hd hle hpc hoff
    have h1 : subU64 pc d.dli_fbase = pc - d.dli_fbase := by
      unfold subU64 toU64
      omega
    have h2 : toU32 (pc - d.dli_fbase) = pc - d.dli_fbase := Nat.mod_eq_of_lt hoff
    have h3 : toU64 pc = pc := Nat.mod_eq_of_lt hpc
    simp only [frameRecord, hd, h1, h2, h3]

theorem skip_until_match_witness :
    (visit (Process filterDladdr) ([50] ++ 150 :: [250, 350, 450, 50]) filterVictim).pipe
      = writeRecord (.library (lit "main_loop") (lit "tester") 350 350)
          ++ writeRecord (.library (lit "main") (lit "tester") 450 450) :=
  (skip_until_match filterDladdr UncaughtExceptionThrowHandlers [50] [250, 350, 450, 50] 150
    filterVictim rfl rfl rfl rfl (by decide) (by decide)).2.2.1.trans (by decide)

/-- C14, as stated, fails: for a program counter without dynamic-loader information
that is visited before the filter has matched, `Process` emits nothing and leaves
its state as it was. -/
theorem pc_frame_discarded_before_match :
    filterDladdr 600 = none
      ∧ filterVictim.args.skipUntilMatch = true
      ∧ Process filterDladdr 600 filterVictim = (false, filterVictim) := by
  decide

/-- Without a filter list, `display()` answers no: a program counter without
dynamic-loader information is never printed. -/
theorem Process_pc_no_filter (dladdr : Nat → Option DlInfo) (pc : Nat) (v : Victim)
    (hdl : dladdr pc = none) (hF : v.args.filter = none) : Process dladdr pc v = (false, v) := by
  simp only [Process, hdl, ToReporterArgs.displayPC, hF, Option.isSome_none, Bool.false_and,
    Bool.false_eq_true, if_false]

/-- C14, amended: with a filter list configured, for every program counter for which
the dynamic loader returns no information, `Process` discards the frame while the
filter has not matched yet, and once it has matched calls `printPC`, which writes a
`PC` record carrying that pc; it never returns stop for such a frame. -/
theorem pc_frame_law (dladdr : Nat → Option DlInfo) (F : List Bytes) (pc : Nat)
    (v : Victim) (hdl : dladdr pc = none) (hF : v.args.filter = some F) :
    Process dladdr pc v = (false, if v.args.skipUntilMatch then v else v.printPC pc)
      ∧ (v.args.printPC = .toReporter →
          (v.printPC pc).pipe = v.pipe ++ writeRecord (.pc (toU64 pc))
            ∧ (v.printPC pc).err = v.err ∧ (v.printPC pc).args = v.args) := by
  constructor
  · simp only [Process, hdl, ToReporterArgs.displayPC, hF, Option.isSome_some, Bool.true_and]
    cases v.args.skipUntilMatch <;> rfl
  · intro hP
    simp only [Victim.printPC, hP, PrintPCToReporter_record, and_self]

theorem pc_frame_law_witness :
    Process filterDladdr 600 filterVictim.matched
      = (false, { filterVictim.matched with pipe := writeRecord (.pc 600) }) :=
  (pc_frame_law filterDladdr UncaughtExceptionThrowHandlers 600 filterVictim.matched
    (by decide) rfl).1.trans (by decide)

/-- C15, as stated, fails: the symbol `main_loop` begins with `main`, yet `Process`
does not return stop for its frame, and the frame of `main` is emitted after it. -/
theorem main_loop_does_not_stop :
    symbolOf filterDladdr 350 = some (lit "main_loop")
      ∧ (Process filterDladdr 350 filterVictim.matched).1 = false
      ∧ (visit (Process filterDladdr) [350, 450] filterVictim.matched).pipe
          = writeRecord (.library (lit "main_loop") (lit "tester") 350 350)
              ++ writeRecord (.library (lit "main") (lit "tester") 450 450) := by
  decide

theorem filterDladdr_strings (pc : Nat) (d : DlInfo) (sname : Bytes)
    (h1 : filterDladdr pc = some d) (h2 : d.dli_sname = some sname) : (0 : Byte) ∉ sname := by
  unfold filterDladdr at h1
  split_ifs at h1
  all_goals
    have hd := Option.some.inj h1
    subst hd
    have hs := Option.some.inj h2
    subst hs
    decide

/-- C15, amended: termination law. `Process` returns stop exactly for a frame that it
emits and whose symbol is the string `main` or the string `GlobalDispatcherRun`
(the comparison covers the terminator); in every walk, with the invocations of
`Process` recorded, every invocation but the last returned no stop, so that no
frame is visited or emitted after the stop. -/
theorem termination_law (dladdr : Nat → Option DlInfo) (pcs : List Nat) (v : Victim)
    (hnul : ∀ pc d sname, dladdr pc = some d → d.dli_sname = some sname → (0 : Byte) ∉ sname) :
    (∀ pc w, (Process dladdr pc w).1 = true
        ↔ ∃ d sname, dladdr pc = some d ∧ d.dli_sname = some sname
            ∧ (w.args.display (some sname)).1 = true
            ∧ (sname = lit "main" ∨ sname = lit "GlobalDispatcherRun"))
      ∧ (∀ pc w, (Process dladdr pc w).1 = true →
          (Process dladdr pc w).2
            = emitFrame dladdr { w with args := (w.args.display (symbolOf dladdr pc)).2 } pc)
      ∧ (∀ e ∈ (visit (logged (Process dladdr)) pcs (v, [])).2.dropLast, e.2 = false)
      ∧ (visit (logged (Process dladdr)) pcs (v, [])).1 = visit (Process dladdr) pcs v := by
  refine ⟨fun pc w => Process_stop_iff dladdr pc w (hnul pc), ?_,
    (visit_logged_nil (Process dladdr) pcs v).2.2.2, (visit_logged_nil (Process dladdr) pcs v).1⟩
  intro pc w h
  unfold Process at h ⊢
  unfold emitFrame symbolOf
  cases hdl : dladdr pc with
  | none =>
    rw [hdl] at h
    simp only at h
    split_ifs at h
  | some d =>
    rw [hdl] at h
    simp only at h ⊢
    by_cases hd : (w.args.display d.dli_sname).1 = true
    · rw [if_pos hd]
    · rw [if_neg hd] at h
      exact absurd h (by simp)

theorem termination_law_witness :
    (visit (logged (Process filterDladdr)) [350, 450, 460] (filterVictim.matched, [])).2
        = [(350, false), (450, true)]
      ∧ ∀ e ∈ (visit (logged (Process filterDladdr)) [350, 450, 460]
          (filterVictim.matched, [])).2.dropLast, e.2 = false :=
  ⟨by decide,
    (termination_law filterDladdr [350, 450, 460] filterVictim.matched
      filterDladdr_strings).2.2.1⟩

/-! ## C11: the entries of `stacktrace.frames` -/

theorem isEmpty_eq_false_of_ne {α : Type} (l : List α) (h : l ≠ []) : l.isEmpty = false := by
  cases l with
  | nil => exact absurd rfl h
  | cons a l => rfl

theorem claimedEntry_text (l : List Frame) :
    (l.filter Frame.rendered).map jsonFrame = (l.filterMap claimedEntry).map FrameEntry.text := by
  induction l with
  | nil => rfl
  | cons f l ih =>
    by_cases hs : f.sourceFile = []
    · by_cases hn : f.functionName = []
      · have hr : Frame.rendered f = false := by simp [Frame.rendered, hs, hn]
        have hc : claimedEntry f = none := by simp [claimedEntry, hs, hn]
        rw [List.filter_cons_of_neg (by rw [hr]; simp), List.filterMap_cons_none hc, ih]
      · have hr : Frame.rendered f = true := by
          simp [Frame.rendered, hs, isEmpty_eq_false_of_ne _ hn]
        have hc : claimedEntry f = some { function := f.functionName } := by
          simp [claimedEntry, hs, hn]
        rw [List.filter_cons_of_pos hr, List.filterMap_cons_some hc, List.map_cons,
          List.map_cons, ih]
        simp [jsonFrame, FrameEntry.text, hs]
    · have hr : Frame.rendered f = true := by
        simp [Frame.rendered, isEmpty_eq_false_of_ne _ hs]
      have hc : claimedEntry f
          = some ⟨f.functionName, some f.library, some f.sourceFile, some f.lineNumber⟩ := by
        simp [claimedEntry, hs]
      rw [List.filter_cons_of_pos hr, List.filterMap_cons_some hc, List.map_cons,
        List.map_cons, ih]
      simp [jsonFrame, FrameEntry.text, isEmpty_eq_false_of_ne _ hs]

/-- C11: for every list of resolved frames, the `stacktrace` member of the
`JSON_SENTRY` report is the array of the entries of the frames, last frame first,
where a frame whose source file is empty has an entry with only a function member
when its function name is not empty and no entry at all when its function name is
empty, and a filename member stands only in the entry of a frame whose source file
is not empty; so no entry has an empty filename. -/
theorem no_empty_filename (frames : List Frame) :
    jsonStacktrace frames
        = (if frames.isEmpty then []
           else lit ",\"stacktrace\":\x7b\"frames\":["
            ++ List.intercalate (lit ",")
                ((frames.reverse.filterMap claimedEntry).map FrameEntry.text)
            ++ lit "]\x7d")
      ∧ (∀ f ∈ frames, ∀ e, claimedEntry f = some e →
          e.filename ≠ some []
            ∧ (f.sourceFile = [] →
                f.functionName ≠ [] ∧ e = { function := f.functionName })
            ∧ (∀ s, e.filename = some s → s = f.sourceFile ∧ f.sourceFile ≠ []))
      ∧ (∀ f ∈ frames, f.sourceFile = [] → f.functionName = [] → claimedEntry f = none) := by
  refine ⟨?_, ?_, ?_⟩
  · by_cases he : frames.isEmpty = true
    · simp [jsonStacktrace, he]
    · simp only [jsonStacktrace, he, Bool.not_false, if_true, Bool.false_eq_true, if_false,
        Bool.not_eq_true]
      rw [jsonFramesLoop_eq frames frames.length (le_refl _), List.take_length,
        claimedEntry_text]
      cases hes : (frames.reverse.filterMap claimedEntry).map FrameEntry.text with
      | nil => simp [List.intercalate]
      | cons e es => simp [intercalate_cons]
  · intro f _ e he
    unfold claimedEntry at he
    by_cases hs : f.sourceFile = []
    · by_cases hn : f.functionName = []
      · simp [hs, hn] at he
      · simp only [hs, hn, if_true, if_false, Option.some.injEq] at he
        subst he
        exact ⟨by simp, fun _ => ⟨hn, rfl⟩, fun s h => by simp at h⟩
    · simp only [hs, if_false, Option.some.injEq] at he
      subst he
      refine ⟨by simpa using hs, fun h => absurd h hs, fun s h => ?_⟩
      simp only [Option.some.injEq] at h
      exact ⟨h.symm, hs⟩
  · intro f _ hs hn
    simp [claimedEntry, hs, hn]

theorem no_empty_filename_witness :
    jsonStacktrace
        [{ functionName := lit "main", library := lit "tester", sourceFile := lit "tester.cpp",
           lineNumber := 40, columnOffset := 0 },
         { functionName := [], library := lit "tester", sourceFile := [], lineNumber := 0,
           columnOffset := 0 },
         { functionName := lit "crash", library := lit "tester", sourceFile := [],
           lineNumber := 0, columnOffset := 0 }]
      = lit (",\"stacktrace\":\x7b\"frames\":[\x7b\"function\": \"crash\"\x7d,"
          ++ "\x7b\"function\": \"main\", \"package\": \"tester\",\"filename\": \"tester.cpp\", "
          ++ "\"lineno\": 40\x7d]\x7d") :=
  (no_empty_filename _).1.trans (by decide)

/-! ## Numerals -/

theorem digitChar_byte :
    ∀ d < 16, ((Fin.ofNat (Nat.digitChar d).toNat : Byte) ∈ hexDigits
      ∧ digitValue (Fin.ofNat (Nat.digitChar d).toNat) = d)
      ∧ (d ≠ 0 → (Fin.ofNat (Nat.digitChar d).toNat : Byte) ≠ 48) := by
  decide

theorem numeralValue_snoc (b : Nat) (l : Bytes) (c : Byte) :
    numeralValue b (l ++ [c]) = b * numeralValue b l + digitValue c := by
  simp [numeralValue, List.foldl_append]

/-- The digits that `Nat.toDigitsCore` puts before the digits at hand, with enough
fuel: they are digits below the base, they denote the number, and the first is not
a zero unless the number is zero. -/
theorem toDigitsCore_digits (b : Nat) (hb : 2 ≤ b) (hb16 : b ≤ 16) (fuel n : Nat)
    (ds : List Char) (h : n < fuel) :
    ∃ l : Bytes,
      (Nat.toDigitsCore b fuel n ds).map (fun c => (Fin.ofNat c.toNat : Byte))
          = l ++ ds.map (fun c => (Fin.ofNat c.toNat : Byte))
        ∧ l ≠ [] ∧ (∀ c ∈ l, c ∈ hexDigits ∧ digitValue c < b) ∧ numeralValue b l = n
        ∧ (n ≠ 0 → l.head? ≠ some 48) := by
  induction fuel generalizing n ds with
  | zero => exact absurd h (Nat.not_lt_zero _)
  | succ fuel ih =>
    have hmod : n % b < 16 := lt_of_lt_of_le (Nat.mod_lt _ (by omega)) hb16
    obtain ⟨⟨hmem, hval⟩, hnz⟩ := digitChar_byte (n % b) hmod
    simp only [Nat.toDigitsCore]
    by_cases hq : n / b = 0
    · have hlt : n < b := (Nat.div_eq_zero_iff (by omega)).mp hq
      have hnb : n % b = n := Nat.mod_eq_of_lt hlt
      rw [hnb] at hval hmem hnz
      refine ⟨[Fin.ofNat (Nat.digitChar n).toNat], ?_, by simp, ?_, ?_, ?_⟩
      · simp only [hq, if_true, hnb, List.map_cons, List.singleton_append]
      · intro c hc
        rw [List.mem_singleton] at hc
        subst hc
        exact ⟨hmem, by rw [hval]; omega⟩
      · simp only [numeralValue, List.foldl_cons, List.foldl_nil, Nat.mul_zero, Nat.zero_add,
          hval]
      · intro hn
        simp only [List.head?_cons, ne_eq, Option.some.injEq]
        exact hnz hn
    · have hpos : 0 < n := by
        rcases Nat.eq_zero_or_pos n with h0 | h0
        · rw [h0, Nat.zero_div] at hq
          exact absurd rfl hq
        · exact h0
      have hdiv : n / b < fuel := by
        have := Nat.div_lt_self hpos (by omega : 1 < b)
        omega
      obtain ⟨l, hl, hne, hdig, hv, hhead⟩ := ih (n / b) (Nat.digitChar (n % b) :: ds) hdiv
      refine ⟨l ++ [Fin.ofNat (Nat.digitChar (n % b)).toNat], ?_, by simp, ?_, ?_, ?_⟩
      · simp only [hq, if_false, hl, List.map_cons, List.append_assoc, List.singleton_append]
      · intro c hc
        rcases List.mem_append.mp hc with hc | hc
        · exact hdig c hc
        · rw [List.mem_singleton] at hc
          subst hc
          exact ⟨hmem, by rw [hval]; exact Nat.mod_lt _ (by omega)⟩
      · rw [numeralValue_snoc, hv, hval]
        exact Nat.div_add_mod n b
      · intro _
        cases l with
        | nil => exact absurd rfl hne
        | cons a l => exact hhead hq

/-- The hexadecimal numeral of the reports: lowercase hexadecimal digits that denote
the number, without a leading zero. -/
theorem hexadecimal_digits (n : Nat) :
    (∀ c ∈ hexadecimal n, c ∈ hexDigits) ∧ numeralValue 16 (hexadecimal n) = n
      ∧ hexadecimal n ≠ [] ∧ (n ≠ 0 → (hexadecimal n).head? ≠ some 48) := by
  obtain ⟨l, hl, hne, hdig, hv, hhead⟩ :=
    toDigitsCore_digits 16 (by decide) (by decide) (n + 1) n [] (Nat.lt_succ_self n)
  simp only [List.map_nil, List.append_nil] at hl
  have : hexadecimal n = l := hl
  rw [this]
  exact ⟨fun c hc => (hdig c hc).1, hv, hne, hhead⟩

/-- The decimal numeral of the reports: decimal digits that denote the number,
without a leading zero. -/
theorem decimal_digits (n : Nat) :
    (∀ c ∈ decimal n, c ∈ hexDigits ∧ digitValue c < 10) ∧ numeralValue 10 (decimal n) = n
      ∧ decimal n ≠ [] ∧ (n ≠ 0 → (decimal n).head? ≠ some 48) := by
  obtain ⟨l, hl, hne, hdig, hv, hhead⟩ :=
    toDigitsCore_digits 10 (by decide) (by decide) (n + 1) n [] (Nat.lt_succ_self n)
  simp only [List.map_nil, List.append_nil] at hl
  have : decimal n = l := hl
  rw [this]
  exact ⟨hdig, hv, hne, hhead⟩

/-! ## C19, C20: the cause, from the entry point to the report -/

theorem isCause_of_frame_tag (r : Record)
    (h : r.tag = CrashTag.LIBRARY ∨ r.tag = CrashTag.PC) : r.isCause = false := by
  cases r <;> first | rfl | (simp [Record.tag, CrashTag.SIGNAL, CrashTag.UNCAUGHT_EXCEPTION, CrashTag.ASSERT, CrashTag.LIBRARY, CrashTag.PC] at h)

/-- About `FinishReport` after a stack walk that wrote frame records behind `START` and
the cause record: the pipe holds `START`, the cause record, records that state no
cause, and `FINISH`. -/
theorem FinishReport_records (options : CrashOptions)
    (hbuf : ∀ c ∈ options.getBreadcrumbs.getD [], c.size ≤ c.message.length)
    (cause : Record) (v : Victim)
    (h : FramesWritten (WriteBinaryU32 (toU32 CrashTag.START) ++ writeRecord cause) v) :
    ∃ rest : List Record, (FinishReport true options v).pipe = recordStream (cause :: rest)
      ∧ ∀ r ∈ rest, r.Bounded ∧ r.isCause = false := by
  obtain ⟨_, _, frames, hpipe, hframes⟩ := h
  have hctx : (match options.getContext with
      | some context => v.pipe ++ WriteContext context
      | none => v.pipe) = v.pipe ++ (contextRecords options).flatMap writeRecord := by
    unfold contextRecords
    cases options.getContext with
    | none => simp
    | some context => simp [WriteContext_record]
  have hcr : ∀ pipe1 : Bytes, (match options.getBreadcrumbs with
      | some crumbs => pipe1 ++ WriteBreadcrumbs crumbs
      | none => pipe1)
        = pipe1 ++ ((options.getBreadcrumbs.getD []).map Breadcrumb.record).flatMap
            writeRecord := by
    intro pipe1
    have hb := WriteBreadcrumbs_records (options.getBreadcrumbs.getD []) hbuf
    cases hopt : options.getBreadcrumbs with
    | none => simp
    | some cs =>
      rw [hopt] at hb
      simp only [Option.getD_some] at hb ⊢
      rw [hb]
  refine ⟨frames ++ (contextRecords options
    ++ (options.getBreadcrumbs.getD []).map Breadcrumb.record), ?_, ?_⟩
  · simp only [FinishReport, Bool.not_true, Bool.false_eq_true, if_false, hctx, hcr]
    simp only [hpipe, recordStream, List.flatMap_cons, List.flatMap_append, List.append_assoc]
  · intro r hr
    rcases List.mem_append.mp hr with hr | hr
    · exact ⟨(hframes r hr).1, isCause_of_frame_tag r (hframes r hr).2⟩
    · rcases List.mem_append.mp hr with hr | hr
      · unfold contextRecords at hr
        cases hopt : options.getContext with
        | none => rw [hopt] at hr; simp at hr
        | some context =>
          rw [hopt] at hr
          simp only [List.mem_singleton] at hr
          subst hr
          exact ⟨capString_length _, rfl⟩
      · rcases List.mem_map.mp hr with ⟨c, _, rfl⟩
        exact ⟨c.record_bounded, rfl⟩

/-- The branches of the records that state no cause leave the three cause locals of
`ReadCrash` as they are. -/
theorem foldl_add_cause (host : Host) (options : CrashOptions) (rest : List Record)
    (c0 : Crash) (h : ∀ r ∈ rest, r.isCause = false) :
    (rest.foldl (fun c rec => c.add host options rec) c0).signal = c0.signal
      ∧ (rest.foldl (fun c rec => c.add host options rec) c0).uncaughtException
          = c0.uncaughtException
      ∧ (rest.foldl (fun c rec => c.add host options rec) c0).assertViolation
          = c0.assertViolation := by
  induction rest generalizing c0 with
  | nil => exact ⟨rfl, rfl, rfl⟩
  | cons r rest ih =>
    have hr := h r (List.mem_cons_self _ _)
    have hrest := ih (c0.add host options r) (fun x hx => h x (List.mem_cons_of_mem _ hx))
    rw [List.foldl_cons]
    cases r with
    | signal _ _ => exact absurd hr (by simp [Record.isCause])
    | uncaughtException _ _ => exact absurd hr (by simp [Record.isCause])
    | assertion _ _ _ _ _ => exact absurd hr (by simp [Record.isCause])
    | library _ _ _ _ => exact hrest
    | pc _ => exact hrest
    | context _ => exact hrest
    | breadcrumb _ _ _ => exact hrest

theorem toInt32_of_int (i : Int) (h1 : -2147483648 ≤ i) (h2 : i < 2147483648) :
    toInt32 (i % 4294967296).toNat = i := by
  unfold toInt32
  split_ifs <;> omega

/-- The `mechanism`, `type` and `value` members for a signal: the `data` member with
the address stands between `handled` and `meta` for `SIGSEGV` and `SIGBUS`, and
for no other signal. -/
theorem jsonCause_signal (host : Host) (c : Crash) (sig : Int) (p : Nat)
    (hc : c.signal = some (sig, p)) (hp : p < 18446744073709551616) :
    jsonCause host c
      = lit "\"mechanism\": \x7b \"type\": \"signalhandler\", \"handled\": false, "
        ++ (if sig = host.SIGSEGV ∨ sig = host.SIGBUS then
              lit "\"data\": \x7b \"relevant_address\": \"" ++ lit "0x" ++ hexadecimal p
                ++ lit "\"\x7d, "
            else [])
        ++ lit "\"meta\": \x7b \"signal\": \x7b \"number\": " ++ decimalInt sig ++ lit "\x7d \x7d \x7d"
        ++ lit ",\"type\": " ++ quoted (host.strsignal sig)
        ++ lit ",\"value\": " ++ quoted (host.strsignal sig ++ lit " (" ++ decimalInt sig
              ++ lit ") on address 0x" ++ hexadecimal p ++ lit ".") := by
  have hu : toU64 p = p := Nat.mod_eq_of_lt hp
  have e1 : lit ("\"mechanism\": \x7b \"type\": \"signalhandler\", \"handled\": false, "
              ++ "\"data\": \x7b \"relevant_address\": \"0x")
      = lit "\"mechanism\": \x7b \"type\": \"signalhandler\", \"handled\": false, "
        ++ (lit "\"data\": \x7b \"relevant_address\": \"" ++ lit "0x") := by decide
  have e2 : lit "\"\x7d, \"meta\": \x7b \"signal\": \x7b \"number\": "
      = lit "\"\x7d, " ++ lit "\"meta\": \x7b \"signal\": \x7b \"number\": " := by decide
  have e3 : lit ("\"mechanism\": \x7b \"type\": \"signalhandler\", \"handled\": false, "
              ++ "\"meta\": \x7b \"signal\": \x7b \"number\": ")
      = lit "\"mechanism\": \x7b \"type\": \"signalhandler\", \"handled\": false, "
        ++ lit "\"meta\": \x7b \"signal\": \x7b \"number\": " := by decide
  unfold jsonCause
  rw [hc]
  simp only [hu]
  by_cases hs : sig = host.SIGSEGV ∨ sig = host.SIGBUS
  · rw [if_pos hs, if_pos hs, e1, e2]
    simp only [List.append_assoc]
  · rw [if_neg hs, if_neg hs, e3]
    simp only [List.append_assoc, List.append_nil, List.nil_append]

theorem buildReport_json (host : Host) (options : CrashOptions) (c : Crash)
    (h : options.sendFormat = .JSON_SENTRY) :
    ∃ tail, buildReport host options c = jsonHead host options ++ (jsonCause host c ++ tail) := by
  refine ⟨(if !c.context.isEmpty then lit ",\"thread_id\":" ++ quoted c.context else [])
    ++ jsonStacktrace c.frames ++ jsonUser host options ++ lit "\x7d]\x7d"
    ++ jsonBreadcrumbs c.breadcrumbs ++ lit "\x7d", ?_⟩
  simp [buildReport, h, jsonReport, List.append_assoc]

/-- C19: for every signal in the range of `int` and every fault address,
`SendToReporter` with a valid link writes `START`, the `SIGNAL` record with the
address `si_addr` for `SIGSEGV` and `SIGBUS` and 0 for every other signal, records
that state no cause, and `FINISH`; `ReadCrash` reads the stream to the end and
hands the report over with exactly that signal and address as the cause. For every
`SIGNAL` cause `(sig, addr)` the `JSON_SENTRY` report has, right after the head, the
mechanism of type `signalhandler`, in which the member `data.relevant_address`
stands exactly when `sig` is `SIGSEGV` or `SIGBUS`, with the value `0x` followed by
the lowercase hexadecimal digits of `addr` without a leading zero. -/
theorem signal_cause (host : Host) (build : Build) (m : Machine) (options : CrashOptions)
    (hbuf : ∀ c ∈ options.getBreadcrumbs.getD [], c.size ≤ c.message.length)
    (sig : Int) (si_addr : Nat) (hlo : -2147483648 ≤ sig) (hhi : sig < 2147483648)
    (haddr : si_addr < 18446744073709551616) :
    (∃ (c : Crash) (rest : List Record),
        (SendToReporter build m true options host.SIGSEGV host.SIGBUS sig si_addr).pipe
            = recordStream (.signal (sig % 4294967296).toNat
                (if sig = host.SIGSEGV ∨ sig = host.SIGBUS then si_addr else 0) :: rest)
          ∧ (∀ r ∈ rest, r.isCause = false)
          ∧ ReadCrash host options
              (SendToReporter build m true options host.SIGSEGV host.SIGBUS sig si_addr).pipe
              = deliver host options c
          ∧ c.signal = some (sig, if sig = host.SIGSEGV ∨ sig = host.SIGBUS then si_addr else 0))
      ∧ (∀ (c : Crash) (s : Int) (a : Nat), c.signal = some (s, a) →
          a < 18446744073709551616 →
          jsonCause host c
            = lit "\"mechanism\": \x7b \"type\": \"signalhandler\", \"handled\": false, "
              ++ (if s = host.SIGSEGV ∨ s = host.SIGBUS then
                    lit "\"data\": \x7b \"relevant_address\": \"" ++ lit "0x" ++ hexadecimal a
                      ++ lit "\"\x7d, "
                  else [])
              ++ lit "\"meta\": \x7b \"signal\": \x7b \"number\": " ++ decimalInt s ++ lit "\x7d \x7d \x7d"
              ++ lit ",\"type\": " ++ quoted (host.strsignal s)
              ++ lit ",\"value\": " ++ quoted (host.strsignal s ++ lit " (" ++ decimalInt s
                    ++ lit ") on address 0x" ++ hexadecimal a ++ lit "."))
      ∧ (∀ c : Crash, options.sendFormat = .JSON_SENTRY →
          ∃ tail, buildReport host options c
            = jsonHead host options ++ (jsonCause host c ++ tail))
      ∧ (∀ a : Nat, (∀ ch ∈ hexadecimal a, ch ∈ hexDigits)
          ∧ numeralValue 16 (hexadecimal a) = a ∧ hexadecimal a ≠ []
          ∧ (a ≠ 0 → (hexadecimal a).head? ≠ some 48)) := by
  refine ⟨?_, fun c s a hc ha => jsonCause_signal host c s a hc ha,
    fun c h => buildReport_json host options c h, hexadecimal_digits⟩
  have hP : (if sig = host.SIGSEGV ∨ sig = host.SIGBUS then si_addr else 0)
      < 18446744073709551616 := by
    split_ifs
    · exact haddr
    · decide
  have hu : toU64 (if sig = host.SIGSEGV ∨ sig = host.SIGBUS then si_addr else 0)
      = (if sig = host.SIGSEGV ∨ sig = host.SIGBUS then si_addr else 0) :=
    Nat.mod_eq_of_lt hP
  have hS : SendToReporter build m true options host.SIGSEGV host.SIGBUS sig si_addr
      = FinishReport true options (StackTraceSignal build m (Process m.dladdr)
          { args := { filter := build.signalFilter, printSymbol := .toReporter,
                      printPC := .toReporter },
            pipe := WriteBinaryU32 (toU32 CrashTag.START)
              ++ writeRecord (.signal (sig % 4294967296).toNat
                  (if sig = host.SIGSEGV ∨ sig = host.SIGBUS then si_addr else 0)) }
          MAX_STACK_TRACE) := by
    simp only [SendToReporter, Bool.not_true, Bool.false_eq_true, if_false, WriteSignal_record,
      hu]
  obtain ⟨rest, hpipe, hrest⟩ := FinishReport_records options hbuf
    (.signal (sig % 4294967296).toNat
      (if sig = host.SIGSEGV ∨ sig = host.SIGBUS then si_addr else 0)) _
    (StackTraceSignal_inv (FramesWritten _) build m (Process m.dladdr)
      (fun pc s hs => Process_frames m.dladdr _ pc s hs)
      { args := { filter := build.signalFilter, printSymbol := .toReporter,
                  printPC := .toReporter },
        pipe := WriteBinaryU32 (toU32 CrashTag.START)
          ++ writeRecord (.signal (sig % 4294967296).toNat
              (if sig = host.SIGSEGV ∨ sig = host.SIGBUS then si_addr else 0)) }
      MAX_STACK_TRACE ⟨rfl, rfl, [], by simp, by simp⟩)
  rw [← hS] at hpipe
  refine ⟨crashOf host options (.signal (sig % 4294967296).toNat
      (if sig = host.SIGSEGV ∨ sig = host.SIGBUS then si_addr else 0) :: rest), rest, hpipe,
    fun r hr => (hrest r hr).2, ?_, ?_⟩
  · rw [hpipe]
    refine ReadCrash_recordStream host options _ ?_
    intro r hr
    rcases List.mem_cons.mp hr with rfl | hr
    · exact ⟨by omega, hP⟩
    · exact (hrest r hr).1
  · unfold crashOf
    rw [List.foldl_cons, (foldl_add_cause host options rest _ (fun r hr => (hrest r hr).2)).1]
    simp only [Crash.add, toInt32_of_int sig hlo hhi]

set_option maxRecDepth 8000 in
theorem signal_cause_witness :
    (∃ (c : Crash) (rest : List Record),
        (SendToReporter demoBuild demoMachine true testerOptions 11 7 11 66).pipe
            = recordStream (.signal 11 66 :: rest)
          ∧ ReadCrash demoHost testerOptions
              (SendToReporter demoBuild demoMachine true testerOptions 11 7 11 66).pipe
              = deliver demoHost testerOptions c
          ∧ c.signal = some (11, 66))
      ∧ jsonCause demoHost { signal := some (11, 66) }
          = lit ("\"mechanism\": \x7b \"type\": \"signalhandler\", \"handled\": false, "
              ++ "\"data\": \x7b \"relevant_address\": \"0x42\"\x7d, "
              ++ "\"meta\": \x7b \"signal\": \x7b \"number\": 11\x7d \x7d \x7d"
              ++ ",\"type\": \"Segmentation fault\""
              ++ ",\"value\": \"Segmentation fault (11) on address 0x42.\"") := by
  obtain ⟨⟨c, rest, h1, _, h3, h4⟩, h5, _⟩ :=
    signal_cause demoHost demoBuild demoMachine testerOptions (by decide) 11 66 (by decide)
      (by decide) (by decide)
  exact ⟨⟨c, rest, h1, h3, h4⟩, (h5 _ 11 66 rfl (by decide)).trans (by decide)⟩

/-- The `mechanism`, `type` and `value` members for an assertion violation. -/
theorem jsonCause_assert (host : Host) (c : Crash) (func file : Bytes) (lineno : Nat)
    (condition explanation : Bytes) (hs : c.signal = none) (hu : c.uncaughtException = none)
    (ha : c.assertViolation = some (func, file, lineno, condition, explanation)) :
    jsonCause host c
      = lit "\"mechanism\": \x7b \"type\": \"AssertionViolation\", \"handled\": false \x7d"
        ++ lit ",\"type\": \"assert\""
        ++ lit ",\"value\": "
        ++ quoted ((lit "assertion " ++ condition ++ lit " in " ++ func ++ lit " [" ++ file
              ++ lit ":" ++ decimal lineno ++ lit "]")
            ++ lit " violated, due to " ++ explanation ++ lit ".") := by
  have e1 : lit "] violated, due to " = lit "]" ++ lit " violated, due to " := by decide
  unfold jsonCause
  rw [hs, hu, ha]
  simp only [e1, List.append_assoc]

/-- C20: `CrashAssert` with a valid link writes `START`, the `ASSERT` record with the
five fields it was passed (function, file, line, condition, explanation; each
string as `WriteString` sends it, an absent explanation as the empty string),
records that state no cause, and `FINISH`; `ReadCrash` reads the stream to the end
and hands the report over with exactly these five fields as the cause. For every
`ASSERT` cause the `JSON_SENTRY` report has, right after the head, the mechanism of
type `AssertionViolation` and a value that begins with
`assertion <condition> in <function> [<file>:<line>]`, the line in decimal digits. -/
theorem assert_cause (host : Host) (build : Build) (m : Machine) (options : CrashOptions)
    (hbuf : ∀ c ∈ options.getBreadcrumbs.getD [], c.size ≤ c.message.length)
    (func file : Option Bytes) (line : Int) (condition explanation : Option Bytes) :
    (∃ (c : Crash) (rest : List Record),
        (CrashAssert build m true options func file line condition explanation).pipe
            = recordStream (.assertion (capString func) (capString file)
                (line % 4294967296).toNat (capString condition) (capString explanation) :: rest)
          ∧ (∀ r ∈ rest, r.isCause = false)
          ∧ ReadCrash host options
              (CrashAssert build m true options func file line condition explanation).pipe
              = deliver host options c
          ∧ c.signal = none ∧ c.uncaughtException = none
          ∧ c.assertViolation = some (capString func, capString file,
              (line % 4294967296).toNat, capString condition, capString explanation))
      ∧ (capString none = [] ∧ (∀ s : Bytes, s.length < 8192 → capString (some s) = s)
          ∧ (0 ≤ line → line < 4294967296 → ((line % 4294967296).toNat : Int) = line))
      ∧ (∀ (c : Crash) (fn fl : Bytes) (ln : Nat) (cond expl : Bytes), c.signal = none →
          c.uncaughtException = none → c.assertViolation = some (fn, fl, ln, cond, expl) →
          jsonCause host c
            = lit "\"mechanism\": \x7b \"type\": \"AssertionViolation\", \"handled\": false \x7d"
              ++ lit ",\"type\": \"assert\""
              ++ lit ",\"value\": "
              ++ quoted ((lit "assertion " ++ cond ++ lit " in " ++ fn ++ lit " [" ++ fl
                    ++ lit ":" ++ decimal ln ++ lit "]")
                  ++ lit " violated, due to " ++ expl ++ lit "."))
      ∧ (∀ c : Crash, options.sendFormat = .JSON_SENTRY →
          ∃ tail, buildReport host options c
            = jsonHead host options ++ (jsonCause host c ++ tail))
      ∧ (∀ n : Nat, (∀ ch ∈ decimal n, ch ∈ hexDigits ∧ digitValue ch < 10)
          ∧ numeralValue 10 (decimal n) = n ∧ decimal n ≠ []
          ∧ (n ≠ 0 → (decimal n).head? ≠ some 48)) := by
  refine ⟨?_, ⟨by decide, ?_, fun h1 h2 => by omega⟩,
    fun c fn fl ln cond expl hs hu ha => jsonCause_assert host c fn fl ln cond expl hs hu ha,
    fun c h => buildReport_json host options c h, decimal_digits⟩
  · have hS : CrashAssert build m true options func file line condition explanation
        = FinishReport true options (StackTrace build.haveGetIPInfo m.stack (Process m.dladdr)
            { args := { filter := some [lit "CrashAssert"], printSymbol := .toReporter,
                        printPC := .toReporter },
              pipe := WriteBinaryU32 (toU32 CrashTag.START)
                ++ writeRecord (.assertion (capString func) (capString file)
                    (line % 4294967296).toNat (capString condition) (capString explanation)) }
            MAX_STACK_TRACE).2 := by
      simp only [CrashAssert, Bool.not_true, Bool.false_eq_true, if_false, WriteAssert_record]
    obtain ⟨rest, hpipe, hrest⟩ := FinishReport_records options hbuf
      (.assertion (capString func) (capString file) (line % 4294967296).toNat
        (capString condition) (capString explanation)) _
      (StackTrace_inv (FramesWritten _) build.haveGetIPInfo m.stack (Process m.dladdr)
        (fun pc s hs => Process_frames m.dladdr _ pc s hs)
        { args := { filter := some [lit "CrashAssert"], printSymbol := .toReporter,
                    printPC := .toReporter },
          pipe := WriteBinaryU32 (toU32 CrashTag.START)
            ++ writeRecord (.assertion (capString func) (capString file)
                (line % 4294967296).toNat (capString condition) (capString explanation)) }
        MAX_STACK_TRACE ⟨rfl, rfl, [], by simp, by simp⟩)
    rw [← hS] at hpipe
    have hfold := foldl_add_cause host options rest
      (Crash.add host options { timebuffer := host.startTime }
        (.assertion (capString func) (capString file) (line % 4294967296).toNat
          (capString condition) (capString explanation)))
      (fun r hr => (hrest r hr).2)
    refine ⟨crashOf host options (.assertion (capString func) (capString file)
        (line % 4294967296).toNat (capString condition) (capString explanation) :: rest),
      rest, hpipe, fun r hr => (hrest r hr).2, ?_, ?_, ?_, ?_⟩
    · rw [hpipe]
      refine ReadCrash_recordStream host options _ ?_
      intro r hr
      rcases List.mem_cons.mp hr with rfl | hr
      · exact ⟨capString_length _, capString_length _, by omega, capString_length _,
          capString_length _⟩
      · exact (hrest r hr).1
    · unfold crashOf
      rw [List.foldl_cons, hfold.1]
      rfl
    · unfold crashOf
      rw [List.foldl_cons, hfold.2.1]
      rfl
    · unfold crashOf
      rw [List.foldl_cons, hfold.2.2]
      rfl
  · intro s hs
    unfold capString
    rw [Option.getD_some, if_neg (by omega)]

set_option maxRecDepth 8000 in
theorem assert_cause_witness :
    (∃ (c : Crash) (rest : List Record),
        (CrashAssert demoBuild demoMachine true testerOptions (some (lit "bar"))
            (some (lit "tester.cpp")) 27 (some (lit "false")) none).pipe
            = recordStream (.assertion (lit "bar") (lit "tester.cpp") 27 (lit "false") [] :: rest)
          ∧ c.assertViolation = some (lit "bar", lit "tester.cpp", 27, lit "false", []))
      ∧ jsonCause demoHost
          { assertViolation := some (lit "bar", lit "tester.cpp", 27, lit "false", []) }
          = lit ("\"mechanism\": \x7b \"type\": \"AssertionViolation\", \"handled\": false \x7d"
              ++ ",\"type\": \"assert\""
              ++ ",\"value\": \"assertion false in bar [tester.cpp:27] violated, due to .\"") := by
  obtain ⟨⟨c, rest, h1, _, _, _, _, h6⟩, _, h8, _⟩ :=
    assert_cause demoHost demoBuild demoMachine testerOptions (by decide) (some (lit "bar"))
      (some (lit "tester.cpp")) 27 (some (lit "false")) none
  exact ⟨⟨c, rest, h1, h6⟩, (h8 _ _ _ _ _ _ rfl rfl rfl).trans (by decide)⟩

/-! ## C30: an unwind under a filter list that never matches -/

theorem inFilter_false_iff (F : List Bytes) (dladdr : Nat → Option DlInfo) (pc : Nat) :
    inFilter F dladdr pc = false ↔ ∀ sname, symbolOf dladdr pc = some sname → sname ∉ F := by
  unfold inFilter
  cases h : symbolOf dladdr pc with
  | none => simp
  | some n =>
    simp only [List.any_eq_false, decide_eq_true_eq, Option.some.injEq]
    constructor
    · intro hall sname hs hmem
      exact hall sname hmem hs
    · intro hall x hx hn
      exact hall n rfl (hn ▸ hx)

theorem visit_Process_no_match (dladdr : Nat → Option DlInfo) (F : List Bytes)
    (pcs : List Nat) (v : Victim) (hF : v.args.filter = some F)
    (hs : v.args.skipUntilMatch = true) (hno : ∀ pc ∈ pcs, inFilter F dladdr pc = false) :
    visit (Process dladdr) pcs v = v := by
  have hany : pcs.any (inFilter F dladdr) = false := by
    rw [List.any_eq_false]
    intro x hx
    rw [hno x hx]
    simp
  rw [visit_Process_skipping dladdr F pcs v hF hs, hany]
  rfl

/-- The frames a walk of `Process` under a filter list writes to the pipe: the records
of frames of the list, none of which has a symbol in the filter list. -/
theorem visit_Process_pipe (dladdr : Nat → Option DlInfo) (F : List Bytes)
    (pcs : List Nat) (v : Victim) (hF : v.args.filter = some F)
    (hs : v.args.skipUntilMatch = true) (hS : v.args.printSymbol = .toReporter)
    (hP : v.args.printPC = .toReporter) :
    ∃ kept : List Nat,
      (visit (Process dladdr) pcs v).pipe
          = v.pipe ++ kept.flatMap (fun pc => writeRecord (frameRecord dladdr pc))
        ∧ ∀ pc ∈ kept, pc ∈ pcs ∧ inFilter F dladdr pc = false := by
  rw [visit_Process_skipping dladdr F pcs v hF hs]
  by_cases hany : pcs.any (inFilter F dladdr) = true
  · rw [if_pos hany]
    refine ⟨keptFrames F dladdr pcs, ?_, fun pc h => keptFrames_mem F dladdr pcs pc h⟩
    rw [foldl_emitFrame_pipe dladdr _ v.matched hS hP]
    rfl
  · rw [if_neg hany]
    exact ⟨[], by simp, by simp⟩

/-- C30: with a filter list `F` configured, an unwind in which no visited frame has a
symbol equal to an entry of `F` leaves the state of `Process` as it was: no frame is
emitted, neither `LIBRARY` nor `PC`, for the whole unwind, by the CFI walker, by the
walker of the signal handler and in every walk. In every unwind that writes to the
pipe, the records written are those of visited frames without a symbol in `F`, also
after the first match. -/
theorem no_match_no_frame (build : Build) (m : Machine) (F : List Bytes) (v : Victim)
    (N : Int) (hF : v.args.filter = some F) (hs : v.args.skipUntilMatch = true) :
    ((∀ ctx ∈ cfiFrames m.stack N.toNat,
          inFilter F m.dladdr (adjustIP build.haveGetIPInfo ctx) = false) →
        (StackTrace build.haveGetIPInfo m.stack (Process m.dladdr) v N).2 = v)
      ∧ ((∀ pc, inFilter F m.dladdr pc = false) →
          StackTraceSignal build m (Process m.dladdr) v N = v)
      ∧ (∀ pcs : List Nat, (∀ pc ∈ pcs, inFilter F m.dladdr pc = false) →
          visit (Process m.dladdr) pcs v = v)
      ∧ (v.args.printSymbol = .toReporter → v.args.printPC = .toReporter →
          ∃ kept : List Nat,
            (StackTrace build.haveGetIPInfo m.stack (Process m.dladdr) v N).2.pipe
                = v.pipe ++ kept.flatMap (fun pc => writeRecord (frameRecord m.dladdr pc))
              ∧ ∀ pc ∈ kept, inFilter F m.dladdr pc = false
                  ∧ ∀ sname, symbolOf m.dladdr pc = some sname → sname ∉ F) := by
  refine ⟨?_, ?_, fun pcs h => visit_Process_no_match m.dladdr F pcs v hF hs h, ?_⟩
  · intro h
    rw [StackTrace_walk]
    apply visit_Process_no_match m.dladdr F _ v hF hs
    intro pc hpc
    rcases List.mem_map.mp hpc with ⟨ctx, hctx, rfl⟩
    exact h ctx hctx
  · intro h
    rw [StackTraceSignal_walk]
    split_ifs
    · exact visit_Process_no_match m.dladdr F _ v hF hs (fun pc _ => h pc)
    · exact visit_Process_no_match m.dladdr F _ v hF hs (fun pc _ => h pc)
  · intro hS hP
    rw [StackTrace_walk]
    obtain ⟨kept, h1, h2⟩ := visit_Process_pipe m.dladdr F _ v hF hs hS hP
    exact ⟨kept, h1, fun pc hpc =>
      ⟨(h2 pc hpc).2, (inFilter_false_iff F m.dladdr pc).mp (h2 pc hpc).2⟩⟩

theorem no_match_no_frame_witness :
    (StackTrace true callStackMachine.stack (Process callStackMachine.dladdr)
        { args := { filter := some [lit "CrashAssert"], printSymbol := .toReporter,
                    printPC := .toReporter } } 32).2
      = { args := { filter := some [lit "CrashAssert"], printSymbol := .toReporter,
                    printPC := .toReporter } } :=
  (no_match_no_frame { manual := false, haveGetIPInfo := true, signalFilter := none }
    callStackMachine [lit "CrashAssert"] _ 32 rfl rfl).1 (by decide)

/-! ## C23: the fatal entry points without a reporter link -/

/-- A failure of `pipe()` yields the link -1, the pid 0 and the options as they
were. -/
theorem StartReporter_pipe_failure (forkResult : Int) (options : CrashOptions) :
    StartReporter none forkResult options = .returned (-1) 0 options
      ∧ linkAvailable (StartReporter none forkResult options) = false :=
  ⟨rfl, rfl⟩

/-- C24: `pipe()` succeeds with the descriptors 3 and 4 and `fork()` fails with -1. The
value -1 is not 0, so `StartReporter` takes the branch of the parent and returns the
write end 4 as the link, with the pid -1; the link is not negative, and a later
signal writes its records to the pipe, which no Reporter reads. -/
theorem StartReporter_fork_failure :
    StartReporter (some (3, 4)) (-1) testerOptions = .returned 4 (-1) testerOptions
      ∧ linkAvailable (StartReporter (some (3, 4)) (-1) testerOptions) = true
      ∧ (SendToReporter demoBuild demoMachine
          (linkAvailable (StartReporter (some (3, 4)) (-1) testerOptions)) testerOptions
          11 7 11 66).pipe.take 4 = WriteBinaryU32 CrashTag.START
      ∧ linkAvailable (StartReporter none (-1) testerOptions) = false :=
  ⟨rfl, by decide, by decide, by decide⟩

/-! ## C29: strings in the `JSON_SENTRY` report -/

/-- The text `std::quoted` writes for a string without control characters is a JSON
string literal that denotes the string. -/
theorem jsonStringBody_quoted (s : Bytes) (hs : ∀ c ∈ s, 32 ≤ c.val) :
    jsonStringBody
        (s.flatMap (fun c => if c = 34 ∨ c = 92 then [(92 : Byte), c] else [c]) ++ [(34 : Byte)])
      = some s := by
  induction s with
  | nil => rfl
  | cons c s ih =>
    have ih1 := ih (fun x hx => hs x (List.mem_cons_of_mem _ hx))
    have hc := hs c (List.mem_cons_self _ _)
    rw [List.flatMap_cons]
    by_cases h34 : c = 34
    · subst h34
      simp only [true_or, if_true, List.cons_append, List.nil_append]
      simp [jsonStringBody, ih1]
      decide
    · by_cases h92 : c = 92
      · subst h92
        simp only [or_true, if_true, List.cons_append, List.nil_append]
        simp [jsonStringBody, ih1]
        decide
      · have hne : ¬(c = 34 ∨ c = 92) := fun h => h.elim h34 h92
        rw [if_neg hne, List.singleton_append]
        cases hrest : s.flatMap (fun c => if c = 34 ∨ c = 92 then [(92 : Byte), c] else [c])
            ++ [(34 : Byte)] with
        | nil => exact absurd (congrArg List.length hrest) (by simp)
        | cons e rest =>
          have hlt : ¬ c.val < 32 := by omega
          rw [List.cons_append, hrest]
          simp only [jsonStringBody, if_neg h34, if_neg hlt, if_neg h92]
          rw [← hrest, ih1]
          rfl

theorem jsonString_quoted (s : Bytes) (hs : ∀ c ∈ s, 32 ≤ c.val) :
    jsonString (quoted s) = some s := by
  unfold quoted
  rw [List.append_assoc, List.singleton_append, jsonString, if_pos rfl]
  exact jsonStringBody_quoted s hs

/-- C29: a breadcrumb message with a newline. `std::quoted` puts a backslash before a
double quote and before a backslash only, so the newline stands unescaped between
the quotes of the `message` member, and the text is not a JSON string literal. -/
theorem quoted_newline_unescaped :
    quoted (lit "a\nb") = [34, 97, 10, 98, 34]
      ∧ jsonString (quoted (lit "a\nb")) = none
      ∧ jsonBreadcrumbs [(lit "info", 37, lit "a\nb")]
          = lit (",\"breadcrumbs\":\x7b\"values\":["
              ++ "\x7b\"message\":\"a\nb\",\"timestamp\":37,\"level\":\"info\"\x7d]\x7d")
      ∧ jsonString (quoted (lit "say \"hi\" \\ bye")) = some (lit "say \"hi\" \\ bye") := by
  decide

/-! ## C25: the reentry flag of `CrashAssert` -/

theorem getElem?_set_of_some {α : Type} (l : List α) (i j : Nat) (a x : α)
    (h : l[i]? = some x) : (l.set i a)[j]? = if i = j then some a else l[j]? := by
  obtain ⟨hi, _⟩ := List.getElem?_eq_some_iff.mp h
  rw [List.getElem?_set]
  by_cases hij : i = j
  · rw [if_pos hij, if_pos hij, if_pos hi]
  · rw [if_neg hij, if_neg hij]

/-- The step of a thread whose exchange finds the flag set: it goes to sleep. -/
theorem ReentryInv_sleep (build : Build) (m : Machine) (link : Bool) (options : CrashOptions)
    (callers : List AssertCall) (s : AssertState) (i : Nat) (call : AssertCall)
    (he : s.entrants[i]? = some (.calling call))
    (h : ReentryInv build m link options callers s) :
    ReentryInv build m link options callers
      { s with entrants := s.entrants.set i .sleeping } := by
  obtain ⟨h1, h2, h3, h4⟩ := h
  have hset : ∀ j, (s.entrants.set i Entrant.sleeping)[j]?
      = if i = j then some Entrant.sleeping else s.entrants[j]? :=
    fun j => getElem?_set_of_some _ i j _ _ he
  have hold : ∀ (j : Nat) (e : Entrant),
      (s.entrants.set i Entrant.sleeping)[j]? = some e → e ≠ Entrant.sleeping →
      s.entrants[j]? = some e := by
    intro j e hj hne
    rw [hset j] at hj
    by_cases hij : i = j
    · rw [if_pos hij] at hj
      exact absurd (Option.some.inj hj).symm hne
    · rw [if_neg hij] at hj
      exact hj
  refine ⟨?_, ?_, ?_, ?_⟩
  · intro j e hj hp
    exact h1 j e (hold j e hj (by intro h0; rw [h0] at hp; exact absurd hp (by decide))) hp
  · intro a b ea eb ha hb hpa hpb
    exact h2 a b ea eb
      (hold a ea ha (by intro h0; rw [h0] at hpa; exact absurd hpa (by decide)))
      (hold b eb hb (by intro h0; rw [h0] at hpb; exact absurd hpb (by decide))) hpa hpb
  · intro j c hj
    rcases hj with hj | hj
    · exact h3 j c (Or.inl (hold j _ hj (by simp)))
    · exact h3 j c (Or.inr (hold j _ hj (by simp)))
  · rcases h4 with ⟨hend, hpipe, hfin⟩ | ⟨j, c, hc, hj, hpipe, hend⟩
    · refine Or.inl ⟨hend, hpipe, ?_⟩
      intro j hj
      exact hfin j (hold j _ hj (by simp))
    · refine Or.inr ⟨j, c, hc, ?_, hpipe, hend⟩
      show (s.entrants.set i Entrant.sleeping)[j]? = some Entrant.finished
      rw [hset j]
      by_cases hij : i = j
      · rw [← hij, he] at hj
        exact absurd hj (by simp)
      · rw [if_neg hij]
        exact hj

/-- The step of the thread whose exchange finds the flag clear: it sets the flag and
goes on. -/
theorem ReentryInv_pass (build : Build) (m : Machine) (link : Bool) (options : CrashOptions)
    (callers : List AssertCall) (s : AssertState) (i : Nat) (call : AssertCall)
    (he : s.entrants[i]? = some (.calling call)) (hb : s.reportingAssertionBusy = false)
    (h : ReentryInv build m link options callers s) :
    ReentryInv build m link options callers
      { s with reportingAssertionBusy := true,
               entrants := s.entrants.set i (.reporting call) } := by
  obtain ⟨h1, h2, h3, h4⟩ := h
  have hset : ∀ j, (s.entrants.set i (Entrant.reporting call))[j]?
      = if i = j then some (Entrant.reporting call) else s.entrants[j]? :=
    fun j => getElem?_set_of_some _ i j _ _ he
  have hnone : ∀ (j : Nat) (e : Entrant), s.entrants[j]? = some e → e.passed = true →
      False := by
    intro j e hj hp
    rw [h1 j e hj hp] at hb
    exact absurd hb (by decide)
  refine ⟨fun _ _ _ _ => rfl, ?_, ?_, ?_⟩
  · intro a b ea eb ha hb1 hpa hpb
    change (s.entrants.set i (Entrant.reporting call))[a]? = some ea at ha
    change (s.entrants.set i (Entrant.reporting call))[b]? = some eb at hb1
    rw [hset a] at ha
    rw [hset b] at hb1
    by_cases hia : i = a
    · by_cases hib : i = b
      · rw [← hia, ← hib]
      · rw [if_neg hib] at hb1
        exact (hnone b eb hb1 hpb).elim
    · rw [if_neg hia] at ha
      exact (hnone a ea ha hpa).elim
  · intro j c hj
    change (s.entrants.set i (Entrant.reporting call))[j]? = some (Entrant.calling c)
      ∨ (s.entrants.set i (Entrant.reporting call))[j]? = some (Entrant.reporting c) at hj
    rw [hset j] at hj
    by_cases hij : i = j
    · rw [if_pos hij] at hj
      rcases hj with hj | hj
      · exact absurd hj (by simp)
      · have hcc : call = c := by simpa using hj
        rw [← hcc, ← hij]
        exact h3 i call (Or.inl he)
    · rw [if_neg hij] at hj
      exact h3 j c hj
  · rcases h4 with ⟨hend, hpipe, hfin⟩ | ⟨j, c, hc, hj, hpipe, hend⟩
    · refine Or.inl ⟨hend, hpipe, ?_⟩
      intro j hj
      change (s.entrants.set i (Entrant.reporting call))[j]? = some Entrant.finished at hj
      rw [hset j] at hj
      by_cases hij : i = j
      · rw [if_pos hij] at hj
        exact absurd hj (by simp)
      · rw [if_neg hij] at hj
        exact hfin j hj
    · exact (hnone j _ hj rfl).elim

/-- The step of the thread that goes on: it runs the rest of `CrashAssert`, which
writes its report and ends the process. -/
theorem ReentryInv_report (build : Build) (m : Machine) (link : Bool) (options : CrashOptions)
    (callers : List AssertCall) (s : AssertState) (i : Nat) (call : AssertCall)
    (he : s.entrants[i]? = some (.reporting call)) (hend : s.ending = none)
    (h : ReentryInv build m link options callers s) :
    ReentryInv build m link options callers
      { s with entrants := s.entrants.set i .finished,
               pipe := s.pipe ++ (CrashAssert build m link options call.func call.file
                 call.line call.condition call.explanation).pipe,
               ending := some (CrashAssert build m link options call.func call.file call.line
                 call.condition call.explanation).ending } := by
  obtain ⟨h1, h2, h3, h4⟩ := h
  have hset : ∀ j, (s.entrants.set i Entrant.finished)[j]?
      = if i = j then some Entrant.finished else s.entrants[j]? :=
    fun j => getElem?_set_of_some _ i j _ _ he
  have hbusy : s.reportingAssertionBusy = true := h1 i _ he rfl
  have hpassed : ∀ (j : Nat) (e : Entrant),
      (s.entrants.set i Entrant.finished)[j]? = some e → e.passed = true →
      i = j := by
    intro j e hj hp
    rw [hset j] at hj
    by_cases hij : i = j
    · exact hij
    · rw [if_neg hij] at hj
      exact h2 i j _ e he hj rfl hp
  refine ⟨fun _ _ _ _ => hbusy, ?_, ?_, ?_⟩
  · intro a b ea eb ha hb hpa hpb
    rw [← hpassed a ea ha hpa, ← hpassed b eb hb hpb]
  · intro j c hj
    change (s.entrants.set i Entrant.finished)[j]? = some (Entrant.calling c)
      ∨ (s.entrants.set i Entrant.finished)[j]? = some (Entrant.reporting c) at hj
    rw [hset j] at hj
    by_cases hij : i = j
    · rw [if_pos hij] at hj
      rcases hj with hj | hj <;> exact absurd hj (by simp)
    · rw [if_neg hij] at hj
      exact h3 j c hj
  · rcases h4 with ⟨_, hpipe, _⟩ | ⟨j, c, _, _, _, hend1⟩
    · refine Or.inr ⟨i, call, h3 i call (Or.inr he), ?_, ?_, rfl⟩
      · show (s.entrants.set i Entrant.finished)[i]? = some Entrant.finished
        rw [hset i, if_pos rfl]
      · show s.pipe ++ _ = _
        rw [hpipe, List.nil_append]
    · rw [hend] at hend1
      exact absurd hend1 (by simp)

theorem CrashAssertStep_inv (build : Build) (m : Machine) (link : Bool)
    (options : CrashOptions) (callers : List AssertCall) (i : Nat) (s : AssertState)
    (h : ReentryInv build m link options callers s) :
    ReentryInv build m link options callers (CrashAssertStep build m link options i s) := by
  unfold CrashAssertStep
  cases hend : s.ending with
  | some _ => exact h
  | none =>
    simp only
    cases he : s.entrants[i]? with
    | none => exact h
    | some e =>
      cases e with
      | calling call =>
        simp only
        by_cases hb : s.reportingAssertionBusy = true
        · rw [if_pos hb]
          have h0 := ReentryInv_sleep build m link options callers s i call he h
          rw [hend] at h0
          exact h0
        · rw [if_neg hb]
          have h0 := ReentryInv_pass build m link options callers s i call he
            (by simpa using hb) h
          rw [hend] at h0
          exact h0
      | sleeping => exact h
      | reporting call => exact ReentryInv_report build m link options callers s i call he hend h
      | finished => exact h

theorem CrashAssertRun_inv (build : Build) (m : Machine) (link : Bool)
    (options : CrashOptions) (callers : List AssertCall) (schedule : List Nat) :
    ReentryInv build m link options callers
      (CrashAssertRun build m link options callers schedule) := by
  unfold CrashAssertRun
  have hinit : ReentryInv build m link options callers
      { entrants := callers.map Entrant.calling } := by
    refine ⟨?_, ?_, ?_, Or.inl ⟨rfl, rfl, ?_⟩⟩
    · intro j e hj hp
      simp only [List.getElem?_map] at hj
      cases hc : callers[j]? with
      | none => rw [hc] at hj; exact absurd hj (by simp)
      | some c =>
        rw [hc] at hj
        simp only [Option.map_some', Option.some.injEq] at hj
        rw [← hj] at hp
        exact absurd hp (by simp [Entrant.passed])
    · intro a b ea eb ha _ hpa _
      simp only [List.getElem?_map] at ha
      cases hc : callers[a]? with
      | none => rw [hc] at ha; exact absurd ha (by simp)
      | some c =>
        rw [hc] at ha
        simp only [Option.map_some', Option.some.injEq] at ha
        rw [← ha] at hpa
        exact absurd hpa (by simp [Entrant.passed])
    · intro j c hj
      simp only [List.getElem?_map] at hj
      cases hc : callers[j]? with
      | none => rw [hc] at hj; simp at hj
      | some c1 =>
        rw [hc] at hj
        simp only [Option.map_some', Option.some.injEq, Entrant.calling.injEq,
          reduceCtorEq, or_false] at hj
        rw [hj]
    · intro j hj
      simp only [List.getElem?_map] at hj
      cases hc : callers[j]? with
      | none => rw [hc] at hj; simp at hj
      | some c1 => rw [hc] at hj; simp at hj
  generalize ({ entrants := callers.map Entrant.calling } : AssertState) = s0 at hinit ⊢
  induction schedule generalizing s0 with
  | nil => exact hinit
  | cons i rest ih =>
    rw [List.foldl_cons]
    exact ih _ (CrashAssertStep_inv build m link options callers i s0 hinit)

theorem CrashAssertStep_busy (build : Build) (m : Machine) (link : Bool)
    (options : CrashOptions) (i : Nat) (s : AssertState)
    (h : s.reportingAssertionBusy = true) :
    (CrashAssertStep build m link options i s).reportingAssertionBusy = true := by
  unfold CrashAssertStep
  cases s.ending with
  | some _ => exact h
  | none =>
    simp only
    cases s.entrants[i]? with
    | none => exact h
    | some e =>
      cases e with
      | calling call =>
        simp only
        split_ifs
        exact h
      | sleeping => exact h
      | reporting call => exact h
      | finished => exact h

theorem CrashAssertStep_sleeping (build : Build) (m : Machine) (link : Bool)
    (options : CrashOptions) (i j : Nat) (s : AssertState)
    (h : s.entrants[j]? = some Entrant.sleeping) :
    (CrashAssertStep build m link options i s).entrants[j]? = some Entrant.sleeping
      ∧ (i = j → CrashAssertStep build m link options i s = s) := by
  unfold CrashAssertStep
  cases s.ending with
  | some _ => exact ⟨h, fun _ => rfl⟩
  | none =>
    simp only
    cases he : s.entrants[i]? with
    | none => exact ⟨h, fun _ => rfl⟩
    | some e =>
      have hij : e ≠ Entrant.sleeping → i ≠ j := by
        intro hne hij
        rw [hij, h] at he
        exact hne (Option.some.inj he).symm
      cases e with
      | calling call =>
        have hne := hij (by simp)
        simp only
        split_ifs
        · exact ⟨by simp only [List.getElem?_set_ne hne, h], fun h0 => absurd h0 hne⟩
        · exact ⟨by simp only [List.getElem?_set_ne hne, h], fun h0 => absurd h0 hne⟩
      | sleeping => exact ⟨h, fun _ => rfl⟩
      | reporting call =>
        have hne := hij (by simp)
        exact ⟨by simp only [List.getElem?_set_ne hne, h], fun h0 => absurd h0 hne⟩
      | finished => exact ⟨h, fun _ => rfl⟩

theorem CrashAssertStep_late (build : Build) (m : Machine) (link : Bool)
    (options : CrashOptions) (i : Nat) (s : AssertState) (call : AssertCall)
    (hb : s.reportingAssertionBusy = true) (hend : s.ending = none)
    (he : s.entrants[i]? = some (Entrant.calling call)) :
    (CrashAssertStep build m link options i s).pipe = s.pipe
      ∧ (CrashAssertStep build m link options i s).entrants[i]? = some Entrant.sleeping := by
  unfold CrashAssertStep
  simp only [hend, he, hb, if_true]
  exact ⟨trivial, by rw [getElem?_set_of_some _ i i _ _ he, if_pos rfl]⟩

theorem CrashAssert_wellOrdered (build : Build) (m : Machine) (options : CrashOptions)
    (hbuf : ∀ c ∈ options.getBreadcrumbs.getD [], c.size ≤ c.message.length)
    (call : AssertCall) :
    WellOrdered (CrashAssert build m true options call.func call.file call.line
      call.condition call.explanation).pipe CrashTag.ASSERT := by
  simp only [CrashAssert, Bool.not_true, Bool.false_eq_true, if_false, WriteAssert_record]
  refine (FinishReport_wellOrdered options hbuf
    (.assertion (capString call.func) (capString call.file) (call.line % 4294967296).toNat
      (capString call.condition) (capString call.explanation))
    ⟨capString_length _, capString_length _, by omega, capString_length _,
      capString_length _⟩ _ ?_).1
  apply StackTrace_inv (FramesWritten _) build.haveGetIPInfo m.stack (Process m.dladdr)
    (fun pc s hs => Process_frames m.dladdr _ pc s hs)
  exact ⟨rfl, rfl, [], by simp, by simp⟩

/-- C25: re-entry law, as an invariant of the steps of the threads that call
`CrashAssert`, for every number of callers and every order of their steps. The flag
`reportingAssertionBusy` is never cleared once it is set. A caller whose exchange
finds the flag set writes no byte to the pipe and goes to sleep, and a sleeping
caller sleeps on: it never returns. In every run at most one caller has passed the
flag, and the pipe is empty or holds the report of that one caller and nothing else:
with a valid link, exactly one stream `START` ... `FINISH` with the `ASSERT` cause. -/
theorem reentry_law (build : Build) (m : Machine) (link : Bool) (options : CrashOptions)
    (callers : List AssertCall) (schedule : List Nat) :
    (∀ (s : AssertState) (i : Nat), s.reportingAssertionBusy = true →
        (CrashAssertStep build m link options i s).reportingAssertionBusy = true)
      ∧ (∀ (s : AssertState) (i : Nat) (call : AssertCall),
          s.reportingAssertionBusy = true → s.ending = none →
          s.entrants[i]? = some (Entrant.calling call) →
          (CrashAssertStep build m link options i s).pipe = s.pipe
            ∧ (CrashAssertStep build m link options i s).entrants[i]? = some Entrant.sleeping)
      ∧ (∀ (s : AssertState) (i j : Nat), s.entrants[j]? = some Entrant.sleeping →
          (CrashAssertStep build m link options i s).entrants[j]? = some Entrant.sleeping
            ∧ (i = j → CrashAssertStep build m link options i s = s))
      ∧ (∀ (i j : Nat) (ei ej : Entrant),
          (CrashAssertRun build m link options callers schedule).entrants[i]? = some ei →
          (CrashAssertRun build m link options callers schedule).entrants[j]? = some ej →
          ei.passed = true → ej.passed = true → i = j)
      ∧ (((CrashAssertRun build m link options callers schedule).ending = none
            ∧ (CrashAssertRun build m link options callers schedule).pipe = [])
          ∨ ∃ (j : Nat) (call : AssertCall), callers[j]? = some call
              ∧ (CrashAssertRun build m link options callers schedule).entrants[j]?
                  = some Entrant.finished
              ∧ (CrashAssertRun build m link options callers schedule).pipe
                  = (CrashAssert build m link options call.func call.file call.line
                      call.condition call.explanation).pipe)
      ∧ (link = true →
          (∀ c ∈ options.getBreadcrumbs.getD [], c.size ≤ c.message.length) →
          (CrashAssertRun build m link options callers schedule).pipe = []
            ∨ WellOrdered (CrashAssertRun build m link options callers schedule).pipe
                CrashTag.ASSERT) := by
  obtain ⟨_, h2, _, h4⟩ := CrashAssertRun_inv build m link options callers schedule
  refine ⟨fun s i h => CrashAssertStep_busy build m link options i s h,
    fun s i call hb hend he => CrashAssertStep_late build m link options i s call hb hend he,
    fun s i j h => CrashAssertStep_sleeping build m link options i j s h, h2, ?_, ?_⟩
  · rcases h4 with ⟨hend, hpipe, _⟩ | ⟨j, call, hc, hj, hpipe, _⟩
    · exact Or.inl ⟨hend, hpipe⟩
    · exact Or.inr ⟨j, call, hc, hj, hpipe⟩
  · intro hlink hbuf
    subst hlink
    rcases h4 with ⟨_, hpipe, _⟩ | ⟨j, call, _, _, hpipe, _⟩
    · exact Or.inl hpipe
    · right
      rw [hpipe]
      exact CrashAssert_wellOrdered build m options hbuf call

theorem reentry_law_witness :
    CrashAssertRun demoBuild demoMachine true testerOptions
        [⟨some (lit "crash"), some (lit "tester.cpp"), 22, some (lit "false"), none⟩,
         ⟨some (lit "bar"), some (lit "tester.cpp"), 27, some (lit "x > 0"), none⟩]
        [0, 1, 1, 0, 1]
      = { reportingAssertionBusy := true,
          entrants := [.finished, .sleeping],
          pipe := (CrashAssert demoBuild demoMachine true testerOptions (some (lit "crash"))
            (some (lit "tester.cpp")) 22 (some (lit "false")) none).pipe,
          ending := some Ending.abort }
      ∧ WellOrdered (CrashAssertRun demoBuild demoMachine true testerOptions
          [⟨some (lit "crash"), some (lit "tester.cpp"), 22, some (lit "false"), none⟩,
           ⟨some (lit "bar"), some (lit "tester.cpp"), 27, some (lit "x > 0"), none⟩]
          [0, 1, 1, 0, 1]).pipe CrashTag.ASSERT :=
  ⟨by decide,
    ((reentry_law demoBuild demoMachine true testerOptions _ [0, 1, 1, 0, 1]).2.2.2.2.2 rfl
      (by decide)).resolve_left (by decide)⟩

/-! ## C26: the entry that `LookupSource` selects -/

theorem LookupSourceStep_some (target n : Nat) (line : LineEntry) (s : LineScan) (b : Nat)
    (hl : line.lineaddr = some b) :
    (LookupSourceStep target n line s).prev = some n
      ∧ (LookupSourceStep target n line s).prevlineaddr = b
      ∧ (LookupSourceStep target n line s).matched
          = (if s.prev.isSome ∧ s.prevlineaddr ≤ target ∧ target < b
                ∧ (s.matched = none ∨ target - s.prevlineaddr < s.matchDistance)
             then s.prev else s.matched)
      ∧ (LookupSourceStep target n line s).matchDistance
          = (if s.prev.isSome ∧ s.prevlineaddr ≤ target ∧ target < b
                ∧ (s.matched = none ∨ target - s.prevlineaddr < s.matchDistance)
             then target - s.prevlineaddr else s.matchDistance) := by
  unfold LookupSourceStep
  rw [hl]
  refine ⟨rfl, rfl, ?_, ?_⟩
  · simp only
    split_ifs <;> rfl
  · simp only
    split_ifs <;> rfl

theorem LookupSourceStep_none (target n : Nat) (line : LineEntry) (s : LineScan)
    (hl : line.lineaddr = none) :
    LookupSourceStep target n line s = { s with prev := none } := by
  unfold LookupSourceStep
  rw [hl]

theorem Brackets_addr (lines : List LineEntry) (target j : Nat)
    (h : Brackets lines target j) : ∃ b, addrAt lines (j + 1) = some b := by
  obtain ⟨_, b, _, hb, _, _⟩ := h
  exact ⟨b, hb⟩

/-- The body of the loop of `LookupSource` keeps the invariant. -/
theorem LookupSourceStep_inv (lines : List LineEntry) (target n : Nat) (line : LineEntry)
    (s : LineScan) (hline : lines[n]? = some line) (h : ScanInv lines target n s) :
    ScanInv lines target (n + 1) (LookupSourceStep target n line s) := by
  obtain ⟨hp1, hp2, hm1, hm2⟩ := h
  have haddr : addrAt lines n = line.lineaddr := by
    unfold addrAt
    rw [hline]
    rfl
  cases hl : line.lineaddr with
  | none =>
    rw [LookupSourceStep_none target n line s hl]
    rw [hl] at haddr
    have hnew : ∀ j : Nat, j + 1 < n + 1 → Brackets lines target j → j + 1 < n := by
      intro j hj hbr
      by_cases hjn : j + 1 < n
      · exact hjn
      · obtain ⟨b, hb⟩ := Brackets_addr lines target j hbr
        have : j + 1 = n := by omega
        rw [this, haddr] at hb
        exact absurd hb (by simp)
    refine ⟨fun p hp => absurd hp (by simp), ?_, ?_, ?_⟩
    · intro _ p hpn
      have : p = n := by omega
      rw [this]
      exact haddr
    · intro i hi
      obtain ⟨hlt, hbr, ha, hbest⟩ := hm1 i hi
      exact ⟨by omega, hbr, ha, fun j aj hj haj hbrj => hbest j aj (hnew j hj hbrj) haj hbrj⟩
    · intro hnone j hj hbr
      exact hm2 hnone j (hnew j hj hbr) hbr
  | some b =>
    rw [hl] at haddr
    obtain ⟨e1, e2, e3, e4⟩ := LookupSourceStep_some target n line s b hl
    -- a bracket that ends at the entry `n` starts at `prev`
    have hnew : ∀ (j aj : Nat), j + 1 < n + 1 → ¬ j + 1 < n → addrAt lines j = some aj →
        Brackets lines target j →
        s.prev = some j ∧ s.prevlineaddr = aj ∧ aj ≤ target ∧ target < b := by
      intro j aj hj hjn haj hbr
      have hjeq : j + 1 = n := by omega
      obtain ⟨a1, b1, ha1, hb1, hle, hlt⟩ := hbr
      rw [haj] at ha1
      rw [hjeq, haddr] at hb1
      have ha : aj = a1 := Option.some.inj ha1
      have hb : b = b1 := Option.some.inj hb1
      cases hprev : s.prev with
      | none =>
        have := hp2 hprev j hjeq
        rw [haj] at this
        exact absurd this (by simp)
      | some p =>
        obtain ⟨hpn, hpa⟩ := hp1 p hprev
        have hpj : p = j := by omega
        rw [hpj, haj] at hpa
        exact ⟨by rw [hpj], (Option.some.inj hpa).symm, by omega, by omega⟩
    refine ⟨?_, ?_, ?_, ?_⟩
    · intro p hp
      rw [e1] at hp
      have hpn : n = p := Option.some.inj hp
      rw [e2, ← hpn]
      exact ⟨rfl, haddr⟩
    · intro hnone
      rw [e1] at hnone
      exact absurd hnone (by simp)
    · intro i hi
      rw [e3] at hi
      rw [e4]
      by_cases hc : s.prev.isSome ∧ s.prevlineaddr ≤ target ∧ target < b
          ∧ (s.matched = none ∨ target - s.prevlineaddr < s.matchDistance)
      · rw [if_pos hc] at hi
        rw [if_pos hc]
        obtain ⟨hin, hia⟩ := hp1 i hi
        refine ⟨by omega, ⟨s.prevlineaddr, b, hia, by rw [hin]; exact haddr, hc.2.1, hc.2.2.1⟩,
          ⟨s.prevlineaddr, hia, hc.2.1, rfl⟩, ?_⟩
        intro j aj hj haj hbrj
        by_cases hjn : j + 1 < n
        · rcases hc.2.2.2 with hnone | hlt
          · exact absurd hbrj (hm2 hnone j hjn)
          · cases hm : s.matched with
            | none => exact absurd hbrj (hm2 hm j hjn)
            | some i0 =>
              obtain ⟨_, _, _, hbest⟩ := hm1 i0 hm
              have := (hbest j aj hjn haj hbrj).1
              exact ⟨by omega, fun heq => by omega⟩
        · obtain ⟨hpj, hpa, _, _⟩ := hnew j aj hj hjn haj hbrj
          rw [hi] at hpj
          have hij : i = j := Option.some.inj hpj
          rw [hpa]
          exact ⟨le_refl _, fun _ => by omega⟩
      · rw [if_neg hc] at hi
        rw [if_neg hc]
        obtain ⟨hlt, hbr, ha, hbest⟩ := hm1 i hi
        refine ⟨by omega, hbr, ha, ?_⟩
        intro j aj hj haj hbrj
        by_cases hjn : j + 1 < n
        · exact hbest j aj hjn haj hbrj
        · obtain ⟨hpj, hpa, hle, hltb⟩ := hnew j aj hj hjn haj hbrj
          have hsome : s.prev.isSome = true := by rw [hpj]; rfl
          have hnot : ¬(s.matched = none ∨ target - s.prevlineaddr < s.matchDistance) :=
            fun h0 => hc ⟨hsome, by rw [hpa]; exact hle, hltb, h0⟩
          have hge : s.matchDistance ≤ target - s.prevlineaddr := by
            have := fun h0 => hnot (Or.inr h0)
            omega
          rw [hpa] at hge
          exact ⟨hge, fun _ => by omega⟩
    · intro hnone j hj hbrj
      rw [e3] at hnone
      by_cases hc : s.prev.isSome ∧ s.prevlineaddr ≤ target ∧ target < b
          ∧ (s.matched = none ∨ target - s.prevlineaddr < s.matchDistance)
      · rw [if_pos hc] at hnone
        rw [hnone] at hc
        exact absurd hc.1 (by simp)
      · rw [if_neg hc] at hnone
        by_cases hjn : j + 1 < n
        · exact hm2 hnone j hjn hbrj
        · obtain ⟨aj, _, haj, _, _, _⟩ := id hbrj
          obtain ⟨hpj, hpa, hle, hltb⟩ := hnew j aj hj hjn haj hbrj
          exact hc ⟨by rw [hpj]; rfl, by rw [hpa]; exact hle, hltb, Or.inl hnone⟩

theorem LookupSourceLoop_inv (lines : List LineEntry) (target : Nat) (rest : List LineEntry)
    (n : Nat) (s : LineScan) (hn : n ≤ lines.length) (hdrop : lines.drop n = rest)
    (h : ScanInv lines target n s) :
    ScanInv lines target lines.length (LookupSourceLoop target n rest s) := by
  induction rest generalizing n s with
  | nil =>
    have hge : lines.length ≤ n := List.drop_eq_nil_iff.mp hdrop
    have heq : n = lines.length := by omega
    unfold LookupSourceLoop
    rw [← heq]
    exact h
  | cons line rest ih =>
    have hline : lines[n]? = some line := by
      have h0 : (lines.drop n)[0]? = some line := by rw [hdrop]; simp
      rw [List.getElem?_drop] at h0
      exact h0
    have hlt : n < lines.length := by
      obtain ⟨hlt, _⟩ := List.getElem?_eq_some_iff.mp hline
      exact hlt
    have hrest : lines.drop (n + 1) = rest := by
      have h1 : (lines.drop n).drop 1 = rest := by rw [hdrop]; rfl
      rw [List.drop_drop] at h1
      rw [← h1, Nat.add_comm]
    unfold LookupSourceLoop
    exact ih (n + 1) _ hlt hrest (LookupSourceStep_inv lines target n line s hline h)

/-- The loop of `LookupSource` over the whole table: the invariant at the end. -/
theorem LookupSourceLoop_final (lines : List LineEntry) (target : Nat) :
    ScanInv lines target lines.length (LookupSourceLoop target 0 lines {}) := by
  refine LookupSourceLoop_inv lines target lines 0 {} (Nat.zero_le _) rfl ⟨?_, ?_, ?_, ?_⟩
  · intro p hp
    exact absurd hp (by simp)
  · intro _ p hp
    exact absurd hp (by omega)
  · intro i hi
    exact absurd hi (by simp)
  · intro _ j hj
    exact absurd hj (by omega)

theorem LookupSourceMatch_eq (lines : List LineEntry) (target : Nat) :
    LookupSourceMatch lines target = (LookupSourceLoop target 0 lines {}).matched := by
  obtain ⟨_, _, hm1, _⟩ := LookupSourceLoop_final lines target
  unfold LookupSourceMatch
  cases hm : (LookupSourceLoop target 0 lines {}).matched with
  | none => rfl
  | some m =>
    have := (hm1 m hm).1
    simp only
    rw [if_pos (by omega)]

/-- C26: source line lookup. For every line table, with readable and unreadable
addresses, and every target: an entry `i` that `LookupSource` selects is readable
and so is its successor, with `addr[i] <= target < addr[i + 1]`; among all such
entries it is one with the largest address, the earliest of these; no entry is
selected exactly when no two consecutive readable entries bracket the target; the
last entry of the table is never selected. -/
theorem source_line_lookup (lines : List LineEntry) (target : Nat) :
    (∀ i : Nat, LookupSourceMatch lines target = some i →
        Brackets lines target i
          ∧ ∀ (j aj ai : Nat), Brackets lines target j → addrAt lines j = some aj →
              addrAt lines i = some ai → aj ≤ ai ∧ (aj = ai → i ≤ j))
      ∧ (LookupSourceMatch lines target = none ↔ ∀ j : Nat, ¬ Brackets lines target j)
      ∧ (∀ i : Nat, LookupSourceMatch lines target = some i → i + 1 < lines.length) := by
  obtain ⟨_, _, hm1, hm2⟩ := LookupSourceLoop_final lines target
  have hbr : ∀ j : Nat, Brackets lines target j → j + 1 < lines.length := by
    intro j hbrj
    obtain ⟨b, hb⟩ := Brackets_addr lines target j hbrj
    by_cases hj : j + 1 < lines.length
    · exact hj
    · unfold addrAt at hb
      rw [List.getElem?_eq_none (by omega)] at hb
      exact absurd hb (by simp)
  rw [LookupSourceMatch_eq]
  refine ⟨?_, ?_, fun i hi => (hm1 i hi).1⟩
  · intro i hi
    obtain ⟨_, hbri, ⟨a, ha, hle, hdist⟩, hbest⟩ := hm1 i hi
    refine ⟨hbri, ?_⟩
    intro j aj ai hbrj haj hai
    rw [ha] at hai
    have hai' : a = ai := Option.some.inj hai
    have hb := hbest j aj (hbr j hbrj) haj hbrj
    obtain ⟨a1, _, ha1, _, hle1, _⟩ := id hbrj
    rw [haj] at ha1
    have : aj = a1 := Option.some.inj ha1
    exact ⟨by omega, fun heq => hb.2 (by omega)⟩
  · constructor
    · intro hnone j hbrj
      exact hm2 hnone j (hbr j hbrj) hbrj
    · intro hall
      cases hm : (LookupSourceLoop target 0 lines {}).matched with
      | none => rfl
      | some m => exact absurd (hm1 m hm).2.1 (hall m)

theorem source_line_lookup_witness :
    LookupSourceMatch
        [{ lineaddr := some 100 }, { lineaddr := some 120 }, { lineaddr := none },
         { lineaddr := some 110 }, { lineaddr := some 130 }, { lineaddr := some 110 },
         { lineaddr := some 140 }] 115 = some 3
      ∧ Brackets
          [{ lineaddr := some 100 }, { lineaddr := some 120 }, { lineaddr := none },
           { lineaddr := some 110 }, { lineaddr := some 130 }, { lineaddr := some 110 },
           { lineaddr := some 140 }] 115 3 :=
  ⟨by decide,
    ((source_line_lookup _ 115).1 3 (by decide)).1⟩

/-! ## C28: the upper bound of a subprogram -/

/-- With `DW_AT_low_pc` before `DW_AT_high_pc` the upper bound of an offset form is
`low_pc + offset` (in 64 bits). -/
theorem LookupAttributes_low_high (lo offset : Nat) :
    LookupAttributes [lowpcAttribute lo, highpcOffset offset] (0, 0)
      = .returned (lo, toU64 (offset + lo)) := by
  simp [LookupAttributes, lowpcAttribute, highpcOffset, DW_AT_low_pc, DW_AT_high_pc,
    DW_FORM_addr, DW_FORM_data4, DW_FORM_udata, DW_FORM_data1, DW_FORM_data2, DW_FORM_data8]

/-- With `DW_AT_high_pc` before `DW_AT_low_pc` the offset is added to the initial value 0
of `lowpc`: the upper bound is the offset itself. -/
theorem LookupAttributes_high_low (lo offset : Nat) :
    LookupAttributes [highpcOffset offset, lowpcAttribute lo] (0, 0)
      = .returned (lo, toU64 offset) := by
  simp [LookupAttributes, lowpcAttribute, highpcOffset, DW_AT_low_pc, DW_AT_high_pc,
    DW_FORM_addr, DW_FORM_data4, DW_FORM_udata, DW_FORM_data1, DW_FORM_data2, DW_FORM_data8]

/-- C28: the subprogram `foo` at 4096 with the size 16, target 4100. When the attribute
list holds `DW_AT_high_pc` (form `DW_FORM_data4`) before `DW_AT_low_pc`, the bounds
are `(4096, 16)` and no name is returned; with the two attributes in the other
order the bounds are `(4096, 4112)` and the name is returned with the offset 4. -/
theorem high_pc_before_low_pc :
    LookupAttributes [highpcOffset 16, lowpcAttribute 4096] (0, 0) = .returned (4096, 16)
      ∧ LookupFunctionName (subprogramDie (lit "foo") [highpcOffset 16, lowpcAttribute 4096])
          4100 = .returned (0, none)
      ∧ LookupAttributes [lowpcAttribute 4096, highpcOffset 16] (0, 0)
          = .returned (4096, 4112)
      ∧ LookupFunctionName (subprogramDie (lit "foo") [lowpcAttribute 4096, highpcOffset 16])
          4100 = .returned (0, some (lit "foo", 4)) := by
  decide

/-! ## C21: where the symbolicator calls `abort()` -/

/-- The loop over the attributes aborts exactly when an attribute has a form that
`LookupFunctionName` does not read. -/
theorem LookupAttributes_aborted_iff (attrs : List Attribute) (pcs : Nat × Nat) :
    LookupAttributes attrs pcs = .aborted ↔ ∃ a ∈ attrs, a.supported = false := by
  induction attrs generalizing pcs with
  | nil => simp [LookupAttributes]
  | cons a rest ih =>
    obtain ⟨lowpc, highpc⟩ := pcs
    rw [List.exists_mem_cons_iff]
    generalize (∃ x ∈ rest, x.supported = false) = P at ih ⊢
    unfold LookupAttributes Attribute.supported
    cases a.whatattr with
    | none => simp [ih]
    | some attrcode =>
      simp only
      split_ifs
      all_goals simp_all
      all_goals tauto

theorem LookupAttributes_returns (attrs : List Attribute) (pcs : Nat × Nat)
    (h : attrs.all Attribute.supported = true) :
    ∃ r, LookupAttributes attrs pcs = .returned r := by
  cases hr : LookupAttributes attrs pcs with
  | returned r => exact ⟨r, rfl⟩
  | aborted =>
    obtain ⟨a, ha, hs⟩ := (LookupAttributes_aborted_iff attrs pcs).mp hr
    rw [List.all_eq_true.mp h a ha] at hs
    exact absurd hs (by decide)

theorem LookupFunctionName_returns (d : Die) (target : Nat) (h : d.supported = true) :
    ∃ r, LookupFunctionName d target = .returned r := by
  unfold LookupFunctionName
  cases d.tag with
  | none => exact ⟨_, rfl⟩
  | some tag =>
    simp only
    split_ifs
    · exact ⟨_, rfl⟩
    · cases d.diename with
      | error => exact ⟨_, rfl⟩
      | noEntry => exact ⟨_, rfl⟩
      | ok die_name =>
        simp only
        unfold Die.supported at h
        cases hattrs : d.attrlist with
        | none => exact ⟨_, rfl⟩
        | some attrs =>
          rw [hattrs] at h
          obtain ⟨r, hr⟩ := LookupAttributes_returns attrs (0, 0) h
          simp only [hr]
          split_ifs
          · exact ⟨_, rfl⟩
          · exact ⟨_, rfl⟩

theorem LookupChildren_returns (target : Nat) (siblingError : Bool) (child_die : Die)
    (siblings : List Die) (h1 : child_die.supported = true)
    (h2 : siblings.all Die.supported = true) :
    ∃ r, LookupChildren target siblingError child_die siblings = .returned r := by
  induction siblings generalizing child_die with
  | nil =>
    obtain ⟨r, hr⟩ := LookupFunctionName_returns child_die target h1
    unfold LookupChildren
    rw [hr]
    exact ⟨_, rfl⟩
  | cons next rest ih =>
    obtain ⟨r, hr⟩ := LookupFunctionName_returns child_die target h1
    rw [List.all_cons, Bool.and_eq_true] at h2
    unfold LookupChildren
    rw [hr]
    simp only
    split_ifs
    · exact ⟨_, rfl⟩
    · exact ih next h2.1 h2.2

theorem ProcessFileLoop_returns (target : Nat) (wantName : Bool)
    (dbg : List (Option CompileUnit))
    (h : ∀ cu ∈ dbg, ∀ cu_die, cu = some cu_die → cu_die.supported = true)
    (st : Int × LookupOut) :
    ∃ r, ProcessFileLoop target wantName dbg st = .returned r := by
  induction dbg generalizing st with
  | nil => exact ⟨st, rfl⟩
  | cons cu rest ih =>
    have hrest := fun st1 => ih (fun c hc => h c (List.mem_cons_of_mem _ hc)) st1
    obtain ⟨rc, out⟩ := st
    unfold ProcessFileLoop
    by_cases hcond : rc = 0
        ∧ (out.sourceFile = none ∨ (wantName = true ∧ out.functionName = none))
    · rw [if_pos hcond]
      cases hcu : cu with
      | none => exact hrest _
      | some cu_die =>
        have hsup := h cu (List.mem_cons_self _ _) cu_die hcu
        simp only
        generalize (if out.sourceFile = none then
          ((0 : Int), LookupSource cu_die.srclines target out) else (rc, out)) = st1
        by_cases hname : wantName = true ∧ st1.2.functionName = none
        · rw [if_pos hname]
          unfold CompileUnit.supported at hsup
          cases hch : cu_die.children with
          | none => exact ⟨_, rfl⟩
          | some ch =>
            obtain ⟨child_die, siblings, siblingError⟩ := ch
            rw [hch] at hsup
            simp only [Bool.and_eq_true] at hsup
            obtain ⟨r, hr⟩ := LookupChildren_returns target siblingError child_die siblings
              hsup.1 hsup.2
            simp only [hr]
            exact hrest _
        · rw [if_neg hname]
          exact hrest _
    · rw [if_neg hcond]
      exact ⟨_, rfl⟩

theorem Lookup_returns (files : Bytes → Option DebugFile) (h : FilesSupported files)
    (filename : Option Bytes) (target : Nat) (wantName : Bool) (out : LookupOut) :
    ∃ r, Lookup files filename target wantName out = .returned r := by
  unfold Lookup
  cases hname : filename with
  | none => exact ⟨_, rfl⟩
  | some name =>
    simp only [Option.some_bind]
    cases hfile : files name with
    | none => exact ⟨_, rfl⟩
    | some file =>
      simp only
      cases hinit : file.dwarf_init with
      | none => exact ⟨_, rfl⟩
      | some dbg =>
        simp only
        obtain ⟨r, hr⟩ := ProcessFileLoop_returns target wantName dbg
          (h name file dbg hfile hinit)
          (0, { out with sourceFile := none,
                         functionName := if wantName then none else out.functionName })
        unfold ProcessFile
        rw [hr]
        simp only
        split_ifs
        · exact ⟨_, rfl⟩
        · exact ⟨_, rfl⟩

/-- C21, as stated, fails: a subprogram DIE whose `DW_AT_low_pc` has the form 27
(`DW_FORM_addrx` of DWARF 5) makes `LookupFunctionName` call `abort()`, and with it
`ProcessFile` and `Lookup`. -/
theorem Lookup_aborts_on_other_form :
    LookupFunctionName
        (subprogramDie (lit "f") [{ whatattr := some DW_AT_low_pc, whatform := 27 }]) 4100
        = .aborted
      ∧ Lookup
          (fun _ => some (fileOf
            (subprogramDie (lit "f") [{ whatattr := some DW_AT_low_pc, whatform := 27 }]) []))
          (some (lit "tester")) 4100 true {} = .aborted := by
  decide

/-- C21, amended: the symbolicator returns normally, with a result or an error code,
for every debug-information input in which every `DW_AT_low_pc` attribute has the
form `DW_FORM_addr` and every `DW_AT_high_pc` attribute has the form `DW_FORM_addr`,
`DW_FORM_udata`, `DW_FORM_data1`, `DW_FORM_data2`, `DW_FORM_data4`, `DW_FORM_data8` or
`DW_FORM_sdata`, and for every target; the loop of `LookupFunctionName` over the
attributes reaches `abort()` exactly when an attribute has another form. -/
theorem symbolicator_returns (files : Bytes → Option DebugFile) (d : Die)
    (attrs : List Attribute) (pcs : Nat × Nat) (filename : Option Bytes) (target : Nat)
    (wantName : Bool) (out : LookupOut) :
    (LookupAttributes attrs pcs = .aborted ↔ ∃ a ∈ attrs, a.supported = false)
      ∧ (d.supported = true → ∃ r, LookupFunctionName d target = .returned r)
      ∧ (∀ dbg : List (Option CompileUnit),
          (∀ cu ∈ dbg, ∀ cu_die, cu = some cu_die → cu_die.supported = true) →
          ∃ r, ProcessFile dbg target wantName out = .returned r)
      ∧ (FilesSupported files → ∃ r, Lookup files filename target wantName out = .returned r)
      ∧ (filename.bind files = none → Lookup files filename target wantName out
          = .returned (-1, out)) := by
  refine ⟨LookupAttributes_aborted_iff attrs pcs,
    fun h => LookupFunctionName_returns d target h,
    fun dbg h => ProcessFileLoop_returns target wantName dbg h _,
    fun h => Lookup_returns files h filename target wantName out, ?_⟩
  intro h
  unfold Lookup
  rw [h]

theorem symbolicator_returns_witness :
    ∃ r, Lookup (fun _ => some (fileOf
        (subprogramDie (lit "foo") [lowpcAttribute 4096, highpcOffset 16]) []))
      (some (lit "tester")) 4100 true {} = .returned r :=
  (symbolicator_returns _ (subprogramDie (lit "foo") []) [] (0, 0) (some (lit "tester")) 4100
    true {}).2.2.2.1 (by
      intro name file dbg hfile hinit cu hcu cu_die hcud
      have hf := Option.some.inj hfile
      subst hf
      have hd := Option.some.inj hinit
      subst hd
      rw [List.mem_singleton] at hcu
      rw [hcu] at hcud
      have hc := Option.some.inj hcud
      subst hc
      decide)

/-! ## C27: the function lookup over the children of a compilation unit -/

/-- C27: at the target 4100, the DIE `foo` with the range `[4096, 4112)`, given by
`DW_AT_high_pc` (offset 16) listed before `DW_AT_low_pc` (4096), is the first subprogram
of its sequence whose range contains the target, with `target - low_pc = 4`. The
loop of `ProcessFile` over the children returns no name for it, and so does `Lookup`
on a file with this DIE; when a DIE `bar` with the range `[4000, 5000)` follows, the
name returned is `bar` with offset 100. With `DW_AT_low_pc` listed first the loop
returns `foo` and 4, as the lookup by the ranges does. -/
theorem first_subprogram_not_found :
    (subprogramDie (lit "foo") [highpcOffset 16, lowpcAttribute 4096]).range
        = some (4096, 4112)
      ∧ firstContaining 4100 [subprogramDie (lit "foo") [highpcOffset 16, lowpcAttribute 4096]]
          = some (lit "foo", 4)
      ∧ LookupChildren 4100 false
          (subprogramDie (lit "foo") [highpcOffset 16, lowpcAttribute 4096]) []
          = .returned (DW_DLV_NO_ENTRY, none)
      ∧ Lookup
          (fun _ => some (fileOf
            (subprogramDie (lit "foo") [highpcOffset 16, lowpcAttribute 4096]) []))
          (some (lit "tester")) 4100 true {} = .returned (DW_DLV_NO_ENTRY, {})
      ∧ firstContaining 4100
          [subprogramDie (lit "foo") [highpcOffset 16, lowpcAttribute 4096],
           subprogramDie (lit "bar") [lowpcAttribute 4000, highpcOffset 1000]]
          = some (lit "foo", 4)
      ∧ LookupChildren 4100 false
          (subprogramDie (lit "foo") [highpcOffset 16, lowpcAttribute 4096])
          [subprogramDie (lit "bar") [lowpcAttribute 4000, highpcOffset 1000]]
          = .returned (DW_DLV_NO_ENTRY, some (lit "bar", 100))
      ∧ firstContaining 4100 [subprogramDie (lit "foo") [lowpcAttribute 4096, highpcOffset 16]]
          = some (lit "foo", 4)
      ∧ LookupChildren 4100 false
          (subprogramDie (lit "foo") [lowpcAttribute 4096, highpcOffset 16]) []
          = .returned (DW_DLV_NO_ENTRY, some (lit "foo", 4)) := by
  decide

/-! ## C22: `RetrieveSourceCodeInfo` when the lookup finds nothing -/

theorem LookupFails_noFiles : LookupFails noFiles.files := by
  intro filename target out _
  refine ⟨-1, out, ?_, by assumption, rfl⟩
  unfold Lookup
  cases filename <;> rfl

/-- C22, as stated, fails: when no file can be opened, the overload for a frame with a
symbol returns the symbol name as the function name, not an empty name. -/
theorem symbol_name_kept_on_failure :
    RetrieveSourceCodeInfo demoHost noFiles (some (lit "foo")) (lit "tester") 4100 4100
        (some (lit "tester"))
      = .returned ⟨lit "foo", [], [], 0, 0⟩ := by
  decide

theorem RetrieveSourceCodeInfoLibrary_fails (host : Host) (sym : Symbolicator)
    (hfail : LookupFails sym.files) (filename : Option Bytes) (offset_in_file : Nat)
    (out : LookupOut) (symbolNameDemangled : Bytes)
    (hd : symbolNameDemangled = [] ∨
      symbolNameDemangled = (Demangle host out.functionName).getD []) :
    RetrieveSourceCodeInfoLibrary host sym filename offset_in_file out symbolNameDemangled
      = .returned ⟨(Demangle host out.functionName).getD [], [], [], 0, 0⟩ := by
  obtain ⟨rc, out2, hl, hs, hn⟩ := hfail filename offset_in_file { out with sourceFile := none } rfl
  unfold RetrieveSourceCodeInfoLibrary
  simp only at hl hn
  rw [hl]
  simp only [hs, hn]
  rcases hd with hd | hd
  · rw [if_pos hd]
  · by_cases he : symbolNameDemangled = []
    · rw [if_pos he]
    · rw [if_neg he, hd]

/-- C22, amended: when every lookup finds neither a source file nor a function name
(as on a failure to open or to parse the library), `RetrieveSourceCodeInfo` for a frame
with a symbol returns an empty library, an empty source file, line 0 and column 0,
and as function name the symbol name it was given, demangled; the function name is
empty when no symbol name was given. For a frame without a symbol it returns an
empty function name, an empty source file, line 0 and column 0. -/
theorem all_empty_on_failure (host : Host) (sym : Symbolicator)
    (hfail : LookupFails sym.files) (symbolName : Option Bytes) (filename : Bytes)
    (offset_in_file pc : Nat) (currentExecutable : Option Bytes) :
    RetrieveSourceCodeInfo host sym symbolName filename offset_in_file pc currentExecutable
        = .returned ⟨(Demangle host symbolName).getD [], [], [], 0, 0⟩
      ∧ (Demangle host none).getD [] = []
      ∧ (∀ n : Bytes, n.head? ≠ some 95 → (Demangle host (some n)).getD [] = n)
      ∧ RetrieveSourceCodeInfoPC host sym pc currentExecutable = .returned ([], [], 0, 0) := by
  refine ⟨?_, rfl, ?_, ?_⟩
  · unfold RetrieveSourceCodeInfo
    simp only
    by_cases hexe : currentExecutable = some filename
    · rw [if_pos hexe]
      obtain ⟨rc, out1, hl, hs, hn⟩ := hfail
        (if sym.linux = true ∧ filename.length ≥ 2
            ∧ (filename[0]? ≠ some 46 ∨ filename[1]? ≠ some 47) ∧ filename[0]? ≠ some 47 then
          sym.GetCurrentProcess else currentExecutable) pc { functionName := symbolName } rfl
      simp only at hl hn
      rw [hl]
      simp only [hs]
      have h2 := RetrieveSourceCodeInfoLibrary_fails host sym hfail
        (if sym.linux = true ∧ filename.length ≥ 2
            ∧ (filename[0]? ≠ some 46 ∨ filename[1]? ≠ some 47) ∧ filename[0]? ≠ some 47 then
          sym.GetCurrentProcess else currentExecutable) offset_in_file out1
        ((Demangle host out1.functionName).getD []) (Or.inr rfl)
      rw [h2, hn]
    · rw [if_neg hexe]
      exact RetrieveSourceCodeInfoLibrary_fails host sym hfail (some filename) offset_in_file
        { functionName := symbolName } [] (Or.inl rfl)
  · intro n hn
    simp only [Demangle, hn, ne_eq, not_false_eq_true, true_or, if_true, Option.getD_some]
  · obtain ⟨rc, out1, hl, hs, hn⟩ := hfail
      (if sym.linux then sym.GetCurrentProcess else currentExecutable) pc {} rfl
    unfold RetrieveSourceCodeInfoPC
    have hl1 : Lookup sym.files (if sym.linux then sym.GetCurrentProcess else currentExecutable)
        pc true {} = .returned (rc, out1) := hl
    rw [hl1]
    simp only [hs]

theorem all_empty_on_failure_witness :
    RetrieveSourceCodeInfo demoHost noFiles none (lit "libc.so") 4100 4100
        (some (lit "tester"))
      = .returned ⟨[], [], [], 0, 0⟩ :=
  (all_empty_on_failure demoHost noFiles LookupFails_noFiles none (lit "libc.so") 4100 4100
    (some (lit "tester"))).1

/-! ## C2: the Reporter process on a stream cut before the end of `FINISH` -/

theorem ReadCrashLoopRun_bad (host : Host) (sym : Symbolicator) (options : CrashOptions)
    (n : Nat) (r : Reader) (c : Crash) (h : r.good = false) :
    ReadCrashLoopRun host sym options n r c = .returned (r, c) := by
  cases n with
  | zero => rfl
  | succ n => simp only [ReadCrashLoopRun, h, Bool.false_eq_true, if_false]

/-- The two models of `ReadCrash` agree when the calls of the symbolicator return: if
every call returns the tuple that the routine of the host gives, the loop with the
symbolicator returns what the loop with the routines of the host computes. -/
theorem ReadCrashLoopRun_returns (host : Host) (sym : Symbolicator) (options : CrashOptions)
    (hS : ∀ (symbolName : Option Bytes) (filename : Bytes) (offset_in_file pc : Nat),
      RetrieveAndPrintSymbol host sym symbolName filename offset_in_file pc
          (some options.currentExecutable)
        = .returned (host.RetrieveAndPrintSymbol symbolName filename offset_in_file pc
            options.currentExecutable))
    (hP : ∀ pc : Nat, RetrieveAndPrintPC host sym pc (some options.currentExecutable)
        = .returned (host.RetrieveAndPrintPC pc options.currentExecutable))
    (n : Nat) (r : Reader) (c : Crash) :
    ReadCrashLoopRun host sym options n r c = .returned (ReadCrashLoop host options n r c) := by
  induction n generalizing r c with
  | zero => rfl
  | succ n ih =>
    by_cases hg : r.good = true
    · simp only [ReadCrashLoopRun, ReadCrashLoop, hg, if_true]
      rcases hs : ReadRecord r with ⟨step, r1⟩
      cases step with
      | finish => rfl
      | stop => rfl
      | skip tag => exact ih r1 c
      | record rec =>
        have hadd : c.addRun host sym options rec = .returned (c.add host options rec) := by
          cases rec with
          | library symbolName filename offsetInFile addr =>
            simp only [Crash.addRun, hS, Crash.add]
          | pc addr => simp only [Crash.addRun, hP, Crash.add]
          | signal sig addr => rfl
          | uncaughtException description exceptionType => rfl
          | assertion func file line condition explanation => rfl
          | context ctx => rfl
          | breadcrumb level time message => rfl
        simp only [hadd]
        exact ih r1 _
    · have hb : r.good = false := by
        cases hc : r.good
        · rfl
        · exact absurd hc hg
      rw [ReadCrashLoopRun_bad host sym options _ r c hb, ReadCrashLoop_bad host options _ r c hb]

theorem ReadCrashRun_returns (host : Host) (sym : Symbolicator) (options : CrashOptions)
    (hS : ∀ (symbolName : Option Bytes) (filename : Bytes) (offset_in_file pc : Nat),
      RetrieveAndPrintSymbol host sym symbolName filename offset_in_file pc
          (some options.currentExecutable)
        = .returned (host.RetrieveAndPrintSymbol symbolName filename offset_in_file pc
            options.currentExecutable))
    (hP : ∀ pc : Nat, RetrieveAndPrintPC host sym pc (some options.currentExecutable)
        = .returned (host.RetrieveAndPrintPC pc options.currentExecutable))
    (input : Bytes) :
    ReadCrashRun host sym options input = .returned (ReadCrash host options input) := by
  unfold ReadCrashRun ReadCrash
  simp only
  by_cases h1 : (ReadBinaryU32 0 { input := input, good := true }).1 ≠ CrashTag.START
  · rw [if_pos h1, if_pos h1]
  · rw [if_neg h1, if_neg h1, ReadCrashLoopRun_returns host sym options hS hP]
    simp only
    split_ifs
    · rfl
    · cases options.sender with
      | none => rfl
      | some f => rfl

end Crashy
